import Mathlib

/-!
# The BVH parser of `Source/HelloWorld3rdPerson/BvHParser.cpp`

A shallow embedding of `bvh::BvHParser` and of the part of `std::ifstream`
it relies on, followed by theorems about it.

Representation.
* The input file is its character content; the stream carries the unread
  characters and the two state bits the parser can observe (`eofbit`,
  `failbit`).  `good()` is "neither bit set".
* A `std::shared_ptr<Joint>` is the position of the joint in the skeleton's
  flat registry.  A joint that is still under construction (not yet passed to
  `add_joint`) is a local value; it becomes reachable from the skeleton only
  when it is registered.
* A `float`/`double` field is represented by the decimal numeral that was
  converted into it (sign, digits, power of ten); the machine value is the
  value of the type nearest to that numeral.  The range of the type is part
  of the embedding: a numeral that rounds to infinity makes the conversion
  fail and stores the largest finite value.  `int` is 32 bit with the
  saturation of `num_get`.
* A local that the source leaves uninitialised takes its first value from an
  explicit `Indet` argument, which also says whether the components of
  `Joint::Offset` (declared in a header that is not part of the sources) are
  `float` or `double`; every theorem holds for all of them.
* The recursion of `parse_joint` runs on an explicit bound (one step per
  loop iteration or nested call); `parse_joint_total` shows that the bound
  `parse_hierarchy` passes, one more than the number of unread characters, is
  never used up.
-/

namespace bvh

/-! ## Keywords (anonymous namespace of the source) -/

def kChannels : String := "CHANNELS"
def kEnd : String := "End"
def kEndSite : String := "End Site"
def kFrame : String := "Frame"
def kFrames : String := "Frames:"
def kHierarchy : String := "HIERARCHY"
def kJoint : String := "JOINT"
def kMotion : String := "MOTION"
def kOffset : String := "OFFSET"
def kRoot : String := "ROOT"

def kXpos : String := "Xposition"
def kYpos : String := "Yposition"
def kZpos : String := "Zposition"
def kXrot : String := "Xrotation"
def kYrot : String := "Yrotation"
def kZrot : String := "Zrotation"

/-! ## The input stream -/

/-- State of the `std::ifstream` once it is open: the characters not yet
extracted and the state bits. -/
structure IStream where
  rest : List Char
  eofbit : Bool
  failbit : Bool
deriving DecidableEq, Repr

/-- Result of `file.good()`. -/
def IStream.good (s : IStream) : Bool := !s.eofbit && !s.failbit

/-- A freshly opened file with the given content. -/
def IStream.open_ (content : List Char) : IStream := ⟨content, false, false⟩

/-- Whitespace of the classic locale: space, and the controls 9 to 13. -/
def isspace (c : Char) : Bool := c.toNat = 32 || (9 ≤ c.toNat && c.toNat ≤ 13)

/-- Decimal digit. -/
def isdigit (c : Char) : Bool := 48 ≤ c.toNat && c.toNat ≤ 57

/-- Value of a run of decimal digits. -/
def digitsVal (ds : List Char) : Nat := ds.foldl (fun a c => 10 * a + (c.toNat - 48)) 0

/-- Construction of `istream::sentry` for a formatted extraction: a stream
that is not good gets `failbit`; otherwise leading whitespace is skipped, and
running into the end of the input sets `eofbit` and `failbit`.  The flag tells
whether the extraction may proceed. -/
def sentry (s : IStream) : IStream × Bool :=
  if !s.good then ({ s with failbit := true }, false)
  else
    let r := s.rest.dropWhile isspace
    if r.isEmpty then (⟨[], true, true⟩, false)
    else ({ s with rest := r }, true)

/-- Extraction `file >> token` into a `std::string`: the token is left as it
was when the sentry fails; otherwise it receives the characters up to the next
whitespace, and `eofbit` is set when the input ends there. -/
def extract_string (s : IStream) (token : String) : IStream × String :=
  let (s1, ok) := sentry s
  if !ok then (s1, token)
  else
    let r := s1.rest.dropWhile (fun c => !isspace c)
    (⟨r, r.isEmpty, false⟩, String.mk (s1.rest.takeWhile (fun c => !isspace c)))

def INT_MAX : Int := 2147483647
def INT_MIN : Int := -2147483648

/-- Strips an optional sign. -/
def scan_sign : List Char → Bool × List Char
  | c :: r => if c = '-' then (true, r) else if c = '+' then (false, r) else (false, c :: r)
  | [] => (false, [])

/-- Conversion of an `int` field by `num_get`: an optional sign and a run of
digits are taken.  Returns whether the conversion succeeded, the value stored
and the unread characters.  No digit: failure and the value 0.  Out of range:
failure and the nearest bound. -/
def scan_int (cs : List Char) : Bool × Int × List Char :=
  let (neg, r0) := scan_sign cs
  let ds := r0.takeWhile isdigit
  let r := r0.dropWhile isdigit
  if ds.isEmpty then (false, 0, r)
  else
    let v : Int := if neg then -(digitsVal ds : Int) else (digitsVal ds : Int)
    if v > INT_MAX then (false, INT_MAX, r)
    else if v < INT_MIN then (false, INT_MIN, r)
    else (true, v, r)

/-- Extraction `file >> n` into an `int`: the value is left as it was when the
sentry fails; otherwise the field is converted, a failed conversion sets
`failbit`, and `eofbit` is set when the input ends with the field. -/
def extract_int (s : IStream) (old : Int) : IStream × Int :=
  let (s1, ok) := sentry s
  if !ok then (s1, old)
  else
    let (cok, v, r) := scan_int s1.rest
    (⟨r, r.isEmpty, !cok⟩, v)

/-- A number read into a `float` or `double`, as the numeral that was
converted: `(-1)^neg * mant * 10^exp`. -/
structure Decimal where
  neg : Bool
  mant : Nat
  exp : Int
deriving DecidableEq, Repr

/-- The value 0 that a failed conversion stores. -/
def Decimal.zero : Decimal := ⟨false, 0, 0⟩

/-- The rational number a `Decimal` stands for. -/
def Decimal.toRat (v : Decimal) : ℚ := (if v.neg then -1 else 1) * (v.mant : ℚ) * (10 : ℚ) ^ v.exp

/-- Scans the optional exponent part after a mantissa: the marker and what
follows it are taken only when a mantissa digit was seen.  Returns whether the
field is still convertible, the exponent and the unread characters. -/
def scan_exponent (have_mant : Bool) : List Char → Bool × Int × List Char
  | c :: r =>
    if have_mant && (c = 'e' || c = 'E') then
      let (eneg, r1) := scan_sign r
      let es := r1.takeWhile isdigit
      (!es.isEmpty, (if eneg then -(digitsVal es : Int) else (digitsVal es : Int)),
        r1.dropWhile isdigit)
    else (true, 0, c :: r)
  | [] => (true, 0, [])

/-- Scans the optional fraction part: a point and a run of digits. -/
def scan_fraction : List Char → List Char × List Char
  | c :: r => if c = '.' then (r.takeWhile isdigit, r.dropWhile isdigit) else ([], c :: r)
  | [] => ([], [])

/-- The field of a `float` or `double` that `num_get` accumulates: the
longest prefix of the form sign, digits, point, digits, exponent.  Returns
whether the field is a numeral, the numeral and the unread characters.  A
field without mantissa digit, or with an exponent marker without exponent
digit, is no numeral; 0 stands in its place. -/
def scan_numeral (cs : List Char) : Bool × Decimal × List Char :=
  let (neg, r0) := scan_sign cs
  let ip := r0.takeWhile isdigit
  let (fp, r2) := scan_fraction (r0.dropWhile isdigit)
  let have_mant := !(ip ++ fp).isEmpty
  let (eok, e, r) := scan_exponent have_mant r2
  if have_mant && eok then (true, ⟨neg, digitsVal (ip ++ fp), e - (fp.length : Int)⟩, r)
  else (false, Decimal.zero, r)

/-- The two floating-point types the parser extracts into. -/
inductive RealType where
  | float | double
deriving DecidableEq, Repr

/-- Largest finite value of the type: `(2 - 2^-23) * 2^127` for `float`,
`(2 - 2^-52) * 2^1023` for `double`. -/
def RealType.largest : RealType → Nat
  | float => 340282346638528859811704183484516925440
  | double =>
    179769313486231570814527423731704356798070567525844996598917476803157260780028538760589558632766878171540458953514382464234321326889464182768467546703537516986049910576551282076245490090389328944075868508455133942304583236903222948165808559332123348274797826204144723168738177180919299881250404026184124858368

/-- Least magnitude that the conversion rounds to infinity, halfway between
the largest finite value and the next power of two: `2^128 - 2^103` for
`float`, `2^1024 - 2^970` for `double`. -/
def RealType.bound : RealType → Nat
  | float => 340282356779733661637539395458142568448
  | double =>
    179769313486231580793728971405303415079934132710037826936173778980444968292764750946649017977587207096330286416692887910946555547851940402630657488671505820681908902000708383676273854845817711531764475730270069855571366959622842914819860834936475292719074168444365510704342711559699508093042880177904174497792

/-- The numeral is out of the range of the type: its magnitude
`mant * 10^exp` reaches the bound. -/
def Decimal.overflows (t : RealType) (v : Decimal) : Bool :=
  if 0 ≤ v.exp then decide (t.bound ≤ v.mant * 10 ^ v.exp.toNat)
  else decide (t.bound * 10 ^ (-v.exp).toNat ≤ v.mant)

/-- Conversion of a `float` or `double` field by `num_get`.  Returns whether
the conversion succeeded, the value stored and the unread characters.  A
field that is no numeral fails and stores 0; a numeral out of the range of the
type fails and stores the largest finite value with the sign of the
numeral. -/
def scan_real (t : RealType) (cs : List Char) : Bool × Decimal × List Char :=
  let (ok, v, r) := scan_numeral cs
  if ok && v.overflows t then (false, ⟨v.neg, t.largest, 0⟩, r) else (ok, v, r)

/-- Extraction `file >> x` into a `float` or `double`: the value is left as it
was when the sentry fails; otherwise the field is converted, a failed
conversion sets `failbit`, and `eofbit` is set when the input ends with the
field. -/
def extract_real (t : RealType) (s : IStream) (old : Decimal) : IStream × Decimal :=
  let (s1, ok) := sentry s
  if !ok then (s1, old)
  else
    let (cok, v, r) := scan_real t s1.rest
    (⟨r, r.isEmpty, !cok⟩, v)

/-! ## The skeleton -/

inductive Channel where
  | XPOSITION | YPOSITION | ZPOSITION | XROTATION | YROTATION | ZROTATION
deriving DecidableEq, Repr

/-- Modelled from the spec: `Joint::Offset` is declared in a header that is
not part of the sources; the three components x, y, z. -/
structure Offset where
  x : Decimal
  y : Decimal
  z : Decimal
deriving DecidableEq, Repr

/-- Modelled from the spec: the class `Joint` is declared in a header that is
not part of the sources.  Name, offset, ordered channels, parent reference
(none for the root), ordered child references and one value sequence per
frame.  References are positions in the skeleton's registry. -/
structure Joint where
  name : String
  offset : Offset
  channels : List Channel
  parent : Option Nat
  children : List Nat
  motion_data : List (List Decimal)
deriving DecidableEq, Repr

/-- Modelled from the spec: the object `std::make_shared<Joint>()` creates;
everything empty.  The offset of a fresh joint is never observed: it is
written before the joint is registered. -/
def Joint.fresh : Joint := ⟨"", ⟨Decimal.zero, Decimal.zero, Decimal.zero⟩, [], none, [], []⟩

def Joint.set_parent (j : Joint) (parent : Option Nat) : Joint := { j with parent := parent }
def Joint.set_name (j : Joint) (name : String) : Joint := { j with name := name }
def Joint.set_offset (j : Joint) (offset : Offset) : Joint := { j with offset := offset }
def Joint.set_channels_order (j : Joint) (channels : List Channel) : Joint :=
  { j with channels := channels }
def Joint.set_children (j : Joint) (children : List Nat) : Joint := { j with children := children }
def Joint.num_channels (j : Joint) : Nat := j.channels.length
def Joint.add_frame_motion_data (j : Joint) (data : List Decimal) : Joint :=
  { j with motion_data := j.motion_data ++ [data] }

/-- Modelled from the spec: the class `BvHSkeleton` is declared in a header
that is not part of the sources.  Root reference (unset until the hierarchy is
parsed), flat registry in registration order, frame count and frame time. -/
structure BvHSkeleton where
  root_joint : Option Nat
  joints : List Joint
  num_frames : Int
  frame_time : Decimal
deriving DecidableEq, Repr

/-- Appends the joint to the registry; its reference is its position. -/
def BvHSkeleton.add_joint (b : BvHSkeleton) (j : Joint) : BvHSkeleton :=
  { b with joints := b.joints ++ [j] }
def BvHSkeleton.set_root_joint (b : BvHSkeleton) (r : Option Nat) : BvHSkeleton :=
  { b with root_joint := r }
def BvHSkeleton.set_num_frames (b : BvHSkeleton) (n : Int) : BvHSkeleton :=
  { b with num_frames := n }
def BvHSkeleton.set_frame_time (b : BvHSkeleton) (t : Decimal) : BvHSkeleton :=
  { b with frame_time := t }

/-- The call `joint->set_children(children)` through the reference `joint`. -/
def BvHSkeleton.set_children (b : BvHSkeleton) (joint : Nat) (children : List Nat) :
    BvHSkeleton :=
  { b with joints := b.joints.modify (fun j => j.set_children children) joint }

/-- What the sources leave open: the values that the locals declared without
initialiser hold before their first assignment, and the type of the
components of `Joint::Offset`, which is declared in a header that is not part
of the sources. -/
structure Indet where
  offset : Offset
  frames_num : Int
  frame_time : Decimal
  number : Decimal
  num : Int
  offset_type : RealType

/-! ## The parser -/

/-- The chain of comparisons in the loop of `parse_channel_order`. -/
def channel_of_token (token : String) : Option Channel :=
  if token = kXpos then some Channel.XPOSITION
  else if token = kYpos then some Channel.YPOSITION
  else if token = kZpos then some Channel.ZPOSITION
  else if token = kXrot then some Channel.XROTATION
  else if token = kYrot then some Channel.YROTATION
  else if token = kZrot then some Channel.ZROTATION
  else none

/-- The loop `for (int i = 0; i < num; i++)` of `parse_channel_order`, with the
number of iterations left; `none` is the `return -1` of the last branch. -/
def parse_channel_order_loop :
    Nat → IStream → String → List Channel → IStream × Option (List Channel)
  | 0, file, _, channels => (file, some channels)
  | n + 1, file, token, channels =>
    let (file, token) := extract_string file token
    match channel_of_token token with
    | some c => parse_channel_order_loop n file token (channels ++ [c])
    | none => (file, none)

/-- `BvHParser::parse_channel_order`. -/
def parse_channel_order (ind : Indet) (file : IStream) (joint : Joint) :
    Int × IStream × Joint :=
  let (file, num) := extract_int file ind.num
  match parse_channel_order_loop num.toNat file "" [] with
  | (file, none) => (-1, file, joint)
  | (file, some channels) => (0, file, joint.set_channels_order channels)

/-- The three extractions `file >> offset.x >> offset.y >> offset.z` into
components of type `t`.  The
stream throws no exception (its exception mask is never set), so the `catch`
branch around them is never taken. -/
def extract_offset (t : RealType) (file : IStream) (offset : Offset) : IStream × Offset :=
  let (file, x) := extract_real t file offset.x
  let (file, y) := extract_real t file offset.y
  let (file, z) := extract_real t file offset.z
  (file, ⟨x, y, z⟩)

/-- Result of `parse_joint`: return code, stream, skeleton and the output
parameter `parsed`. -/
structure JointResult where
  ret : Int
  file : IStream
  bvh : BvHSkeleton
  parsed : Option Nat
deriving DecidableEq, Repr

/-- State of `parse_joint` when it enters its `while` loop: stream, skeleton,
reference of the joint just registered and the token read ahead. -/
structure JointHead where
  file : IStream
  bvh : BvHSkeleton
  joint : Nat
  token : String
deriving DecidableEq, Repr

/-- `BvHParser::parse_joint` up to the `while` loop (lines 127 to 195): name,
opening brace (not compared), OFFSET, CHANNELS, one token read ahead,
registration.  An early `return` is the left summand. -/
def parse_joint_head (ind : Indet) (file : IStream) (bvh : BvHSkeleton) (parent : Option Nat) :
    JointResult ⊕ JointHead :=
  let joint := Joint.fresh.set_parent parent
  let (file, name) := extract_string file ""
  let joint := joint.set_name name
  let (file, token) := extract_string file ""
  let (file, token) := extract_string file token
  if token = kOffset then
    let (file, offset) := extract_offset ind.offset_type file ind.offset
    let joint := joint.set_offset offset
    let (file, token) := extract_string file token
    if token = kChannels then
      let (ret, file, joint) := parse_channel_order ind file joint
      if ret ≠ 0 then Sum.inl ⟨ret, file, bvh, none⟩
      else
        let (file, token) := extract_string file token
        Sum.inr ⟨file, bvh.add_joint joint, bvh.joints.length, token⟩
    else Sum.inl ⟨-1, file, bvh, none⟩
  else Sum.inl ⟨-1, file, bvh, none⟩

/-- The `while (file.good())` loop of `parse_joint` (lines 201 to 271) for
the registered joint `joint`, with the local `children` and `token`.  The
recursive call `parse_joint(file, joint, child)` is `parse_joint_head`
followed by the loop of the child, and `children.push_back(child)` appends
the output parameter of that call.  The first argument bounds the number of
iterations and nested calls still allowed; `none` means it was used up. -/
def parse_joint_loop (ind : Indet) :
    Nat → IStream → BvHSkeleton → Nat → List Nat → String → Option JointResult
  | fuel, file, bvh, joint, children, token =>
    if !file.good then some ⟨-1, file, bvh, none⟩
    else
      match fuel with
      | 0 => none
      | fuel + 1 =>
        if token = kJoint then
          match parse_joint_head ind file bvh (some joint) with
          | Sum.inl r => some r
          | Sum.inr h =>
            match parse_joint_loop ind fuel h.file h.bvh h.joint [] h.token with
            | none => none
            | some r =>
              if r.ret ≠ 0 then some ⟨r.ret, r.file, r.bvh, none⟩
              else
                let children := children ++ r.parsed.toList
                let (file, token) := extract_string r.file token
                parse_joint_loop ind fuel file r.bvh joint children token
        else if token = kEnd then
          let (file, token) := extract_string file token
          let (file, token) := extract_string file token
          let tmp_joint := (Joint.fresh.set_parent (some joint)).set_name kEndSite
          let children := children ++ [bvh.joints.length]
          let (file, token) := extract_string file token
          if token = kOffset then
            let (file, offset) := extract_offset ind.offset_type file ind.offset
            let tmp_joint := tmp_joint.set_offset offset
            let (file, token) := extract_string file token
            let bvh := bvh.add_joint tmp_joint
            let (file, token) := extract_string file token
            parse_joint_loop ind fuel file bvh joint children token
          else some ⟨-1, file, bvh, none⟩
        else if token = "\x7d" then
          some ⟨0, file, bvh.set_children joint children, some joint⟩
        else
          let (file, token) := extract_string file token
          parse_joint_loop ind fuel file bvh joint children token

/-- `BvHParser::parse_joint`. -/
def parse_joint (ind : Indet) (fuel : Nat) (file : IStream) (bvh : BvHSkeleton)
    (parent : Option Nat) : Option JointResult :=
  match parse_joint_head ind file bvh parent with
  | Sum.inl r => some r
  | Sum.inr h => parse_joint_loop ind fuel h.file h.bvh h.joint [] h.token

/-- The loop `for (unsigned j = 0; j < joint->num_channels(); j++)` of
`parse_motion`, with the number of iterations left: `file >> number;
data.push_back(number)`. -/
def parse_motion_data : Nat → IStream → Decimal → List Decimal → IStream × Decimal × List Decimal
  | 0, file, number, data => (file, number, data)
  | n + 1, file, number, data =>
    let (file, number) := extract_real RealType.float file number
    parse_motion_data n file number (data ++ [number])

/-- The loop `for (auto joint : bvh_->joints())` of `parse_motion` over the
registry, returning the joints with their new sample. -/
def parse_motion_joints : List Joint → IStream → Decimal → IStream × Decimal × List Joint
  | [], file, number => (file, number, [])
  | joint :: joints, file, number =>
    let (file, number, data) := parse_motion_data joint.num_channels file number []
    let joint := joint.add_frame_motion_data data
    let (file, number, joints) := parse_motion_joints joints file number
    (file, number, joint :: joints)

/-- The loop `for (int i = 0; i < frames_num; i++)` of `parse_motion`, with
the number of iterations left. -/
def parse_motion_frames : Nat → IStream → Decimal → List Joint → IStream × Decimal × List Joint
  | 0, file, number, joints => (file, number, joints)
  | n + 1, file, number, joints =>
    let (file, number, joints) := parse_motion_joints joints file number
    parse_motion_frames n file number joints

/-- `BvHParser::parse_motion`. -/
def parse_motion (ind : Indet) (file : IStream) (bvh : BvHSkeleton) :
    Int × IStream × BvHSkeleton :=
  let (file, token) := extract_string file ""
  if token = kFrames then
    let (file, frames_num) := extract_int file ind.frames_num
    let bvh := bvh.set_num_frames frames_num
    let (file, token) := extract_string file token
    if token = kFrame then
      let (file, _) := extract_string file token
      let (file, frame_time) := extract_real RealType.double file ind.frame_time
      let bvh := bvh.set_frame_time frame_time
      let (file, _, joints) := parse_motion_frames frames_num.toNat file ind.number bvh.joints
      (0, file, { bvh with joints := joints })
    else (-1, file, bvh)
  else (-1, file, bvh)

/-- The second half of `parse_hierarchy` (lines 108 to 124): the MOTION
keyword and the motion section. -/
def parse_hierarchy_motion (ind : Indet) (file : IStream) (bvh : BvHSkeleton) (token : String) :
    Int × IStream × BvHSkeleton :=
  if file.good then
    let (file, token) := extract_string file token
    if token = kMotion then
      let (ret, file, bvh) := parse_motion ind file bvh
      if ret ≠ 0 then (ret, file, bvh) else (0, file, bvh)
    else (-1, file, bvh)
  else (0, file, bvh)

/-- `BvHParser::parse_hierarchy`.  The recursion of `parse_joint` is given
one step per unread character, and one more; `none` means that was not
enough. -/
def parse_hierarchy (ind : Indet) (file : IStream) (bvh : BvHSkeleton) :
    Option (Int × IStream × BvHSkeleton) :=
  if file.good then
    let (file, token) := extract_string file ""
    if token = kRoot then
      match parse_joint ind (file.rest.length + 1) file bvh none with
      | none => none
      | some r =>
        if r.ret ≠ 0 then some (r.ret, r.file, r.bvh)
        else some (parse_hierarchy_motion ind r.file (r.bvh.set_root_joint r.parsed) token)
    else some (-1, file, bvh)
  else some (parse_hierarchy_motion ind file bvh "")

/-- `BvHParser::parse` with `MULTI_HIERARCHY` 0.  The argument `file` is the
content of the file at `path`, or `none` when it cannot be opened.  Returns
the return code and the skeleton. -/
def parse (ind : Indet) (file : Option (List Char)) (bvh : BvHSkeleton) :
    Option (Int × BvHSkeleton) :=
  match file with
  | none => some (-1, bvh)
  | some content =>
    let (file, token) := extract_string (IStream.open_ content) ""
    if token = kHierarchy then
      match parse_hierarchy ind file bvh with
      | none => none
      | some (ret, _, bvh) => if ret ≠ 0 then some (ret, bvh) else some (0, bvh)
    else some (-1, bvh)


/-! ## Vocabulary of the statements -/

/-- What is left of the stream for the loops of the parser: 0 when the stream
is not good, else one more than the number of unread characters. -/
def IStream.left (s : IStream) : Nat := if s.good then s.rest.length + 1 else 0

/-- Splitting at whitespace, with the token under construction. -/
def tokens_aux : List Char → List Char → List (List Char)
  | acc, [] => if acc.isEmpty then [] else [acc]
  | acc, c :: cs =>
    if isspace c then (if acc.isEmpty then tokens_aux [] cs else acc :: tokens_aux [] cs)
    else tokens_aux (acc ++ [c]) cs

/-- The whitespace-delimited tokens of a text. -/
def tokens (cs : List Char) : List (List Char) := tokens_aux [] cs

/-- The stream is about to deliver the tokens `toks`: they are the tokens of
its unread characters, and it is good as long as a token is left. -/
def Ready (s : IStream) (toks : List (List Char)) : Prop :=
  tokens s.rest = toks ∧ (toks ≠ [] → s.good = true)

/-- After the characters of a token the input ends or a whitespace follows. -/
def Stop (r : List Char) : Prop := ∀ c ∈ r.head?, isspace c = true

/-- An ordered sequence of child blocks as `parse_joint` reads them: empty, a
`JOINT` block (name, offset, channels, its own child blocks) followed by more
blocks, or an `End Site` block (offset) followed by more blocks.  A single
joint with its subtree is `joint name offset channels kids nil`. -/
inductive Forest where
  | nil : Forest
  | joint (name : String) (offset : Offset) (channels : List Channel) (kids : Forest)
      (rest : Forest) : Forest
  | endsite (offset : Offset) (rest : Forest) : Forest
deriving DecidableEq, Repr

/-- Number of joints (End Sites included) in the blocks. -/
def Forest.size : Forest → Nat
  | nil => 0
  | joint _ _ _ kids rest => 1 + kids.size + rest.size
  | endsite _ rest => 1 + rest.size

/-- References of the top-level blocks when the first joint of the blocks is
registered at position `base`. -/
def Forest.roots (base : Nat) : Forest → List Nat
  | nil => []
  | joint _ _ _ kids rest => base :: rest.roots (base + 1 + kids.size)
  | endsite _ rest => base :: rest.roots (base + 1)

/-- The joints of the blocks in pre-order (a joint, then the subtree of each
of its children in turn), as they stand in the registry from position `base`
on when the blocks are the children of `parent`; no motion data yet. -/
def Forest.layout (base : Nat) (parent : Option Nat) : Forest → List Joint
  | nil => []
  | joint name offset channels kids rest =>
    ⟨name, offset, channels, parent, kids.roots (base + 1), []⟩ ::
      (kids.layout (base + 1) (some base) ++ rest.layout (base + 1 + kids.size) parent)
  | endsite offset rest =>
    ⟨kEndSite, offset, [], parent, [], []⟩ :: rest.layout (base + 1) parent

/-- Values for the uninitialised locals used in the examples. -/
def ind0 : Indet :=
  ⟨⟨Decimal.zero, Decimal.zero, Decimal.zero⟩, 0, Decimal.zero, Decimal.zero, 0, RealType.float⟩

/-- The skeleton before parsing: no root, no joint. -/
def bvh0 : BvHSkeleton := ⟨none, [], 0, Decimal.zero⟩

/-- Scenario C: a hierarchy that is not followed by the keyword `MOTION`. -/
def scenario_C : List Char :=
  "HIERARCHY\nROOT Hips\n\x7b\nOFFSET 0 0 0\nCHANNELS 0\n\x7d\nFrames: 1\nFrame Time: 0.0333\n".toList

/-- Scenario A: one root joint with three position channels and one frame. -/
def scenario_A : List Char :=
  ("HIERARCHY\nROOT Hips\n\x7b\nOFFSET 0 0 0\nCHANNELS 3 Xposition Yposition Zposition\n\x7d\n" ++
    "MOTION\nFrames: 1\nFrame Time: 0.0333\n1.0 2.0 3.0\n").toList

/-- The joint with the samples appended to its motion data, and nothing else
changed. -/
def Joint.with_samples (j : Joint) (samples : List (List Decimal)) : Joint :=
  { j with motion_data := j.motion_data ++ samples }

/-- What `parse_motion` may do to a joint when it runs `k` frames: append `k`
samples, each with as many values as the joint has channels. -/
def Joint.gets_frames (k : Nat) (j j2 : Joint) : Prop :=
  ∃ samples : List (List Decimal), j2 = j.with_samples samples ∧ samples.length = k ∧
    ∀ s ∈ samples, s.length = j.channels.length

/-- A hierarchy followed by a motion section that declares -1 frames. -/
def scenario_negative_frames : List Char :=
  ("HIERARCHY\nROOT Hips\n\x7b\nOFFSET 0 0 0\nCHANNELS 0\n\x7d\n" ++
    "MOTION\nFrames: -1\nFrame Time: 0.0333\n").toList

/-- Sum of the channel counts over the joints: the number of values of one
frame. -/
def total_channels (joints : List Joint) : Nat := (joints.map Joint.num_channels).sum

/-- Sum of the channel counts of the joints registered before position `k`. -/
def channels_before (joints : List Joint) (k : Nat) : Nat := total_channels (joints.take k)

/-- The values of one frame dealt to the joints in registry order: each joint
takes as many values as it has channels, as one new sample. -/
def deal : List Joint → List Decimal → List Joint
  | [], _ => []
  | j :: js, vs =>
    j.add_frame_motion_data (vs.take j.num_channels) :: deal js (vs.drop j.num_channels)

/-- The values of `n` frames dealt frame after frame. -/
def deal_frames : Nat → List Joint → List Decimal → List Joint
  | 0, joints, _ => joints
  | n + 1, joints, vs =>
    deal_frames n (deal joints (vs.take (total_channels joints)))
      (vs.drop (total_channels joints))

/-- A registry of two joints, with two channels and one channel. -/
def two_joints : BvHSkeleton :=
  ⟨some 0,
    [⟨"Hips", ⟨Decimal.zero, Decimal.zero, Decimal.zero⟩,
        [Channel.XPOSITION, Channel.YROTATION], none, [1], []⟩,
      ⟨"Spine", ⟨Decimal.zero, Decimal.zero, Decimal.zero⟩,
        [Channel.ZROTATION], some 0, [], []⟩],
    0, Decimal.zero⟩

/-- Scenario D: the scenario A text cut off in the middle of its frame. -/
def scenario_D : List Char :=
  ("HIERARCHY\nROOT Hips\n\x7b\nOFFSET 0 0 0\nCHANNELS 3 Xposition Yposition Zposition\n\x7d\n" ++
    "MOTION\nFrames: 1\nFrame Time: 0.0333\n1.0 2.0\n").toList

/-- The references met by a pre-order walk of the joint tree from `ref`: the
joint, then the walk of each of its children in the order of its children
list.  The first argument bounds the depth of the walk. -/
def preorder (joints : List Joint) : Nat → Nat → List Nat
  | 0, _ => []
  | fuel + 1, ref =>
    match joints[ref]? with
    | none => []
    | some j => ref :: j.children.flatMap (fun c => preorder joints fuel c)

/-- Nesting depth of the blocks. -/
def Forest.depth : Forest → Nat
  | nil => 0
  | joint _ _ _ kids rest => max (kids.depth + 1) rest.depth
  | endsite _ rest => max 1 rest.depth

/-- Scenario B: a root with one nested joint that ends in an End Site. -/
def scenario_B : List Char :=
  ("ROOT Hips \x7b OFFSET 0 0 0 CHANNELS 0 JOINT Spine \x7b OFFSET 0 1 0 CHANNELS 0 " ++
    "End Site \x7b OFFSET 0 1 0 \x7d \x7d \x7d").toList

/-- The registry the scenario B text produces. -/
def scenario_B_registry : List Joint :=
  [⟨"Hips", ⟨⟨false, 0, 0⟩, ⟨false, 0, 0⟩, ⟨false, 0, 0⟩⟩, [], none, [1], []⟩,
    ⟨"Spine", ⟨⟨false, 0, 0⟩, ⟨false, 1, 0⟩, ⟨false, 0, 0⟩⟩, [], some 0, [2], []⟩,
    ⟨"End Site", ⟨⟨false, 0, 0⟩, ⟨false, 1, 0⟩, ⟨false, 0, 0⟩⟩, [], some 1, [], []⟩]

/-- The joint the scenario A text produces. -/
def scenario_A_joint : Joint :=
  ⟨"Hips", ⟨⟨false, 0, 0⟩, ⟨false, 0, 0⟩, ⟨false, 0, 0⟩⟩,
    [Channel.XPOSITION, Channel.YPOSITION, Channel.ZPOSITION], none, [],
    [[⟨false, 10, -1⟩, ⟨false, 20, -1⟩, ⟨false, 30, -1⟩]]⟩

/-- The name of a channel in the text. -/
def Channel.keyword : Channel → String
  | XPOSITION => kXpos
  | YPOSITION => kYpos
  | ZPOSITION => kZpos
  | XROTATION => kXrot
  | YROTATION => kYrot
  | ZROTATION => kZrot

/-- The token is, as a whole, a number that `file >> x` converts into a
variable of type `t`: a numeral within the range of `t`. -/
def is_real (t : RealType) (tok : List Char) : Bool :=
  (scan_real t tok).1 && (scan_real t tok).2.2.isEmpty

/-- The token is, as a whole, a numeral: what `file >> x` converts when the
numeral is within the range of the type of `x`. -/
def is_numeral (tok : List Char) : Bool :=
  (scan_numeral tok).1 && (scan_numeral tok).2.2.isEmpty

/-- The number a numeric token stands for. -/
def real_value (tok : List Char) : Decimal := (scan_numeral tok).2.1

/-- The token is, as a whole, the integer `n` as `file >> n` converts it. -/
def is_count (tok : List Char) (n : Nat) : Bool := decide (scan_int tok = (true, (n : Int), []))

/-- The offset written as three tokens. -/
def offset_value (x y z : List Char) : Offset := ⟨real_value x, real_value y, real_value z⟩

/-- A sequence of child blocks as text: empty, a `JOINT` block (name, the
three offset tokens, the channel count token, the channels, its own child
blocks) followed by more blocks, or an `End Site` block (the three offset
tokens) followed by more blocks. -/
inductive Block where
  | nil : Block
  | joint (name x y z count : List Char) (channels : List Channel) (kids rest : Block) : Block
  | endsite (x y z : List Char) (rest : Block) : Block

/-- The tokens of the blocks, in the order of the grammar
`JOINT <name> { OFFSET x y z CHANNELS n <names> <child-block>* }` and
`End Site { OFFSET x y z }`. -/
def Block.render : Block → List (List Char)
  | nil => []
  | joint name x y z count channels kids rest =>
    kJoint.toList :: name :: "\x7b".toList :: kOffset.toList :: x :: y :: z ::
      kChannels.toList :: count ::
      (channels.map (fun c => c.keyword.toList) ++
        (kids.render ++ "\x7d".toList :: rest.render))
  | endsite x y z rest =>
    kEnd.toList :: "Site".toList :: "\x7b".toList :: kOffset.toList :: x :: y :: z ::
      "\x7d".toList :: rest.render

/-- The offset tokens of the blocks are numbers within the range of the type
`t` of the offset components, and each channel count is the number of channel
names that follow it. -/
def Block.well_formed (t : RealType) : Block → Bool
  | nil => true
  | joint _ x y z count channels kids rest =>
    is_real t x && is_real t y && is_real t z && is_count count channels.length &&
      kids.well_formed t && rest.well_formed t
  | endsite x y z rest => is_real t x && is_real t y && is_real t z && rest.well_formed t

/-- The joints the blocks denote. -/
def Block.denote : Block → Forest
  | nil => Forest.nil
  | joint name x y z _ channels kids rest =>
    Forest.joint (String.mk name) (offset_value x y z) channels kids.denote rest.denote
  | endsite x y z rest => Forest.endsite (offset_value x y z) rest.denote

/-- A file of the grammar: the root block (name, offset tokens, channel count
token, channels, child blocks) and the motion section (frame count token,
frame time token, value tokens). -/
structure Document where
  name : List Char
  x : List Char
  y : List Char
  z : List Char
  count : List Char
  channels : List Channel
  kids : Block
  frames : List Char
  frame_time : List Char
  values : List (List Char)

/-- The tokens of the file: `HIERARCHY`, the `ROOT` block, `MOTION`,
`Frames: n`, `Frame Time: t` and the values. -/
def Document.render (d : Document) : List (List Char) :=
  kHierarchy.toList :: kRoot.toList :: d.name :: "\x7b".toList :: kOffset.toList ::
    d.x :: d.y :: d.z :: kChannels.toList :: d.count ::
    (d.channels.map (fun c => c.keyword.toList) ++
      (d.kids.render ++ "\x7d".toList :: kMotion.toList :: kFrames.toList :: d.frames ::
        kFrame.toList :: "Time:".toList :: d.frame_time :: d.values))

/-- The joint tree the root block denotes. -/
def Document.tree (d : Document) : Forest :=
  Forest.joint (String.mk d.name) (offset_value d.x d.y d.z) d.channels d.kids.denote Forest.nil

/-- The file declares `n` frames, its numeric tokens are numbers that the
extractions convert (so each is within the range of its type: `t` for the
offset components, `int` for the counts, `double` for the frame time, `float`
for the values), each channel count is the number of channel names after it,
and there are `n * T` values, `T` being the number of channels of the tree. -/
def Document.well_formed (d : Document) (t : RealType) (n : Nat) : Bool :=
  is_real t d.x && is_real t d.y && is_real t d.z && is_count d.count d.channels.length &&
    d.kids.well_formed t && is_count d.frames n && is_real RealType.double d.frame_time &&
    d.values.all (is_real RealType.float) &&
    decide (d.values.length = n * total_channels (d.tree.layout 0 none))

/-- What the text says about a joint: name, offset, channels, parent and
children; everything but the motion data. -/
def Joint.shape (j : Joint) : String × Offset × List Channel × Option Nat × List Nat :=
  (j.name, j.offset, j.channels, j.parent, j.children)

/-- Number of `JOINT` blocks in the text of the blocks. -/
def Block.joint_blocks : Block → Nat
  | nil => 0
  | joint _ _ _ _ _ _ kids rest => 1 + kids.joint_blocks + rest.joint_blocks
  | endsite _ _ _ rest => rest.joint_blocks

/-- Number of `End Site` blocks in the text of the blocks. -/
def Block.endsite_blocks : Block → Nat
  | nil => 0
  | joint _ _ _ _ _ _ kids rest => kids.endsite_blocks + rest.endsite_blocks
  | endsite _ _ _ rest => 1 + rest.endsite_blocks

/-- Number of `ROOT` and `JOINT` blocks of the file. -/
def Document.joint_blocks (d : Document) : Nat := 1 + d.kids.joint_blocks

/-- Number of `End Site` blocks of the file. -/
def Document.endsite_blocks (d : Document) : Nat := d.kids.endsite_blocks

/-- A file of the grammar: a root with two channels, a nested joint with one
channel that ends in an End Site, and two frames of three values. -/
def scenario_E : List Char :=
  ("HIERARCHY\nROOT Hips\n\x7b\n  OFFSET 0 0 0\n  CHANNELS 2 Xposition Yrotation\n" ++
    "  JOINT Spine\n  \x7b\n    OFFSET 0 1.5 0\n    CHANNELS 1 Zrotation\n" ++
    "    End Site\n    \x7b\n      OFFSET 0 1 0\n    \x7d\n  \x7d\n\x7d\n" ++
    "MOTION\nFrames: 2\nFrame Time: 0.1\n1 2 3\n4 5 -6e1\n").toList

/-- The file `scenario_E` as a document of the grammar. -/
def document_E : Document :=
  { name := "Hips".toList, x := "0".toList, y := "0".toList, z := "0".toList,
    count := "2".toList, channels := [Channel.XPOSITION, Channel.YROTATION],
    kids := Block.joint "Spine".toList "0".toList "1.5".toList "0".toList "1".toList
      [Channel.ZROTATION] (Block.endsite "0".toList "1".toList "0".toList Block.nil) Block.nil,
    frames := "2".toList, frame_time := "0.1".toList,
    values := ["1".toList, "2".toList, "3".toList, "4".toList, "5".toList, "-6e1".toList] }

/-- The registry that parsing `scenario_E` produces. -/
def scenario_E_registry : List Joint :=
  [⟨"Hips", ⟨⟨false, 0, 0⟩, ⟨false, 0, 0⟩, ⟨false, 0, 0⟩⟩,
      [Channel.XPOSITION, Channel.YROTATION], none, [1],
      [[⟨false, 1, 0⟩, ⟨false, 2, 0⟩], [⟨false, 4, 0⟩, ⟨false, 5, 0⟩]]⟩,
    ⟨"Spine", ⟨⟨false, 0, 0⟩, ⟨false, 15, -1⟩, ⟨false, 0, 0⟩⟩,
      [Channel.ZROTATION], some 0, [2], [[⟨false, 3, 0⟩], [⟨true, 6, 1⟩]]⟩,
    ⟨"End Site", ⟨⟨false, 0, 0⟩, ⟨false, 1, 0⟩, ⟨false, 0, 0⟩⟩, [], some 1, [], [[], []]⟩]

/-- A file that ends inside the root block, before its closing brace. -/
def scenario_unterminated : List Char :=
  "HIERARCHY\nROOT Hips\n\x7b\nOFFSET 0 0 0\nCHANNELS 0\n".toList


/-- Child-block text as the loop of `parse_joint` reads it: empty; a single
token in the place of a block; a `JOINT` block (name, the token after the
name, the three offset tokens, the channel count token, the channels, its
own child blocks); or an `End` block (the two tokens after `End`, the three
offset tokens, the token after them); each followed by more text. -/
inductive Lax where
  | nil : Lax
  | skip (tok : List Char) (rest : Lax) : Lax
  | joint (name open_ x y z count : List Char) (channels : List Channel) (kids rest : Lax) : Lax
  | endsite (site open_ x y z close : List Char) (rest : Lax) : Lax

/-- The tokens of the text, in the order
`JOINT <name> <open> OFFSET x y z CHANNELS n <names> <child text> }` and
`End <site> <open> OFFSET x y z <close>`. -/
def Lax.render : Lax → List (List Char)
  | nil => []
  | skip tok rest => tok :: rest.render
  | joint name open_ x y z count channels kids rest =>
    kJoint.toList :: name :: open_ :: kOffset.toList :: x :: y :: z ::
      kChannels.toList :: count ::
      (channels.map (fun c => c.keyword.toList) ++
        (kids.render ++ "\x7d".toList :: rest.render))
  | endsite site open_ x y z close rest =>
    kEnd.toList :: site :: open_ :: kOffset.toList :: x :: y :: z :: close :: rest.render

/-- The offset tokens are numbers in the sense of `num` (`is_real t`: numerals
within the range of the type `t` of the offset components; `is_numeral`:
numerals), each channel count is the number of channel names that follow it,
and a single token in the place of a block is none of `JOINT`, `End` and the
closing brace. -/
def Lax.well_formed (num : List Char → Bool) : Lax → Bool
  | nil => true
  | skip tok rest =>
    decide (String.mk tok ≠ kJoint) && decide (String.mk tok ≠ kEnd) &&
      decide (String.mk tok ≠ "\x7d") && rest.well_formed num
  | joint _ _ x y z count channels kids rest =>
    num x && num y && num z && is_count count channels.length &&
      kids.well_formed num && rest.well_formed num
  | endsite _ _ x y z _ rest => num x && num y && num z && rest.well_formed num

/-- The joints the text denotes: one for each `JOINT` and each `End`
block. -/
def Lax.denote : Lax → Forest
  | nil => Forest.nil
  | skip _ rest => rest.denote
  | joint name _ x y z _ channels kids rest =>
    Forest.joint (String.mk name) (offset_value x y z) channels kids.denote rest.denote
  | endsite _ _ x y z _ rest => Forest.endsite (offset_value x y z) rest.denote

/-- A root block whose brace is replaced by a bracket and that holds a token
that is no keyword in the place of a child block. -/
def scenario_lax : List Char :=
  "Hips [ OFFSET 0 0 0 CHANNELS 0 junk End Point ( OFFSET 0 1 0 ) \x7d MOTION".toList

/-- The text of a block from its name up to a defect.  `offset`: the header
up to an offset token `bad` after fewer than three offset tokens `good`.
`channel`: the header up to a channel token `bad` after the channel names
`good`, fewer than the declared number `n`.  `inside`: a complete header,
complete child text `done`, and a `JOINT` block with a defect.  `endsite`: a
complete header, complete child text `done`, and an `End` block up to an
offset token `bad`. -/
inductive Broken where
  | offset (name open_ : List Char) (good : List (List Char)) (bad : List Char) : Broken
  | channel (name open_ x y z count : List Char) (n : Nat) (good : List Channel)
      (bad : List Char) : Broken
  | inside (name open_ x y z count : List Char) (channels : List Channel) (done : Lax)
      (inner : Broken) : Broken
  | endsite (name open_ x y z count : List Char) (channels : List Channel) (done : Lax)
      (site open2 : List Char) (good : List (List Char)) (bad : List Char) : Broken

/-- The tokens of the text, ending with the token `bad`. -/
def Broken.render : Broken → List (List Char)
  | offset name open_ good bad => name :: open_ :: kOffset.toList :: (good ++ [bad])
  | channel name open_ x y z count _ good bad =>
    name :: open_ :: kOffset.toList :: x :: y :: z :: kChannels.toList :: count ::
      (good.map (fun c => c.keyword.toList) ++ [bad])
  | inside name open_ x y z count channels done inner =>
    name :: open_ :: kOffset.toList :: x :: y :: z :: kChannels.toList :: count ::
      (channels.map (fun c => c.keyword.toList) ++
        (done.render ++ kJoint.toList :: inner.render))
  | endsite name open_ x y z count channels done site open2 good bad =>
    name :: open_ :: kOffset.toList :: x :: y :: z :: kChannels.toList :: count ::
      (channels.map (fun c => c.keyword.toList) ++
        (done.render ++ kEnd.toList :: site :: open2 :: kOffset.toList :: (good ++ [bad])))

/-- The text before the token `bad` is well formed (its offset tokens are
numerals, each channel count is the number of channel names after it), and
`bad` is a defect: at an offset position the conversion into the type `t` of
the offset components fails on it (the characters taken from its start hold
no mantissa digit, or an exponent marker without exponent digit, or are a
numeral out of the range of `t`), at a channel position it is none of the six
channel names. -/
def Broken.well_formed (t : RealType) : Broken → Bool
  | offset _ _ good bad =>
    decide (good.length < 3) && good.all is_numeral && !(scan_real t bad).1
  | channel _ _ x y z count n good bad =>
    is_numeral x && is_numeral y && is_numeral z && is_count count n &&
      decide (good.length < n) && (channel_of_token (String.mk bad)).isNone
  | inside _ _ x y z count channels done inner =>
    is_numeral x && is_numeral y && is_numeral z && is_count count channels.length &&
      done.well_formed is_numeral && inner.well_formed t
  | endsite _ _ x y z count channels done _ _ good bad =>
    is_numeral x && is_numeral y && is_numeral z && is_count count channels.length &&
      done.well_formed is_numeral && decide (good.length < 3) && good.all is_numeral &&
      !(scan_real t bad).1

/-- The defect is a channel name. -/
def Broken.in_channels : Broken → Bool
  | offset _ _ _ _ => false
  | channel _ _ _ _ _ _ _ _ _ => true
  | inside _ _ _ _ _ _ _ _ inner => inner.in_channels
  | endsite _ _ _ _ _ _ _ _ _ _ _ _ => false

/-- The defect is an offset value. -/
def Broken.in_offset : Broken → Bool
  | offset _ _ _ _ => true
  | channel _ _ _ _ _ _ _ _ _ => false
  | inside _ _ _ _ _ _ _ _ inner => inner.in_offset
  | endsite _ _ _ _ _ _ _ _ _ _ _ _ => true

/-- A file whose second joint declares two channels and names `Wposition` as
the second. -/
def scenario_bad_channel : List Char :=
  ("HIERARCHY\nROOT Hips\n\x7b\nOFFSET 0 0 0\nCHANNELS 1 Xposition\nJOINT Leg\n\x7b\n" ++
    "OFFSET 0 1 0\nCHANNELS 2 Xrotation Wposition\n\x7d\n\x7d\n" ++
    "MOTION\nFrames: 1\nFrame Time: 0.1\n1 2 3\n").toList

/-- A file whose End Site offset has the token `abc` as its second value. -/
def scenario_bad_offset : List Char :=
  ("HIERARCHY\nROOT Hips\n\x7b\nOFFSET 0 0 0\nCHANNELS 0\nEnd Site\n\x7b\n" ++
    "OFFSET 0 abc 0\n\x7d\n\x7d\nMOTION\nFrames: 0\nFrame Time: 0.1\n").toList

/-- A file whose third offset value is the token `0CHANNELS`: a numeral
followed by the keyword, without whitespace between them. -/
def scenario_offset_prefix : List Char :=
  ("HIERARCHY\nROOT Hips\n\x7b\nOFFSET 0 0 0CHANNELS 0\n\x7d\n" ++
    "MOTION\nFrames: 0\nFrame Time: 0.1\n").toList

/-! ## The stream primitives -/

theorem sentry_not_good (s : IStream) (h : s.good = false) :
    sentry s = ({ s with failbit := true }, false) := by
  simp [sentry, h]

theorem sentry_good (s : IStream) (h : s.good = true) :
    sentry s = if (s.rest.dropWhile isspace).isEmpty then (⟨[], true, true⟩, false)
      else (⟨s.rest.dropWhile isspace, false, false⟩, true) := by
  have h1 : s.eofbit = false ∧ s.failbit = false := by
    simpa [IStream.good] using h
  simp only [sentry, h, Bool.not_true]
  split_ifs <;> simp_all

theorem left_not_good (s : IStream) (h : s.good = false) : s.left = 0 := by
  simp [IStream.left, h]

theorem left_good (s : IStream) (h : s.good = true) : s.left = s.rest.length + 1 := by
  simp [IStream.left, h]

theorem left_mk (r : List Char) (f : Bool) :
    (IStream.mk r r.isEmpty f).left ≤ r.length + 1 := by
  cases r <;> cases f <;> simp [IStream.left, IStream.good]

theorem length_dropWhile_le {α : Type} (p : α → Bool) (l : List α) :
    (l.dropWhile p).length ≤ l.length :=
  (List.dropWhile_sublist p).length_le

theorem length_dropWhile_lt {α : Type} (p : α → Bool) (a : α) (l : List α) (h : p a = true) :
    ((a :: l).dropWhile p).length < (a :: l).length := by
  rw [List.dropWhile_cons_of_pos h]
  exact Nat.lt_succ_of_le (length_dropWhile_le p l)

theorem head_dropWhile_isspace (l : List Char) (a : Char) (r : List Char)
    (h : l.dropWhile isspace = a :: r) : isspace a = false := by
  have := List.head?_dropWhile_not isspace l
  rw [h] at this
  simpa using this

/-- Every extraction uses up one unit of what is left of the stream. -/
theorem extract_string_left (s : IStream) (token : String) :
    (extract_string s token).1.left ≤ s.left - 1 := by
  unfold extract_string
  cases hg : s.good
  · simp [sentry_not_good s hg, IStream.left, IStream.good]
  · rw [sentry_good s hg, left_good s hg]
    cases hr : s.rest.dropWhile isspace with
    | nil => simp [IStream.left, IStream.good]
    | cons a r =>
      have ha := head_dropWhile_isspace _ _ _ hr
      have h1 : ((a :: r).dropWhile (fun c => !isspace c)).length < (a :: r).length :=
        length_dropWhile_lt _ a r (by simp [ha])
      have h2 := length_dropWhile_le isspace s.rest
      rw [hr] at h2
      simp only [List.isEmpty_cons, Bool.false_eq_true, ↓reduceIte, Bool.not_true]
      refine le_trans (left_mk _ _) ?_
      omega

theorem scan_sign_length (cs : List Char) : (scan_sign cs).2.length ≤ cs.length := by
  cases cs with
  | nil => simp [scan_sign]
  | cons c r =>
    simp only [scan_sign]
    split_ifs <;> simp

theorem scan_int_length (cs : List Char) :
    (scan_int cs).2.2.length ≤ cs.length ∧
      ((scan_int cs).1 = true → (scan_int cs).2.2.length < cs.length) := by
  have h0 := scan_sign_length cs
  unfold scan_int
  cases hs : scan_sign cs with
  | mk neg r0 =>
    rw [hs] at h0
    simp only at h0 ⊢
    have h1 := length_dropWhile_le isdigit r0
    cases r0 with
    | nil => simp
    | cons a r =>
      by_cases ha : isdigit a = true
      · have h2 := length_dropWhile_lt isdigit a r ha
        simp only [List.takeWhile_cons_of_pos ha, List.isEmpty_cons, Bool.false_eq_true,
          ↓reduceIte]
        split_ifs <;> simp <;> omega
      · simp only [List.takeWhile_cons_of_neg ha, List.isEmpty_nil, ↓reduceIte]
        simp
        omega

theorem extract_int_left (s : IStream) (old : Int) :
    (extract_int s old).1.left ≤ s.left - 1 := by
  unfold extract_int
  cases hg : s.good
  · simp [sentry_not_good s hg, IStream.left, IStream.good]
  · rw [sentry_good s hg, left_good s hg]
    cases hr : s.rest.dropWhile isspace with
    | nil => simp [IStream.left, IStream.good]
    | cons a r =>
      have h2 := length_dropWhile_le isspace s.rest
      rw [hr] at h2
      have h3 := scan_int_length (a :: r)
      simp only [List.isEmpty_cons, Bool.false_eq_true, ↓reduceIte, Bool.not_true]
      cases hsc : scan_int (a :: r) with
      | mk cok vr =>
        cases vr with
        | mk v r1 =>
          rw [hsc] at h3
          simp only at h3 ⊢
          cases cok with
          | false => simp [IStream.left, IStream.good]
          | true =>
            refine le_trans (left_mk _ _) ?_
            have := h3.2 rfl
            omega

theorem scan_fraction_length (l : List Char) :
    (scan_fraction l).2.length ≤ l.length ∧
      ((scan_fraction l).1 ≠ [] → (scan_fraction l).2.length < l.length) := by
  cases l with
  | nil => simp [scan_fraction]
  | cons c r =>
    simp only [scan_fraction]
    have := length_dropWhile_le isdigit r
    split_ifs
    · constructor
      · simp only [List.length_cons]
        omega
      · intro _
        simp only [List.length_cons]
        omega
    · simp

theorem scan_exponent_length (m : Bool) (l : List Char) :
    (scan_exponent m l).2.2.length ≤ l.length := by
  unfold scan_exponent
  split
  · next c r =>
    split_ifs
    · have h1 := scan_sign_length r
      have h2 := length_dropWhile_le isdigit (scan_sign r).2
      cases hs : scan_sign r with
      | mk eneg r1 =>
        rw [hs] at h1 h2
        simp only at h1 h2 ⊢
        simp
        omega
    · simp
  · simp

theorem takeWhile_ne_nil_length {α : Type} (p : α → Bool) (l : List α)
    (h : l.takeWhile p ≠ []) : (l.dropWhile p).length < l.length := by
  cases l with
  | nil => simp at h
  | cons a r =>
    by_cases ha : p a = true
    · exact length_dropWhile_lt p a r ha
    · simp [List.takeWhile_cons_of_neg ha] at h

theorem scan_numeral_length (cs : List Char) :
    (scan_numeral cs).2.2.length ≤ cs.length ∧
      ((scan_numeral cs).1 = true → (scan_numeral cs).2.2.length < cs.length) := by
  have h0 := scan_sign_length cs
  unfold scan_numeral
  cases hs : scan_sign cs with
  | mk neg r0 =>
    rw [hs] at h0
    simp only at h0 ⊢
    have h1 := length_dropWhile_le isdigit r0
    have h2 := scan_fraction_length (r0.dropWhile isdigit)
    cases hf : scan_fraction (r0.dropWhile isdigit) with
    | mk fp r2 =>
      rw [hf] at h2
      simp only at h2 ⊢
      have h3 := scan_exponent_length (!(r0.takeWhile isdigit ++ fp).isEmpty) r2
      cases he : scan_exponent (!(r0.takeWhile isdigit ++ fp).isEmpty) r2 with
      | mk eok er =>
        cases er with
        | mk e r =>
          rw [he] at h3
          simp only at h3 ⊢
          constructor
          · split_ifs <;> simp <;> omega
          · intro hok
            split_ifs at hok ⊢ with hc
            · simp only [Bool.and_eq_true, Bool.not_eq_eq_eq_not, Bool.not_true,
                List.isEmpty_eq_false_iff_exists_mem] at hc
              simp only
              have hne : r0.takeWhile isdigit ++ fp ≠ [] := by
                obtain ⟨⟨x, hx⟩, _⟩ := hc
                intro h
                rw [h] at hx
                simp at hx
              by_cases hip : r0.takeWhile isdigit = []
              · have hfp : fp ≠ [] := by
                  intro h
                  apply hne
                  simp [hip, h]
                have := h2.2 hfp
                omega
              · have := takeWhile_ne_nil_length isdigit r0 hip
                omega

/-- The range check does not change what is left unread, and a conversion
that succeeds is the numeral of the field. -/
theorem scan_real_numeral (t : RealType) (cs : List Char) :
    (scan_real t cs).2.2 = (scan_numeral cs).2.2 ∧
      ((scan_real t cs).1 = true → scan_real t cs = scan_numeral cs) := by
  unfold scan_real
  rcases scan_numeral cs with ⟨ok, v, r⟩
  dsimp only
  by_cases c : (ok && v.overflows t) = true
  · rw [if_pos c]
    exact ⟨rfl, fun h => by simp at h⟩
  · rw [if_neg c]
    exact ⟨rfl, fun _ => rfl⟩

theorem scan_real_length (t : RealType) (cs : List Char) :
    (scan_real t cs).2.2.length ≤ cs.length ∧
      ((scan_real t cs).1 = true → (scan_real t cs).2.2.length < cs.length) := by
  have h := scan_numeral_length cs
  have h2 := scan_real_numeral t cs
  rw [h2.1]
  refine ⟨h.1, fun hok => h.2 ?_⟩
  rw [← h2.2 hok]
  exact hok

theorem extract_real_left (t : RealType) (s : IStream) (old : Decimal) :
    (extract_real t s old).1.left ≤ s.left - 1 := by
  unfold extract_real
  cases hg : s.good
  · simp [sentry_not_good s hg, IStream.left, IStream.good]
  · rw [sentry_good s hg, left_good s hg]
    cases hr : s.rest.dropWhile isspace with
    | nil => simp [IStream.left, IStream.good]
    | cons a r =>
      have h2 := length_dropWhile_le isspace s.rest
      rw [hr] at h2
      have h3 := scan_real_length t (a :: r)
      simp only [List.isEmpty_cons, Bool.false_eq_true, ↓reduceIte, Bool.not_true]
      cases hsc : scan_real t (a :: r) with
      | mk cok vr =>
        cases vr with
        | mk v r1 =>
          rw [hsc] at h3
          simp only at h3 ⊢
          cases cok with
          | false => simp [IStream.left, IStream.good]
          | true =>
            refine le_trans (left_mk _ _) ?_
            have := h3.2 rfl
            omega

/-! ## What is left of the stream never grows -/

theorem extract_offset_left (t : RealType) (file : IStream) (offset : Offset) :
    (extract_offset t file offset).1.left ≤ file.left - 1 := by
  unfold extract_offset
  have e1 := extract_real_left t file offset.x
  cases h1 : extract_real t file offset.x with
  | mk f1 x =>
    rw [h1] at e1
    dsimp only at e1 ⊢
    have e2 := extract_real_left t f1 offset.y
    cases h2 : extract_real t f1 offset.y with
    | mk f2 y =>
      rw [h2] at e2
      dsimp only at e2 ⊢
      have e3 := extract_real_left t f2 offset.z
      cases h3 : extract_real t f2 offset.z with
      | mk f3 z =>
        rw [h3] at e3
        dsimp only at e3 ⊢
        omega

theorem parse_channel_order_loop_left (n : Nat) (file : IStream) (token : String)
    (channels : List Channel) :
    (parse_channel_order_loop n file token channels).1.left ≤ file.left := by
  induction n generalizing file token channels with
  | zero => simp [parse_channel_order_loop]
  | succ n ih =>
    unfold parse_channel_order_loop
    have e1 := extract_string_left file token
    cases h1 : extract_string file token with
    | mk f1 t1 =>
      rw [h1] at e1
      dsimp only at e1 ⊢
      cases channel_of_token t1 with
      | none =>
        simp only
        omega
      | some c =>
        simp only
        have := ih f1 t1 (channels ++ [c])
        omega

theorem parse_channel_order_left (ind : Indet) (file : IStream) (joint : Joint) :
    (parse_channel_order ind file joint).2.1.left ≤ file.left - 1 := by
  unfold parse_channel_order
  have e1 := extract_int_left file ind.num
  cases h1 : extract_int file ind.num with
  | mk f1 num =>
    rw [h1] at e1
    dsimp only at e1 ⊢
    have e2 := parse_channel_order_loop_left num.toNat f1 "" []
    cases h2 : parse_channel_order_loop num.toNat f1 "" [] with
    | mk f2 o =>
      rw [h2] at e2
      dsimp only at e2 ⊢
      cases o <;> dsimp only <;> omega

theorem parse_joint_head_left (ind : Indet) (file : IStream) (bvh : BvHSkeleton)
    (parent : Option Nat) :
    (∀ r, parse_joint_head ind file bvh parent = Sum.inl r → r.file.left ≤ file.left) ∧
    (∀ h, parse_joint_head ind file bvh parent = Sum.inr h → h.file.left ≤ file.left - 1) := by
  unfold parse_joint_head
  have e1 := extract_string_left file ""
  cases h1 : extract_string file "" with
  | mk f1 name =>
  rw [h1] at e1
  dsimp only at e1 ⊢
  have e2 := extract_string_left f1 ""
  cases h2 : extract_string f1 "" with
  | mk f2 t2 =>
  rw [h2] at e2
  dsimp only at e2 ⊢
  have e3 := extract_string_left f2 t2
  cases h3 : extract_string f2 t2 with
  | mk f3 t3 =>
  rw [h3] at e3
  dsimp only at e3 ⊢
  by_cases c1 : t3 = kOffset
  · rw [if_pos c1]
    have e4 := extract_offset_left ind.offset_type f3 ind.offset
    cases h4 : extract_offset ind.offset_type f3 ind.offset with
    | mk f4 off =>
    rw [h4] at e4
    dsimp only at e4 ⊢
    have e5 := extract_string_left f4 t3
    cases h5 : extract_string f4 t3 with
    | mk f5 t5 =>
    rw [h5] at e5
    dsimp only at e5 ⊢
    by_cases c2 : t5 = kChannels
    · rw [if_pos c2]
      have e6 := parse_channel_order_left ind f5
        (((Joint.fresh.set_parent parent).set_name name).set_offset off)
      cases h6 : parse_channel_order ind f5
        (((Joint.fresh.set_parent parent).set_name name).set_offset off) with
      | mk ret fj =>
      cases fj with
      | mk f6 j6 =>
      rw [h6] at e6
      dsimp only at e6 ⊢
      by_cases c3 : ret ≠ 0
      · rw [if_pos c3]
        refine ⟨fun r hr => ?_, fun h hh => ?_⟩
        · cases hr
          dsimp only
          omega
        · cases hh
      · rw [if_neg c3]
        have e7 := extract_string_left f6 t5
        cases h7 : extract_string f6 t5 with
        | mk f7 t7 =>
        rw [h7] at e7
        dsimp only at e7 ⊢
        refine ⟨fun r hr => ?_, fun h hh => ?_⟩
        · cases hr
        · cases hh
          dsimp only
          omega
    · rw [if_neg c2]
      refine ⟨fun r hr => ?_, fun h hh => ?_⟩
      · cases hr
        dsimp only
        omega
      · cases hh
  · rw [if_neg c1]
    refine ⟨fun r hr => ?_, fun h hh => ?_⟩
    · cases hr
      dsimp only
      omega
    · cases hh

/-! ## Unfolding the loop of `parse_joint` -/

theorem parse_joint_loop_eq (ind : Indet) (fuel : Nat) (file : IStream)
    (bvh : BvHSkeleton) (joint : Nat) (children : List Nat) (token : String) :
    parse_joint_loop ind fuel file bvh joint children token =
    if !file.good then some ⟨-1, file, bvh, none⟩
    else
      match fuel with
      | 0 => none
      | fuel + 1 =>
        if token = kJoint then
          match parse_joint_head ind file bvh (some joint) with
          | Sum.inl r => some r
          | Sum.inr h =>
            match parse_joint_loop ind fuel h.file h.bvh h.joint [] h.token with
            | none => none
            | some r =>
              if r.ret ≠ 0 then some ⟨r.ret, r.file, r.bvh, none⟩
              else
                let children := children ++ r.parsed.toList
                let (file, token) := extract_string r.file token
                parse_joint_loop ind fuel file r.bvh joint children token
        else if token = kEnd then
          let (file, token) := extract_string file token
          let (file, token) := extract_string file token
          let tmp_joint := (Joint.fresh.set_parent (some joint)).set_name kEndSite
          let children := children ++ [bvh.joints.length]
          let (file, token) := extract_string file token
          if token = kOffset then
            let (file, offset) := extract_offset ind.offset_type file ind.offset
            let tmp_joint := tmp_joint.set_offset offset
            let (file, token) := extract_string file token
            let bvh := bvh.add_joint tmp_joint
            let (file, token) := extract_string file token
            parse_joint_loop ind fuel file bvh joint children token
          else some ⟨-1, file, bvh, none⟩
        else if token = "\x7d" then
          some ⟨0, file, bvh.set_children joint children, some joint⟩
        else
          let (file, token) := extract_string file token
          parse_joint_loop ind fuel file bvh joint children token := by
  cases fuel <;> rfl

theorem parse_joint_loop_not_good (ind : Indet) (fuel : Nat) (file : IStream)
    (bvh : BvHSkeleton) (joint : Nat) (children : List Nat) (token : String)
    (h : file.good = false) :
    parse_joint_loop ind fuel file bvh joint children token = some ⟨-1, file, bvh, none⟩ := by
  rw [parse_joint_loop_eq]
  simp [h]

theorem parse_joint_loop_zero (ind : Indet) (file : IStream)
    (bvh : BvHSkeleton) (joint : Nat) (children : List Nat) (token : String)
    (h : file.good = true) :
    parse_joint_loop ind 0 file bvh joint children token = none := by
  rw [parse_joint_loop_eq]
  simp [h]

theorem kEnd_ne_kJoint : ¬ kEnd = kJoint := by decide
theorem close_ne_kJoint : ¬ ("\x7d" : String) = kJoint := by decide
theorem close_ne_kEnd : ¬ ("\x7d" : String) = kEnd := by decide

theorem parse_joint_loop_joint (ind : Indet) (fuel : Nat) (file : IStream)
    (bvh : BvHSkeleton) (joint : Nat) (children : List Nat) (token : String)
    (h : file.good = true) (ht : token = kJoint) :
    parse_joint_loop ind (fuel + 1) file bvh joint children token =
      match parse_joint_head ind file bvh (some joint) with
      | Sum.inl r => some r
      | Sum.inr h =>
        match parse_joint_loop ind fuel h.file h.bvh h.joint [] h.token with
        | none => none
        | some r =>
          if r.ret ≠ 0 then some ⟨r.ret, r.file, r.bvh, none⟩
          else
            parse_joint_loop ind fuel (extract_string r.file token).1 r.bvh joint
              (children ++ r.parsed.toList) (extract_string r.file token).2 := by
  rw [parse_joint_loop_eq]
  have hg : ¬ ((!file.good) = true) := by simp [h]
  rw [if_neg hg]
  dsimp only
  rw [if_pos ht]

theorem parse_joint_loop_end (ind : Indet) (fuel : Nat) (file : IStream)
    (bvh : BvHSkeleton) (joint : Nat) (children : List Nat) (token : String)
    (h : file.good = true) (ht : token = kEnd)
    (f1 f2 f3 : IStream) (t1 t2 t3 : String)
    (h1 : extract_string file token = (f1, t1))
    (h2 : extract_string f1 t1 = (f2, t2))
    (h3 : extract_string f2 t2 = (f3, t3)) :
    parse_joint_loop ind (fuel + 1) file bvh joint children token =
      if t3 = kOffset then
        parse_joint_loop ind fuel
          (extract_string (extract_string (extract_offset ind.offset_type f3 ind.offset).1 t3).1
            (extract_string (extract_offset ind.offset_type f3 ind.offset).1 t3).2).1
          (bvh.add_joint (((Joint.fresh.set_parent (some joint)).set_name kEndSite).set_offset
            (extract_offset ind.offset_type f3 ind.offset).2))
          joint (children ++ [bvh.joints.length])
          (extract_string (extract_string (extract_offset ind.offset_type f3 ind.offset).1 t3).1
            (extract_string (extract_offset ind.offset_type f3 ind.offset).1 t3).2).2
      else some ⟨-1, f3, bvh, none⟩ := by
  have hne : ¬ token = kJoint := by
    rw [ht]
    exact kEnd_ne_kJoint
  rw [parse_joint_loop_eq]
  have hg : ¬ ((!file.good) = true) := by simp [h]
  rw [if_neg hg]
  dsimp only
  rw [if_neg hne, if_pos ht, h1]
  dsimp only
  rw [h2]
  dsimp only
  rw [h3]

theorem parse_joint_loop_close (ind : Indet) (fuel : Nat) (file : IStream)
    (bvh : BvHSkeleton) (joint : Nat) (children : List Nat) (token : String)
    (h : file.good = true) (ht : token = "\x7d") :
    parse_joint_loop ind (fuel + 1) file bvh joint children token =
      some ⟨0, file, bvh.set_children joint children, some joint⟩ := by
  have hne : ¬ token = kJoint := by
    rw [ht]
    exact close_ne_kJoint
  have hne2 : ¬ token = kEnd := by
    rw [ht]
    exact close_ne_kEnd
  rw [parse_joint_loop_eq]
  have hg : ¬ ((!file.good) = true) := by simp [h]
  rw [if_neg hg]
  dsimp only
  rw [if_neg hne, if_neg hne2, if_pos ht]

theorem parse_joint_loop_other (ind : Indet) (fuel : Nat) (file : IStream)
    (bvh : BvHSkeleton) (joint : Nat) (children : List Nat) (token : String)
    (h : file.good = true) (h1 : token ≠ kJoint) (h2 : token ≠ kEnd) (h3 : token ≠ "\x7d") :
    parse_joint_loop ind (fuel + 1) file bvh joint children token =
      parse_joint_loop ind fuel (extract_string file token).1 bvh joint children
        (extract_string file token).2 := by
  rw [parse_joint_loop_eq]
  have hg : ¬ ((!file.good) = true) := by simp [h]
  rw [if_neg hg]
  dsimp only
  rw [if_neg h1, if_neg h2, if_neg h3]

/-- Induction along the run of the loop of `parse_joint`: a property of the
loop's start state and result that holds for each way one iteration can end,
holds for every run that returns. -/
theorem parse_joint_loop_induct (ind : Indet)
    (P : IStream → BvHSkeleton → Nat → List Nat → String → JointResult → Prop)
    (h_bad : ∀ file bvh joint children token, file.good = false →
      P file bvh joint children token ⟨-1, file, bvh, none⟩)
    (h_head : ∀ file bvh joint children token r, file.good = true → token = kJoint →
      parse_joint_head ind file bvh (some joint) = Sum.inl r →
      P file bvh joint children token r)
    (h_child_fail : ∀ file bvh joint children token h r, file.good = true → token = kJoint →
      parse_joint_head ind file bvh (some joint) = Sum.inr h →
      P h.file h.bvh h.joint [] h.token r → r.ret ≠ 0 →
      P file bvh joint children token ⟨r.ret, r.file, r.bvh, none⟩)
    (h_child : ∀ file bvh joint children token h r f1 t1 r2, file.good = true →
      token = kJoint →
      parse_joint_head ind file bvh (some joint) = Sum.inr h →
      P h.file h.bvh h.joint [] h.token r → r.ret = 0 →
      extract_string r.file token = (f1, t1) →
      P f1 r.bvh joint (children ++ r.parsed.toList) t1 r2 →
      P file bvh joint children token r2)
    (h_end_fail : ∀ file bvh joint children token f1 t1 f2 t2 f3 t3, file.good = true →
      token = kEnd →
      extract_string file token = (f1, t1) → extract_string f1 t1 = (f2, t2) →
      extract_string f2 t2 = (f3, t3) → t3 ≠ kOffset →
      P file bvh joint children token ⟨-1, f3, bvh, none⟩)
    (h_end : ∀ file bvh joint children token f1 t1 f2 t2 f3 t3 f4 off f5 t5 f6 t6 r2,
      file.good = true → token = kEnd →
      extract_string file token = (f1, t1) → extract_string f1 t1 = (f2, t2) →
      extract_string f2 t2 = (f3, t3) → t3 = kOffset →
      extract_offset ind.offset_type f3 ind.offset = (f4, off) → extract_string f4 t3 = (f5, t5) →
      extract_string f5 t5 = (f6, t6) →
      P f6 (bvh.add_joint (((Joint.fresh.set_parent (some joint)).set_name kEndSite).set_offset
        off)) joint (children ++ [bvh.joints.length]) t6 r2 →
      P file bvh joint children token r2)
    (h_close : ∀ file bvh joint children token, file.good = true → token = "\x7d" →
      P file bvh joint children token ⟨0, file, bvh.set_children joint children, some joint⟩)
    (h_other : ∀ file bvh joint children token f1 t1 r2, file.good = true →
      token ≠ kJoint → token ≠ kEnd → token ≠ "\x7d" →
      extract_string file token = (f1, t1) →
      P f1 bvh joint children t1 r2 →
      P file bvh joint children token r2) :
    ∀ fuel file bvh joint children token r,
      parse_joint_loop ind fuel file bvh joint children token = some r →
      P file bvh joint children token r := by
  intro fuel
  induction fuel with
  | zero =>
    intro file bvh joint children token r hr
    cases hg : file.good
    · rw [parse_joint_loop_not_good _ _ _ _ _ _ _ hg] at hr
      cases hr
      exact h_bad _ _ _ _ _ hg
    · rw [parse_joint_loop_zero _ _ _ _ _ _ hg] at hr
      cases hr
  | succ fuel ih =>
    intro file bvh joint children token r hr
    cases hg : file.good
    · rw [parse_joint_loop_not_good _ _ _ _ _ _ _ hg] at hr
      cases hr
      exact h_bad _ _ _ _ _ hg
    · by_cases c1 : token = kJoint
      · rw [parse_joint_loop_joint _ _ _ _ _ _ _ hg c1] at hr
        cases hh : parse_joint_head ind file bvh (some joint) with
        | inl r0 =>
          rw [hh] at hr
          cases hr
          exact h_head _ _ _ _ _ _ hg c1 hh
        | inr h =>
          rw [hh] at hr
          dsimp only at hr
          cases hc : parse_joint_loop ind fuel h.file h.bvh h.joint [] h.token with
          | none =>
            rw [hc] at hr
            cases hr
          | some rc =>
            rw [hc] at hr
            dsimp only at hr
            have pc := ih _ _ _ _ _ _ hc
            by_cases c2 : rc.ret ≠ 0
            · rw [if_pos c2] at hr
              cases hr
              exact h_child_fail _ _ _ _ _ _ _ hg c1 hh pc c2
            · rw [if_neg c2] at hr
              have c2' : rc.ret = 0 := not_not.mp c2
              exact h_child _ _ _ _ _ _ _ _ _ _ hg c1 hh pc c2' rfl (ih _ _ _ _ _ _ hr)
      · by_cases c2 : token = kEnd
        · cases h1 : extract_string file token with
          | mk f1 t1 =>
          cases h2 : extract_string f1 t1 with
          | mk f2 t2 =>
          cases h3 : extract_string f2 t2 with
          | mk f3 t3 =>
          rw [parse_joint_loop_end _ _ _ _ _ _ _ hg c2 _ _ _ _ _ _ h1 h2 h3] at hr
          by_cases c3 : t3 = kOffset
          · rw [if_pos c3] at hr
            exact h_end _ _ _ _ _ _ _ _ _ _ _ _ _ _ _ _ _ _ hg c2 h1 h2 h3 c3 rfl rfl rfl
              (ih _ _ _ _ _ _ hr)
          · rw [if_neg c3] at hr
            cases hr
            exact h_end_fail _ _ _ _ _ _ _ _ _ _ _ hg c2 h1 h2 h3 c3
        · by_cases c3 : token = "\x7d"
          · rw [parse_joint_loop_close _ _ _ _ _ _ _ hg c3] at hr
            cases hr
            exact h_close _ _ _ _ _ hg c3
          · rw [parse_joint_loop_other _ _ _ _ _ _ _ hg c1 c2 c3] at hr
            exact h_other _ _ _ _ _ _ _ _ hg c1 c2 c3 rfl (ih _ _ _ _ _ _ hr)

/-- The loop of `parse_joint` never lets what is left of the stream grow. -/
theorem parse_joint_loop_left (ind : Indet) (fuel : Nat) (file : IStream) (bvh : BvHSkeleton)
    (joint : Nat) (children : List Nat) (token : String) (r : JointResult)
    (h : parse_joint_loop ind fuel file bvh joint children token = some r) :
    r.file.left ≤ file.left := by
  refine parse_joint_loop_induct ind (fun file _ _ _ _ r => r.file.left ≤ file.left)
    ?_ ?_ ?_ ?_ ?_ ?_ ?_ ?_ fuel file bvh joint children token r h
  · intro file bvh joint children token _
    exact le_refl _
  · intro file bvh joint children token r _ _ hh
    exact (parse_joint_head_left ind file bvh (some joint)).1 r hh
  · intro file bvh joint children token h r _ _ hh pc _
    have := (parse_joint_head_left ind file bvh (some joint)).2 h hh
    dsimp only at pc ⊢
    omega
  · intro file bvh joint children token h r f1 t1 r2 _ _ hh pc _ h1 p2
    have := (parse_joint_head_left ind file bvh (some joint)).2 h hh
    have e1 := extract_string_left r.file token
    rw [h1] at e1
    dsimp only at pc p2 e1 ⊢
    omega
  · intro file bvh joint children token f1 t1 f2 t2 f3 t3 _ _ h1 h2 h3 _
    have e1 := extract_string_left file token
    have e2 := extract_string_left f1 t1
    have e3 := extract_string_left f2 t2
    rw [h1] at e1
    rw [h2] at e2
    rw [h3] at e3
    dsimp only at e1 e2 e3 ⊢
    omega
  · intro file bvh joint children token f1 t1 f2 t2 f3 t3 f4 off f5 t5 f6 t6 r2 _ _
      h1 h2 h3 _ h4 h5 h6 p2
    have e1 := extract_string_left file token
    have e2 := extract_string_left f1 t1
    have e3 := extract_string_left f2 t2
    have e4 := extract_offset_left ind.offset_type f3 ind.offset
    have e5 := extract_string_left f4 t3
    have e6 := extract_string_left f5 t5
    rw [h1] at e1
    rw [h2] at e2
    rw [h3] at e3
    rw [h4] at e4
    rw [h5] at e5
    rw [h6] at e6
    dsimp only at e1 e2 e3 e4 e5 e6 p2 ⊢
    omega
  · intro file bvh joint children token _ _
    exact le_refl _
  · intro file bvh joint children token f1 t1 r2 _ _ _ _ h1 p2
    have e1 := extract_string_left file token
    rw [h1] at e1
    dsimp only at e1 p2 ⊢
    omega

/-- Fuel that covers what is left of the stream is enough: the loop of
`parse_joint` returns. -/
theorem parse_joint_loop_total (ind : Indet) :
    ∀ fuel file bvh joint children token, IStream.left file ≤ fuel →
      ∃ r, parse_joint_loop ind fuel file bvh joint children token = some r := by
  intro fuel
  induction fuel with
  | zero =>
    intro file bvh joint children token hl
    cases hg : file.good
    · exact ⟨_, parse_joint_loop_not_good _ _ _ _ _ _ _ hg⟩
    · rw [left_good _ hg] at hl
      omega
  | succ fuel ih =>
    intro file bvh joint children token hl
    cases hg : file.good
    · exact ⟨_, parse_joint_loop_not_good _ _ _ _ _ _ _ hg⟩
    · by_cases c1 : token = kJoint
      · rw [parse_joint_loop_joint _ _ _ _ _ _ _ hg c1]
        cases hh : parse_joint_head ind file bvh (some joint) with
        | inl r0 => exact ⟨_, rfl⟩
        | inr h =>
          dsimp only
          have e0 := (parse_joint_head_left ind file bvh (some joint)).2 h hh
          obtain ⟨rc, hc⟩ := ih h.file h.bvh h.joint [] h.token (by omega)
          rw [hc]
          dsimp only
          have e1 := parse_joint_loop_left _ _ _ _ _ _ _ _ hc
          by_cases c2 : rc.ret ≠ 0
          · rw [if_pos c2]
            exact ⟨_, rfl⟩
          · rw [if_neg c2]
            have e2 := extract_string_left rc.file token
            exact ih _ _ _ _ _ (by omega)
      · by_cases c2 : token = kEnd
        · cases h1 : extract_string file token with
          | mk f1 t1 =>
          cases h2 : extract_string f1 t1 with
          | mk f2 t2 =>
          cases h3 : extract_string f2 t2 with
          | mk f3 t3 =>
          rw [parse_joint_loop_end _ _ _ _ _ _ _ hg c2 _ _ _ _ _ _ h1 h2 h3]
          have e1 := extract_string_left file token
          have e2 := extract_string_left f1 t1
          have e3 := extract_string_left f2 t2
          rw [h1] at e1
          rw [h2] at e2
          rw [h3] at e3
          dsimp only at e1 e2 e3
          by_cases c3 : t3 = kOffset
          · rw [if_pos c3]
            have e4 := extract_offset_left ind.offset_type f3 ind.offset
            have e5 := extract_string_left (extract_offset ind.offset_type f3 ind.offset).1 t3
            have e6 := extract_string_left (extract_string (extract_offset ind.offset_type f3 ind.offset).1 t3).1
              (extract_string (extract_offset ind.offset_type f3 ind.offset).1 t3).2
            exact ih _ _ _ _ _ (by omega)
          · rw [if_neg c3]
            exact ⟨_, rfl⟩
        · by_cases c3 : token = "\x7d"
          · rw [parse_joint_loop_close _ _ _ _ _ _ _ hg c3]
            exact ⟨_, rfl⟩
          · rw [parse_joint_loop_other _ _ _ _ _ _ _ hg c1 c2 c3]
            have e1 := extract_string_left file token
            exact ih _ _ _ _ _ (by omega)

/-- `parse_joint` returns when the fuel covers what is left of the stream. -/
theorem parse_joint_total (ind : Indet) (fuel : Nat) (file : IStream) (bvh : BvHSkeleton)
    (parent : Option Nat) (h : file.left ≤ fuel) :
    ∃ r, parse_joint ind fuel file bvh parent = some r := by
  unfold parse_joint
  cases hh : parse_joint_head ind file bvh parent with
  | inl r => exact ⟨_, rfl⟩
  | inr hd =>
    dsimp only
    have e0 := (parse_joint_head_left ind file bvh parent).2 hd hh
    exact parse_joint_loop_total ind fuel _ _ _ _ _ (by omega)

/-! ## Tokens and extraction -/

theorem tokens_cons_space (c : Char) (cs : List Char) (h : isspace c = true) :
    tokens (c :: cs) = tokens cs := by
  simp [tokens, tokens_aux, h]

theorem tokens_dropWhile (cs : List Char) : tokens (cs.dropWhile isspace) = tokens cs := by
  induction cs with
  | nil => rfl
  | cons c cs ih =>
    by_cases h : isspace c = true
    · rw [List.dropWhile_cons_of_pos h, ih, tokens_cons_space c cs h]
    · rw [List.dropWhile_cons_of_neg h]

theorem tokens_aux_acc (cs acc : List Char) (h : acc ≠ []) :
    tokens_aux acc cs =
      (acc ++ cs.takeWhile (fun c => !isspace c)) :: tokens (cs.dropWhile (fun c => !isspace c)) := by
  induction cs generalizing acc with
  | nil =>
    cases acc with
    | nil => exact absurd rfl h
    | cons a as => simp [tokens_aux, tokens]
  | cons c cs ih =>
    by_cases hc : isspace c = true
    · cases acc with
      | nil => exact absurd rfl h
      | cons a as =>
        simp [tokens_aux, hc, tokens]
    · have hc' : isspace c = false := by simpa using hc
      have := ih (acc ++ [c]) (by simp)
      simp [tokens_aux, hc', this]

theorem tokens_cons_not_space (a : Char) (r : List Char) (h : isspace a = false) :
    tokens (a :: r) = (a :: r).takeWhile (fun c => !isspace c) ::
      tokens ((a :: r).dropWhile (fun c => !isspace c)) := by
  have := tokens_aux_acc r [a] (by simp)
  simp [tokens, tokens_aux, h, this]

theorem tokens_nil_of_dropWhile (cs : List Char) (h : cs.dropWhile isspace = []) :
    tokens cs = [] := by
  rw [← tokens_dropWhile, h]
  rfl

theorem stop_dropWhile (l : List Char) : Stop (l.dropWhile (fun c => !isspace c)) := by
  intro c hc
  have := List.head?_dropWhile_not (fun c => !isspace c) l
  rw [Option.mem_def.mp hc] at this
  simpa using this

theorem ready_of_tokens (r : List Char) (toks : List (List Char))
    (h : tokens r = toks) : Ready ⟨r, r.isEmpty, false⟩ toks := by
  refine ⟨h, fun hne => ?_⟩
  cases r with
  | nil =>
    exfalso
    apply hne
    rw [← h]
    rfl
  | cons a r => rfl

/-- The form of a good stream whose tokens are `tok :: toks`: whitespace, the
characters of `tok`, and a remainder that stops the token. -/
theorem tokens_cons_split (cs : List Char) (tok : List Char) (toks : List (List Char))
    (h : tokens cs = tok :: toks) :
    ∃ a r, cs.dropWhile isspace = a :: r ∧ isspace a = false ∧
      tok = (a :: r).takeWhile (fun c => !isspace c) ∧
      tokens ((a :: r).dropWhile (fun c => !isspace c)) = toks := by
  cases hr : cs.dropWhile isspace with
  | nil =>
    rw [tokens_nil_of_dropWhile cs hr] at h
    cases h
  | cons a r =>
    have ha := head_dropWhile_isspace _ _ _ hr
    rw [← tokens_dropWhile, hr, tokens_cons_not_space a r ha] at h
    injection h with h1 h2
    exact ⟨a, r, rfl, ha, h1.symm, h2⟩

theorem extract_string_ready (s : IStream) (token : String) (tok : List Char)
    (toks : List (List Char)) (h : Ready s (tok :: toks)) :
    ∃ s1, extract_string s token = (s1, String.mk tok) ∧ Ready s1 toks := by
  obtain ⟨ht, hg⟩ := h
  have hg := hg (by simp)
  obtain ⟨a, r, hr, ha, htok, hrest⟩ := tokens_cons_split _ _ _ ht
  refine ⟨⟨(a :: r).dropWhile (fun c => !isspace c),
    ((a :: r).dropWhile (fun c => !isspace c)).isEmpty, false⟩, ?_, ready_of_tokens _ _ hrest⟩
  unfold extract_string
  rw [sentry_good s hg, hr, htok]
  rfl

theorem extract_string_empty (s : IStream) (token : String) (h : tokens s.rest = []) :
    (extract_string s token).2 = token ∧ (extract_string s token).1.good = false := by
  unfold extract_string
  cases hg : s.good
  · rw [sentry_not_good s hg]
    simp [IStream.good]
  · rw [sentry_good s hg]
    cases hr : s.rest.dropWhile isspace with
    | nil => simp [IStream.good]
    | cons a r =>
      have ha := head_dropWhile_isspace _ _ _ hr
      rw [← tokens_dropWhile, hr, tokens_cons_not_space a r ha] at h
      cases h

/-! ## What a successful `parse_joint` leaves in the registry -/

theorem Forest.length_layout (f : Forest) : ∀ base parent,
    (f.layout base parent).length = f.size := by
  induction f with
  | nil => intro _ _; rfl
  | joint name offset channels kids rest ihk ihr =>
    intro base parent
    simp only [Forest.layout, Forest.size, List.length_cons, List.length_append, ihk, ihr]
    omega
  | endsite offset rest ih =>
    intro base parent
    simp only [Forest.layout, Forest.size, List.length_cons, ih]
    omega

theorem modify_append_left {α : Type} (f : α → α) (l l2 : List α) (n : Nat)
    (h : n < l.length) : (l ++ l2).modify f n = l.modify f n ++ l2 := by
  induction l generalizing n with
  | nil => simp at h
  | cons a l ih =>
    cases n with
    | zero => simp
    | succ n =>
      simp only [List.cons_append, List.modify_succ_cons, List.cons.injEq, true_and]
      exact ih n (by simpa using h)

theorem modify_length_append {α : Type} (f : α → α) (l l2 : List α) (a : α) :
    (l ++ a :: l2).modify f l.length = l ++ f a :: l2 := by
  induction l with
  | nil => simp
  | cons b l ih => simp [ih]

theorem parse_channel_order_ret (ind : Indet) (file : IStream) (joint : Joint) :
    ((parse_channel_order ind file joint).1 = 0 ∧
      ∃ channels, (parse_channel_order ind file joint).2.2 = joint.set_channels_order channels) ∨
    ((parse_channel_order ind file joint).1 = -1 ∧
      (parse_channel_order ind file joint).2.2 = joint) := by
  unfold parse_channel_order
  cases extract_int file ind.num with
  | mk f1 num =>
  dsimp only
  cases parse_channel_order_loop num.toNat f1 "" [] with
  | mk f2 o =>
  cases o with
  | none => exact Or.inr ⟨rfl, rfl⟩
  | some channels => exact Or.inl ⟨rfl, channels, rfl⟩

/-- An early return of the head of `parse_joint` is a failure and leaves the
skeleton as it was. -/
theorem parse_joint_head_inl (ind : Indet) (file : IStream) (bvh : BvHSkeleton)
    (parent : Option Nat) (r : JointResult)
    (h : parse_joint_head ind file bvh parent = Sum.inl r) :
    r.ret ≠ 0 ∧ r.bvh = bvh ∧ r.parsed = none := by
  unfold parse_joint_head at h
  cases h1 : extract_string file "" with
  | mk f1 name =>
  rw [h1] at h
  dsimp only at h
  cases h2 : extract_string f1 "" with
  | mk f2 t2 =>
  rw [h2] at h
  dsimp only at h
  cases h3 : extract_string f2 t2 with
  | mk f3 t3 =>
  rw [h3] at h
  dsimp only at h
  by_cases c1 : t3 = kOffset
  · rw [if_pos c1] at h
    cases h4 : extract_offset ind.offset_type f3 ind.offset with
    | mk f4 off =>
    rw [h4] at h
    dsimp only at h
    cases h5 : extract_string f4 t3 with
    | mk f5 t5 =>
    rw [h5] at h
    dsimp only at h
    by_cases c2 : t5 = kChannels
    · rw [if_pos c2] at h
      cases h6 : parse_channel_order ind f5
        (((Joint.fresh.set_parent parent).set_name name).set_offset off) with
      | mk ret fj =>
      cases fj with
      | mk f6 j6 =>
      rw [h6] at h
      dsimp only at h
      by_cases c3 : ret ≠ 0
      · rw [if_pos c3] at h
        cases h
        exact ⟨c3, rfl, rfl⟩
      · rw [if_neg c3] at h
        cases h7 : extract_string f6 t5 with
        | mk f7 t7 =>
        rw [h7] at h
        cases h
    · rw [if_neg c2] at h
      cases h
      exact ⟨by dsimp only; decide, rfl, rfl⟩
  · rw [if_neg c1] at h
    cases h
    exact ⟨by dsimp only; decide, rfl, rfl⟩

/-- When the head of `parse_joint` reaches the loop, it has registered one new
joint, with the given parent, no child and no motion data, at the end of the
registry. -/
theorem parse_joint_head_inr (ind : Indet) (file : IStream) (bvh : BvHSkeleton)
    (parent : Option Nat) (hd : JointHead)
    (h : parse_joint_head ind file bvh parent = Sum.inr hd) :
    ∃ name offset channels,
      hd.bvh = bvh.add_joint ⟨name, offset, channels, parent, [], []⟩ ∧
      hd.joint = bvh.joints.length := by
  unfold parse_joint_head at h
  cases h1 : extract_string file "" with
  | mk f1 name =>
  rw [h1] at h
  dsimp only at h
  cases h2 : extract_string f1 "" with
  | mk f2 t2 =>
  rw [h2] at h
  dsimp only at h
  cases h3 : extract_string f2 t2 with
  | mk f3 t3 =>
  rw [h3] at h
  dsimp only at h
  by_cases c1 : t3 = kOffset
  · rw [if_pos c1] at h
    cases h4 : extract_offset ind.offset_type f3 ind.offset with
    | mk f4 off =>
    rw [h4] at h
    dsimp only at h
    cases h5 : extract_string f4 t3 with
    | mk f5 t5 =>
    rw [h5] at h
    dsimp only at h
    by_cases c2 : t5 = kChannels
    · rw [if_pos c2] at h
      have hco := parse_channel_order_ret ind f5
        (((Joint.fresh.set_parent parent).set_name name).set_offset off)
      cases h6 : parse_channel_order ind f5
        (((Joint.fresh.set_parent parent).set_name name).set_offset off) with
      | mk ret fj =>
      cases fj with
      | mk f6 j6 =>
      rw [h6] at h hco
      dsimp only at h hco
      by_cases c3 : ret ≠ 0
      · rw [if_pos c3] at h
        cases h
      · rw [if_neg c3] at h
        cases h7 : extract_string f6 t5 with
        | mk f7 t7 =>
        rw [h7] at h
        cases h
        rcases hco with ⟨_, channels, hj⟩ | ⟨hr, _⟩
        · exact ⟨name, off, channels, (by rw [hj]; rfl), rfl⟩
        · exfalso
          apply c3
          rw [hr]
          decide
    · rw [if_neg c2] at h
      cases h
  · rw [if_neg c1] at h
    cases h

/-- The loop of `parse_joint`, when it returns 0 for a registered joint, has
appended the layout of the child blocks it read to the registry, has written
the references of their top-level joints after the children collected before,
has touched nothing else, and leaves the stream good. -/
theorem parse_joint_loop_layout (ind : Indet) (fuel : Nat) (file : IStream) (bvh : BvHSkeleton)
    (joint : Nat) (children : List Nat) (token : String) (r : JointResult)
    (h : parse_joint_loop ind fuel file bvh joint children token = some r)
    (h0 : r.ret = 0) (hj : joint < bvh.joints.length) :
    ∃ f : Forest,
      r.bvh = { bvh with joints :=
        (bvh.joints.modify (fun j => j.set_children (children ++ f.roots bvh.joints.length)) joint
          ++ f.layout bvh.joints.length (some joint)) } ∧
      r.parsed = some joint ∧ r.file.good = true := by
  refine parse_joint_loop_induct ind
    (fun file bvh joint children token r => r.ret = 0 → joint < bvh.joints.length →
      ∃ f : Forest,
      r.bvh = { bvh with joints :=
        (bvh.joints.modify (fun j => j.set_children (children ++ f.roots bvh.joints.length)) joint
          ++ f.layout bvh.joints.length (some joint)) } ∧
      r.parsed = some joint ∧ r.file.good = true)
    ?_ ?_ ?_ ?_ ?_ ?_ ?_ ?_ fuel file bvh joint children token r h h0 hj
  · intro file bvh joint children token _ h0
    exact absurd h0 (by dsimp only; decide)
  · intro file bvh joint children token r _ _ hh h0
    exact absurd h0 (parse_joint_head_inl ind file bvh (some joint) r hh).1
  · intro file bvh joint children token hd r _ _ _ _ hne h0
    exact absurd h0 hne
  · intro file bvh joint children token hd r f1 t1 r2 _ _ hh pc hr0 _ p2 h0 hj
    obtain ⟨name, offset, channels, hb, hjo⟩ := parse_joint_head_inr ind file bvh (some joint) hd hh
    have hlen : hd.bvh.joints.length = bvh.joints.length + 1 := by
      rw [hb]
      simp [BvHSkeleton.add_joint]
    obtain ⟨fk, hk, hpk, _⟩ := pc hr0 (by rw [hlen, hjo]; omega)
    have hrj : r.bvh.joints = bvh.joints ++
        (⟨name, offset, channels, some joint, fk.roots (bvh.joints.length + 1), []⟩ ::
          fk.layout (bvh.joints.length + 1) (some bvh.joints.length)) := by
      rw [hk, hlen, hjo, hb]
      simp only [BvHSkeleton.add_joint, List.nil_append]
      rw [modify_length_append]
      simp [Joint.set_children]
    have hrl : r.bvh.joints.length = bvh.joints.length + 1 + fk.size := by
      rw [hrj]
      simp [Forest.length_layout]
      omega
    obtain ⟨f2, h2, hp2, hg2⟩ := p2 h0 (by rw [hrl]; omega)
    refine ⟨Forest.joint name offset channels fk f2, ?_, hp2, hg2⟩
    rw [h2, hrl, hpk, hrj, modify_append_left _ _ _ _ hj, hk, hb, hjo]
    simp [Forest.roots, Forest.layout, BvHSkeleton.add_joint]
  · intro file bvh joint children token f1 t1 f2 t2 f3 t3 _ _ _ _ _ _ h0
    exact absurd h0 (by dsimp only; decide)
  · intro file bvh joint children token f1 t1 f2 t2 f3 t3 f4 off f5 t5 f6 t6 r2 _ _
      _ _ _ _ _ _ _ p2 h0 hj
    obtain ⟨f2, h2, hp2, hg2⟩ := p2 h0 (by simp [BvHSkeleton.add_joint]; omega)
    refine ⟨Forest.endsite off f2, ?_, hp2, hg2⟩
    rw [h2]
    simp only [BvHSkeleton.add_joint, List.length_append, List.length_singleton]
    rw [modify_append_left _ _ _ _ hj]
    simp [Forest.roots, Forest.layout, Joint.fresh, Joint.set_parent, Joint.set_name,
      Joint.set_offset]
  · intro file bvh joint children token hg _ _ _
    exact ⟨Forest.nil, by simp [Forest.roots, Forest.layout, BvHSkeleton.set_children], rfl, hg⟩
  · intro file bvh joint children token f1 t1 r2 _ _ _ _ _ p2 h0 hj
    exact p2 h0 hj

theorem Forest.layout_motion_data (f : Forest) : ∀ base parent,
    ∀ j ∈ f.layout base parent, j.motion_data = [] := by
  induction f with
  | nil => intro _ _ j hj; simp [Forest.layout] at hj
  | joint name offset channels kids rest ihk ihr =>
    intro base parent j hj
    simp only [Forest.layout, List.mem_cons, List.mem_append] at hj
    rcases hj with h | h | h
    · rw [h]
    · exact ihk _ _ j h
    · exact ihr _ _ j h
  | endsite offset rest ih =>
    intro base parent j hj
    simp only [Forest.layout, List.mem_cons] at hj
    rcases hj with h | h
    · rw [h]
    · exact ih _ _ j h

/-- A call of `parse_joint` that returns 0 has appended to the registry the
layout of one joint with its subtree, has touched nothing else in the
skeleton, hands back the reference of that joint and leaves the stream
good. -/
theorem parse_joint_layout (ind : Indet) (fuel : Nat) (file : IStream) (bvh : BvHSkeleton)
    (parent : Option Nat) (r : JointResult)
    (h : parse_joint ind fuel file bvh parent = some r) (h0 : r.ret = 0) :
    ∃ name offset channels kids,
      r.bvh = { bvh with joints := bvh.joints ++
        (Forest.joint name offset channels kids Forest.nil).layout bvh.joints.length parent } ∧
      r.parsed = some bvh.joints.length ∧ r.file.good = true := by
  unfold parse_joint at h
  cases hh : parse_joint_head ind file bvh parent with
  | inl r0 =>
    rw [hh] at h
    cases h
    exact absurd h0 (parse_joint_head_inl ind file bvh parent _ hh).1
  | inr hd =>
    rw [hh] at h
    dsimp only at h
    obtain ⟨name, offset, channels, hb, hjo⟩ := parse_joint_head_inr ind file bvh parent hd hh
    have hlen : hd.bvh.joints.length = bvh.joints.length + 1 := by
      rw [hb]
      simp [BvHSkeleton.add_joint]
    obtain ⟨fk, hk, hpk, hg⟩ := parse_joint_loop_layout ind fuel _ _ _ _ _ r h h0
      (by rw [hlen, hjo]; omega)
    refine ⟨name, offset, channels, fk, ?_, by rw [hpk, hjo], hg⟩
    rw [hk, hlen, hjo, hb]
    simp only [BvHSkeleton.add_joint, List.nil_append]
    rw [modify_length_append]
    simp [Forest.layout, Joint.set_children]

/-- The fuel `parse_hierarchy` gives to `parse_joint` is enough. -/
theorem parse_joint_hierarchy_total (ind : Indet) (file : IStream) (bvh : BvHSkeleton)
    (parent : Option Nat) :
    ∃ r, parse_joint ind (file.rest.length + 1) file bvh parent = some r := by
  apply parse_joint_total
  unfold IStream.left
  split <;> omega

/-! ## The steps of `parse_hierarchy` and `parse` -/

theorem parse_of_hierarchy (ind : Indet) (content : List Char) (bvh : BvHSkeleton)
    (f1 fr : IStream) (ret : Int) (b : BvHSkeleton)
    (h1 : extract_string (IStream.open_ content) "" = (f1, kHierarchy))
    (h2 : parse_hierarchy ind f1 bvh = some (ret, fr, b)) :
    parse ind (some content) bvh = some (ret, b) := by
  unfold parse
  dsimp only
  rw [h1]
  dsimp only
  rw [if_pos rfl, h2]
  dsimp only
  by_cases c : ret ≠ 0
  · rw [if_pos c]
  · rw [if_neg c, not_not.mp c]

theorem parse_hierarchy_of_joint (ind : Indet) (bvh : BvHSkeleton)
    (f1 f2 : IStream) (r : JointResult) (hg : f1.good = true)
    (h2 : extract_string f1 "" = (f2, kRoot))
    (h3 : parse_joint ind (f2.rest.length + 1) f2 bvh none = some r) :
    parse_hierarchy ind f1 bvh =
      if r.ret ≠ 0 then some (r.ret, r.file, r.bvh)
      else some (parse_hierarchy_motion ind r.file (r.bvh.set_root_joint r.parsed) kRoot) := by
  unfold parse_hierarchy
  rw [if_pos hg, h2]
  dsimp only
  rw [if_pos rfl, h3]

theorem parse_hierarchy_motion_no_motion (ind : Indet) (file : IStream) (bvh : BvHSkeleton)
    (token : String) (hg : file.good = true) (ht : token ≠ kMotion)
    (h : (tokens file.rest).head? ≠ some kMotion.toList) :
    (parse_hierarchy_motion ind file bvh token).1 = -1 ∧
      (parse_hierarchy_motion ind file bvh token).2.2 = bvh := by
  unfold parse_hierarchy_motion
  rw [if_pos hg]
  cases htk : tokens file.rest with
  | nil =>
    have e := extract_string_empty file token htk
    cases hx : extract_string file token with
    | mk f t =>
      rw [hx] at e
      dsimp only at e ⊢
      have : ¬ t = kMotion := by
        rw [e.1]
        exact ht
      rw [if_neg this]
      exact ⟨rfl, rfl⟩
  | cons tok toks =>
    have hr : Ready file (tok :: toks) := ⟨htk, fun _ => hg⟩
    obtain ⟨s1, e, _⟩ := extract_string_ready _ token _ _ hr
    rw [e]
    dsimp only
    have : ¬ String.mk tok = kMotion := by
      intro hc
      apply h
      rw [htk, ← hc]
      rfl
    rw [if_neg this]
    exact ⟨rfl, rfl⟩

/-! ## The loops of `parse_motion` -/

theorem parse_motion_data_length (n : Nat) (file : IStream) (number : Decimal)
    (data : List Decimal) :
    (parse_motion_data n file number data).2.2.length = data.length + n := by
  induction n generalizing file number data with
  | zero => rfl
  | succ n ih =>
    unfold parse_motion_data
    cases extract_real RealType.float file number with
    | mk f1 v =>
    dsimp only
    rw [ih]
    simp
    omega

theorem gets_frames_zero (j : Joint) : j.gets_frames 0 j :=
  ⟨[], by simp [Joint.with_samples], rfl, by simp⟩

theorem gets_frames_add (a b : Nat) (j j1 j2 : Joint) (h1 : j.gets_frames a j1)
    (h2 : j1.gets_frames b j2) : j.gets_frames (a + b) j2 := by
  obtain ⟨s1, e1, l1, c1⟩ := h1
  obtain ⟨s2, e2, l2, c2⟩ := h2
  refine ⟨s1 ++ s2, ?_, by simp [l1, l2], ?_⟩
  · rw [e2, e1]
    simp [Joint.with_samples]
  · intro s hs
    rcases List.mem_append.mp hs with h | h
    · exact c1 s h
    · have := c2 s h
      rw [e1] at this
      exact this

theorem forall2_gets_frames_zero (joints : List Joint) :
    List.Forall₂ (Joint.gets_frames 0) joints joints := by
  induction joints with
  | nil => exact List.Forall₂.nil
  | cons j js ih => exact List.Forall₂.cons (gets_frames_zero j) ih

theorem forall2_gets_frames_add (a b : Nat) (l l1 l2 : List Joint)
    (h1 : List.Forall₂ (Joint.gets_frames a) l l1)
    (h2 : List.Forall₂ (Joint.gets_frames b) l1 l2) :
    List.Forall₂ (Joint.gets_frames (a + b)) l l2 := by
  induction h1 generalizing l2 with
  | nil =>
    cases h2
    exact List.Forall₂.nil
  | cons hj _ ih =>
    cases h2 with
    | cons hj2 hr2 => exact List.Forall₂.cons (gets_frames_add a b _ _ _ hj hj2) (ih _ hr2)

/-- One pass over the registry gives every joint one sample of the size of
its channel list, whatever the stream holds. -/
theorem parse_motion_joints_rel (joints : List Joint) (file : IStream) (number : Decimal) :
    List.Forall₂ (Joint.gets_frames 1) joints (parse_motion_joints joints file number).2.2 := by
  induction joints generalizing file number with
  | nil => exact List.Forall₂.nil
  | cons j js ih =>
    unfold parse_motion_joints
    have hl := parse_motion_data_length j.num_channels file number []
    cases hd : parse_motion_data j.num_channels file number [] with
    | mk f1 nd =>
    cases nd with
    | mk n1 data =>
    rw [hd] at hl
    dsimp only at hl ⊢
    have := ih f1 n1
    cases hj : parse_motion_joints js f1 n1 with
    | mk f2 nj =>
    cases nj with
    | mk n2 js2 =>
    rw [hj] at this
    dsimp only at this ⊢
    refine List.Forall₂.cons ⟨[data], rfl, rfl, ?_⟩ this
    intro s hs
    rw [List.mem_singleton.mp hs, hl]
    simp [Joint.num_channels]

/-- The frame loop gives every joint one such sample per iteration. -/
theorem parse_motion_frames_rel (n : Nat) (joints : List Joint) (file : IStream)
    (number : Decimal) :
    List.Forall₂ (Joint.gets_frames n) joints
      (parse_motion_frames n file number joints).2.2 := by
  induction n generalizing file number joints with
  | zero => exact forall2_gets_frames_zero joints
  | succ n ih =>
    unfold parse_motion_frames
    have h1 := parse_motion_joints_rel joints file number
    cases hj : parse_motion_joints joints file number with
    | mk f1 nj =>
    cases nj with
    | mk n1 js1 =>
    rw [hj] at h1
    dsimp only at h1 ⊢
    have := forall2_gets_frames_add 1 n _ _ _ h1 (ih js1 f1 n1)
    rw [Nat.add_comm] at this
    exact this

/-- What `parse_motion` does to the skeleton: on return 0 it has set the
frame count and given every joint `max frame_count 0` samples; on return -1
it has given no joint any sample.  The root is untouched. -/
theorem parse_motion_rel (ind : Indet) (file : IStream) (bvh : BvHSkeleton) :
    ((parse_motion ind file bvh).1 = 0 ∧
      List.Forall₂ (Joint.gets_frames (parse_motion ind file bvh).2.2.num_frames.toNat)
        bvh.joints (parse_motion ind file bvh).2.2.joints ∧
      (parse_motion ind file bvh).2.2.root_joint = bvh.root_joint) ∨
    ((parse_motion ind file bvh).1 = -1 ∧
      (parse_motion ind file bvh).2.2.joints = bvh.joints ∧
      (parse_motion ind file bvh).2.2.root_joint = bvh.root_joint) := by
  unfold parse_motion
  cases extract_string file "" with
  | mk f1 t1 =>
  dsimp only
  by_cases c1 : t1 = kFrames
  · rw [if_pos c1]
    cases extract_int f1 ind.frames_num with
    | mk f2 frames_num =>
    dsimp only
    cases extract_string f2 t1 with
    | mk f3 t3 =>
    dsimp only
    by_cases c2 : t3 = kFrame
    · rw [if_pos c2]
      cases extract_string f3 t3 with
      | mk f4 t4 =>
      dsimp only
      cases extract_real RealType.double f4 ind.frame_time with
      | mk f5 frame_time =>
      dsimp only
      have := parse_motion_frames_rel frames_num.toNat
        ((bvh.set_num_frames frames_num).set_frame_time frame_time).joints f5 ind.number
      cases hf : parse_motion_frames frames_num.toNat f5 ind.number
        ((bvh.set_num_frames frames_num).set_frame_time frame_time).joints with
      | mk f6 nj =>
      cases nj with
      | mk n6 js6 =>
      rw [hf] at this
      exact Or.inl ⟨rfl, this, rfl⟩
    · rw [if_neg c2]
      exact Or.inr ⟨rfl, rfl, rfl⟩
  · rw [if_neg c1]
    exact Or.inr ⟨rfl, rfl, rfl⟩

/-- The two ways `parse` can return 0: the stream was no longer good after the
keyword `HIERARCHY`, and the skeleton is untouched; or `parse_joint` returned
0 for the root, appending the layout of one tree to the registry, and
`parse_motion` returned 0 on the skeleton with that root. -/
theorem parse_success_inv (ind : Indet) (content : List Char) (bvh b : BvHSkeleton)
    (h : parse ind (some content) bvh = some (0, b)) :
    b = bvh ∨
    ∃ (r : JointResult) (fm : IStream) (name : String) (offset : Offset)
      (channels : List Channel) (kids : Forest),
      r.bvh = { bvh with joints := bvh.joints ++
        (Forest.joint name offset channels kids Forest.nil).layout bvh.joints.length none } ∧
      r.parsed = some bvh.joints.length ∧
      (parse_motion ind fm (r.bvh.set_root_joint r.parsed)).1 = 0 ∧
      (parse_motion ind fm (r.bvh.set_root_joint r.parsed)).2.2 = b := by
  unfold parse at h
  dsimp only at h
  cases h1 : extract_string (IStream.open_ content) "" with
  | mk f1 t1 =>
  rw [h1] at h
  dsimp only at h
  by_cases c1 : t1 = kHierarchy
  · rw [if_pos c1] at h
    unfold parse_hierarchy at h
    cases hg : f1.good
    · left
      rw [hg] at h
      simp only [Bool.false_eq_true, ↓reduceIte, parse_hierarchy_motion, hg] at h
      simp only [ne_eq, not_true_eq_false, ↓reduceIte, Option.some.injEq, Prod.mk.injEq,
        true_and] at h
      exact h.symm
    · right
      rw [if_pos hg] at h
      cases h2 : extract_string f1 "" with
      | mk f2 t2 =>
      rw [h2] at h
      dsimp only at h
      by_cases c2 : t2 = kRoot
      · rw [if_pos c2] at h
        obtain ⟨r, hr⟩ := parse_joint_hierarchy_total ind f2 bvh none
        rw [hr] at h
        dsimp only at h
        by_cases c3 : r.ret ≠ 0
        · rw [if_pos c3] at h
          dsimp only at h
          rw [if_pos c3] at h
          injection h with h
          injection h with h _
          exact absurd h c3
        · rw [if_neg c3] at h
          obtain ⟨name, offset, channels, kids, hb, hp, hgood⟩ :=
            parse_joint_layout ind _ _ _ _ r hr (not_not.mp c3)
          unfold parse_hierarchy_motion at h
          rw [if_pos hgood] at h
          cases h3 : extract_string r.file t2 with
          | mk f3 t3 =>
          rw [h3] at h
          dsimp only at h
          by_cases c4 : t3 = kMotion
          · rw [if_pos c4] at h
            refine ⟨r, f3, name, offset, channels, kids, hb, hp, ?_⟩
            cases hm : parse_motion ind f3 (r.bvh.set_root_joint r.parsed) with
            | mk ret fb =>
            cases fb with
            | mk f4 b4 =>
            rw [hm] at h
            dsimp only at h ⊢
            by_cases c5 : ret ≠ 0
            · rw [if_pos c5] at h
              dsimp only at h
              rw [if_pos c5] at h
              injection h with h
              injection h with h _
              exact absurd h c5
            · rw [if_neg c5] at h
              dsimp only at h
              simp only [ne_eq, not_true_eq_false, ↓reduceIte, Option.some.injEq,
                Prod.mk.injEq, true_and] at h
              exact ⟨not_not.mp c5, h⟩
          · rw [if_neg c4] at h
            dsimp only at h
            simp at h
      · rw [if_neg c2] at h
        dsimp only at h
        simp at h
  · rw [if_neg c1] at h
    simp at h

/-! ## Numeric fields that are whole tokens -/

theorem isdigit_of_isspace (c : Char) (h : isspace c = true) : isdigit c = false := by
  simp only [isspace, Bool.or_eq_true, decide_eq_true_eq, Bool.and_eq_true] at h
  simp only [isdigit, Bool.and_eq_false_imp, decide_eq_true_eq, decide_eq_false_iff_not]
  omega

theorem ne_of_isspace (c d : Char) (h : isspace c = true) (hd : isspace d = false) : c ≠ d := by
  intro e
  rw [e, hd] at h
  cases h

theorem stop_not_digit (r : List Char) (h : Stop r) : ∀ c ∈ r.head?, isdigit c = false :=
  fun c hc => isdigit_of_isspace c (h c hc)

theorem takeWhile_append_stop {p : Char → Bool} (x r : List Char)
    (hr : ∀ c ∈ r.head?, p c = false) :
    (x ++ r).takeWhile p = x.takeWhile p ∧ (x ++ r).dropWhile p = x.dropWhile p ++ r := by
  induction x with
  | nil =>
    cases r with
    | nil => simp
    | cons c r =>
      have := hr c (by simp)
      simp [this]
  | cons a x ih =>
    by_cases ha : p a = true
    · simp [ha, ih]
    · simp [ha]

theorem scan_sign_append (x r : List Char) (hr : Stop r) :
    scan_sign (x ++ r) = ((scan_sign x).1, (scan_sign x).2 ++ r) := by
  cases x with
  | nil =>
    cases r with
    | nil => rfl
    | cons c r =>
      have hc := hr c (by simp)
      have h1 : c ≠ '-' := ne_of_isspace c _ hc (by decide)
      have h2 : c ≠ '+' := ne_of_isspace c _ hc (by decide)
      simp [scan_sign, h1, h2]
  | cons a x =>
    simp only [scan_sign, List.cons_append]
    split_ifs <;> rfl

theorem scan_fraction_append (x r : List Char) (hr : Stop r) :
    scan_fraction (x ++ r) = ((scan_fraction x).1, (scan_fraction x).2 ++ r) := by
  cases x with
  | nil =>
    cases r with
    | nil => rfl
    | cons c r =>
      have hc := hr c (by simp)
      have h1 : c ≠ '.' := ne_of_isspace c _ hc (by decide)
      simp [scan_fraction, h1]
  | cons a x =>
    simp only [scan_fraction, List.cons_append]
    have := takeWhile_append_stop x r (stop_not_digit r hr)
    split_ifs
    · rw [this.1, this.2]
    · rfl

theorem scan_exponent_append (m : Bool) (x r : List Char) (hr : Stop r) :
    scan_exponent m (x ++ r) =
      ((scan_exponent m x).1, (scan_exponent m x).2.1, (scan_exponent m x).2.2 ++ r) := by
  cases x with
  | nil =>
    cases r with
    | nil => rfl
    | cons c r =>
      have hc := hr c (by simp)
      have h1 : c ≠ 'e' := ne_of_isspace c _ hc (by decide)
      have h2 : c ≠ 'E' := ne_of_isspace c _ hc (by decide)
      simp [scan_exponent, h1, h2]
  | cons a x =>
    simp only [scan_exponent, List.cons_append]
    by_cases hc : (m && (decide (a = 'e') || decide (a = 'E'))) = true
    · rw [if_pos hc, if_pos hc, scan_sign_append x r hr]
      dsimp only
      have := takeWhile_append_stop (scan_sign x).2 r (stop_not_digit r hr)
      rw [this.1, this.2]
    · rw [if_neg hc, if_neg hc]
      rfl

/-- The scan of a real field looks at the characters of the token only:
what follows a token is handed back unread. -/
theorem scan_numeral_append (x r : List Char) (hr : Stop r) :
    scan_numeral (x ++ r) =
      ((scan_numeral x).1, (scan_numeral x).2.1, (scan_numeral x).2.2 ++ r) := by
  unfold scan_numeral
  rw [scan_sign_append x r hr]
  dsimp only
  have h1 := takeWhile_append_stop (scan_sign x).2 r (stop_not_digit r hr)
  rw [h1.1, h1.2, scan_fraction_append _ r hr]
  dsimp only
  rw [scan_exponent_append _ _ r hr]
  dsimp only
  split_ifs <;> rfl

/-- The conversion of a real field looks at the characters of the token
only. -/
theorem scan_real_append (t : RealType) (x r : List Char) (hr : Stop r) :
    scan_real t (x ++ r) =
      ((scan_real t x).1, (scan_real t x).2.1, (scan_real t x).2.2 ++ r) := by
  unfold scan_real
  rw [scan_numeral_append x r hr]
  rcases scan_numeral x with ⟨ok, v, u⟩
  dsimp only
  split_ifs <;> rfl

/-- The conversion of an integer field looks at the characters of the token
only. -/
theorem scan_int_append (x r : List Char) (hr : Stop r) :
    scan_int (x ++ r) = ((scan_int x).1, (scan_int x).2.1, (scan_int x).2.2 ++ r) := by
  unfold scan_int
  rw [scan_sign_append x r hr]
  dsimp only
  have h1 := takeWhile_append_stop (scan_sign x).2 r (stop_not_digit r hr)
  rw [h1.1, h1.2]
  split_ifs <;> rfl

theorem extract_real_ready (t : RealType) (s : IStream) (old : Decimal) (tok : List Char)
    (toks : List (List Char)) (v : Decimal) (h : Ready s (tok :: toks))
    (hv : scan_real t tok = (true, v, [])) :
    ∃ s1, extract_real t s old = (s1, v) ∧ Ready s1 toks := by
  obtain ⟨ht, hg⟩ := h
  have hg := hg (by simp)
  obtain ⟨a, r, hr, ha, htok, hrest⟩ := tokens_cons_split _ _ _ ht
  refine ⟨⟨(a :: r).dropWhile (fun c => !isspace c),
    ((a :: r).dropWhile (fun c => !isspace c)).isEmpty, false⟩, ?_, ready_of_tokens _ _ hrest⟩
  unfold extract_real
  rw [sentry_good s hg, hr]
  have hsplit : a :: r = tok ++ (a :: r).dropWhile (fun c => !isspace c) := by
    rw [htok, List.takeWhile_append_dropWhile]
  have := scan_real_append t tok ((a :: r).dropWhile (fun c => !isspace c)) (stop_dropWhile _)
  rw [← hsplit, hv] at this
  simp only [List.isEmpty_cons, Bool.false_eq_true, ↓reduceIte, Bool.not_true, this,
    List.nil_append, Bool.not_false]

theorem extract_int_ready (s : IStream) (old : Int) (tok : List Char)
    (toks : List (List Char)) (v : Int) (h : Ready s (tok :: toks))
    (hv : scan_int tok = (true, v, [])) :
    ∃ s1, extract_int s old = (s1, v) ∧ Ready s1 toks := by
  obtain ⟨ht, hg⟩ := h
  have hg := hg (by simp)
  obtain ⟨a, r, hr, ha, htok, hrest⟩ := tokens_cons_split _ _ _ ht
  refine ⟨⟨(a :: r).dropWhile (fun c => !isspace c),
    ((a :: r).dropWhile (fun c => !isspace c)).isEmpty, false⟩, ?_, ready_of_tokens _ _ hrest⟩
  unfold extract_int
  rw [sentry_good s hg, hr]
  have hsplit : a :: r = tok ++ (a :: r).dropWhile (fun c => !isspace c) := by
    rw [htok, List.takeWhile_append_dropWhile]
  have := scan_int_append tok ((a :: r).dropWhile (fun c => !isspace c)) (stop_dropWhile _)
  rw [← hsplit, hv] at this
  simp only [List.isEmpty_cons, Bool.false_eq_true, ↓reduceIte, Bool.not_true, this,
    List.nil_append, Bool.not_false]

/-! ## The range of the types -/

/-- A numeral beyond the range of `float` fails and stores the largest
`float`; the same numeral is within the range of `double`. -/
theorem scan_real_float_overflow :
    scan_real RealType.float "1e39".toList =
      (false, ⟨false, 340282346638528859811704183484516925440, 0⟩, []) ∧
    (scan_real RealType.double "1e39".toList).1 = true := by
  decide

/-- The largest `float` is converted, the next numeral with as many digits is
not. -/
theorem scan_real_float_largest :
    (scan_real RealType.float "3.4028235e38".toList).1 = true ∧
    (scan_real RealType.float "3.4028236e38".toList).1 = false := by
  decide

/-- A numeral beyond the range of `double` fails for both types, with either
sign; a numeral too small for the type does not fail. -/
theorem scan_real_double_overflow :
    (scan_real RealType.double "1e5000".toList).1 = false ∧
    (scan_real RealType.float "-1e5000".toList).1 = false ∧
    (scan_real RealType.double "1e-5000".toList).1 = true := by
  decide!

/-! ## The motion loops on a stream of numeric tokens -/

theorem parse_motion_data_ready (vs : List Decimal) :
    ∀ (file : IStream) (number : Decimal) (data : List Decimal) (toks more : List (List Char)),
      Ready file (toks ++ more) →
      toks.map (scan_real RealType.float) = vs.map (fun v => (true, v, [])) →
      ∃ f1 n1, parse_motion_data vs.length file number data = (f1, n1, data ++ vs) ∧
        Ready f1 more := by
  induction vs with
  | nil =>
    intro file number data toks more hr hm
    have : toks = [] := by simpa using hm
    subst this
    exact ⟨file, number, by simp [parse_motion_data], hr⟩
  | cons v vs ih =>
    intro file number data toks more hr hm
    cases toks with
    | nil => simp at hm
    | cons t toks =>
      simp only [List.map_cons, List.cons.injEq] at hm
      obtain ⟨s1, e1, r1⟩ := extract_real_ready RealType.float file number t (toks ++ more) v hr hm.1
      obtain ⟨f1, n1, e2, r2⟩ := ih s1 v (data ++ [v]) toks more r1 hm.2
      refine ⟨f1, n1, ?_, r2⟩
      simp only [List.length_cons, parse_motion_data, e1]
      rw [e2]
      simp

theorem total_channels_cons (j : Joint) (js : List Joint) :
    total_channels (j :: js) = j.num_channels + total_channels js := by
  simp [total_channels]

theorem parse_motion_joints_ready (joints : List Joint) :
    ∀ (file : IStream) (number : Decimal) (vs : List Decimal) (toks more : List (List Char)),
      Ready file (toks ++ more) →
      toks.map (scan_real RealType.float) = vs.map (fun v => (true, v, [])) →
      vs.length = total_channels joints →
      ∃ f1 n1, parse_motion_joints joints file number = (f1, n1, deal joints vs) ∧
        Ready f1 more := by
  induction joints with
  | nil =>
    intro file number vs toks more hr hm hl
    have hvs : vs = [] := by
      apply List.eq_nil_of_length_eq_zero
      rw [hl]
      rfl
    subst hvs
    have : toks = [] := by simpa using hm
    subst this
    exact ⟨file, number, rfl, hr⟩
  | cons j js ih =>
    intro file number vs toks more hr hm hl
    rw [total_channels_cons] at hl
    have hlt : (vs.take j.num_channels).length = j.num_channels := by
      rw [List.length_take]
      omega
    have hr1 : Ready file (toks.take j.num_channels ++ (toks.drop j.num_channels ++ more)) := by
      rw [← List.append_assoc, List.take_append_drop]
      exact hr
    have hm1 : (toks.take j.num_channels).map (scan_real RealType.float) =
        (vs.take j.num_channels).map (fun v => (true, v, [])) := by
      rw [List.map_take, List.map_take, hm]
    have hm2 : (toks.drop j.num_channels).map (scan_real RealType.float) =
        (vs.drop j.num_channels).map (fun v => (true, v, [])) := by
      rw [List.map_drop, List.map_drop, hm]
    obtain ⟨f1, n1, e1, r1⟩ := parse_motion_data_ready (vs.take j.num_channels) file number []
      _ _ hr1 hm1
    rw [hlt] at e1
    obtain ⟨f2, n2, e2, r2⟩ := ih f1 n1 (vs.drop j.num_channels) _ more r1 hm2
      (by rw [List.length_drop]; omega)
    refine ⟨f2, n2, ?_, r2⟩
    simp only [parse_motion_joints, e1, e2, List.nil_append, deal]

theorem total_channels_deal (joints : List Joint) :
    ∀ vs, total_channels (deal joints vs) = total_channels joints := by
  induction joints with
  | nil => intro vs; rfl
  | cons j js ih =>
    intro vs
    simp only [deal, total_channels_cons, ih]
    rfl

theorem parse_motion_frames_ready (n : Nat) :
    ∀ (joints : List Joint) (file : IStream) (number : Decimal) (vs : List Decimal)
      (toks more : List (List Char)),
      Ready file (toks ++ more) →
      toks.map (scan_real RealType.float) = vs.map (fun v => (true, v, [])) →
      vs.length = n * total_channels joints →
      ∃ f1 n1, parse_motion_frames n file number joints = (f1, n1, deal_frames n joints vs) ∧
        Ready f1 more := by
  induction n with
  | zero =>
    intro joints file number vs toks more hr hm hl
    have hvs : vs = [] := by
      apply List.eq_nil_of_length_eq_zero
      rw [hl]
      simp
    subst hvs
    have : toks = [] := by simpa using hm
    subst this
    exact ⟨file, number, rfl, hr⟩
  | succ n ih =>
    intro joints file number vs toks more hr hm hl
    have hlt : (vs.take (total_channels joints)).length = total_channels joints := by
      rw [List.length_take, hl, Nat.succ_mul]
      omega
    have hr1 : Ready file (toks.take (total_channels joints) ++
        (toks.drop (total_channels joints) ++ more)) := by
      rw [← List.append_assoc, List.take_append_drop]
      exact hr
    have hm1 : (toks.take (total_channels joints)).map (scan_real RealType.float) =
        (vs.take (total_channels joints)).map (fun v => (true, v, [])) := by
      rw [List.map_take, List.map_take, hm]
    have hm2 : (toks.drop (total_channels joints)).map (scan_real RealType.float) =
        (vs.drop (total_channels joints)).map (fun v => (true, v, [])) := by
      rw [List.map_drop, List.map_drop, hm]
    obtain ⟨f1, n1, e1, r1⟩ := parse_motion_joints_ready joints file number _ _ _ hr1 hm1 hlt
    obtain ⟨f2, n2, e2, r2⟩ := ih (deal joints (vs.take (total_channels joints))) f1 n1
      (vs.drop (total_channels joints)) _ more r1 hm2
      (by rw [List.length_drop, total_channels_deal, hl, Nat.succ_mul]; omega)
    refine ⟨f2, n2, ?_, r2⟩
    simp only [parse_motion_frames, e1, e2, deal_frames]

/-! ## Where the values of a frame go -/

theorem channels_before_zero (joints : List Joint) : channels_before joints 0 = 0 := by
  simp [channels_before, total_channels]

theorem channels_before_succ (j : Joint) (js : List Joint) (k : Nat) :
    channels_before (j :: js) (k + 1) = j.num_channels + channels_before js k := by
  simp [channels_before, total_channels]

theorem channels_before_add_le (joints : List Joint) :
    ∀ k j, joints[k]? = some j →
      channels_before joints k + j.num_channels ≤ total_channels joints := by
  induction joints with
  | nil => intro k j h; simp at h
  | cons a js ih =>
    intro k j h
    cases k with
    | zero =>
      simp only [List.getElem?_cons_zero, Option.some.injEq] at h
      rw [channels_before_zero, total_channels_cons, h]
      omega
    | succ k =>
      simp only [List.getElem?_cons_succ] at h
      have := ih k j h
      rw [channels_before_succ, total_channels_cons]
      omega

theorem deal_getElem? (joints : List Joint) :
    ∀ (vs : List Decimal) (k : Nat),
      (deal joints vs)[k]? = (joints[k]?).map (fun j =>
        j.add_frame_motion_data ((vs.drop (channels_before joints k)).take j.num_channels)) := by
  induction joints with
  | nil => intro vs k; simp [deal]
  | cons a js ih =>
    intro vs k
    cases k with
    | zero => simp [deal, channels_before_zero]
    | succ k =>
      simp only [deal, List.getElem?_cons_succ, ih, channels_before_succ, List.drop_drop]

theorem map_num_channels_deal (joints : List Joint) :
    ∀ vs, (deal joints vs).map Joint.num_channels = joints.map Joint.num_channels := by
  induction joints with
  | nil => intro vs; rfl
  | cons j js ih =>
    intro vs
    simp only [deal, List.map_cons, ih]
    rfl

theorem channels_before_deal (joints : List Joint) (vs : List Decimal) (k : Nat) :
    channels_before (deal joints vs) k = channels_before joints k := by
  simp only [channels_before, total_channels, List.map_take, map_num_channels_deal]

theorem take_drop_take (vs : List Decimal) (t p c : Nat) (h : p + c ≤ t) :
    ((vs.take t).drop p).take c = (vs.drop p).take c := by
  rw [List.drop_take, List.take_take]
  congr 1
  omega

theorem with_samples_nil (j : Joint) : j.with_samples [] = j := by
  simp [Joint.with_samples]

/-- After `n` frames the joint at position `k` has gained `n` samples; the
one of frame `f` is the slice of the values that starts at
`f * T + P_k` and has the joint's channel count as its length. -/
theorem deal_frames_getElem? (n : Nat) :
    ∀ (joints : List Joint) (vs : List Decimal) (k : Nat),
      (deal_frames n joints vs)[k]? = (joints[k]?).map (fun j =>
        j.with_samples ((List.range n).map (fun f =>
          (vs.drop (f * total_channels joints + channels_before joints k)).take
            j.num_channels))) := by
  induction n with
  | zero =>
    intro joints vs k
    simp [deal_frames, with_samples_nil]
  | succ n ih =>
    intro joints vs k
    simp only [deal_frames]
    rw [ih, deal_getElem?, total_channels_deal, channels_before_deal]
    cases hk : joints[k]? with
    | none => rfl
    | some j =>
      have hle := channels_before_add_le joints k j hk
      simp only [Option.map_some', Option.some.injEq]
      rw [List.range_succ_eq_map, take_drop_take _ _ _ _ hle]
      simp only [Joint.with_samples, Joint.add_frame_motion_data, Joint.num_channels,
        List.append_assoc, List.singleton_append, List.map_cons, Nat.zero_mul, Nat.zero_add,
        List.map_map, List.drop_drop]
      congr 3
      apply List.map_congr_left
      intro f _
      simp only [Function.comp_apply, Nat.succ_eq_add_one]
      congr 2
      rw [Nat.add_mul]
      omega

/-! ## The parser on a text of the grammar -/

theorem is_real_scan (t : RealType) (tok : List Char) (h : is_real t tok = true) :
    scan_real t tok = (true, real_value tok, []) := by
  simp only [is_real, Bool.and_eq_true, List.isEmpty_iff] at h
  have hn := (scan_real_numeral t tok).2 h.1
  rcases hs : scan_real t tok with ⟨ok, v, r⟩
  rw [hs] at h hn
  dsimp only at h
  simp only [real_value, ← hn]
  rw [h.1, h.2]

theorem is_count_scan (tok : List Char) (n : Nat) (h : is_count tok n = true) :
    scan_int tok = (true, (n : Int), []) := by
  simpa [is_count] using h

theorem channel_of_keyword (c : Channel) :
    channel_of_token (String.mk c.keyword.toList) = some c := by
  cases c <;> rfl

theorem parse_channel_order_loop_ready (channels : List Channel) :
    ∀ (file : IStream) (token : String) (acc : List Channel) (more : List (List Char)),
      Ready file (channels.map (fun c => c.keyword.toList) ++ more) →
      ∃ f1, parse_channel_order_loop channels.length file token acc =
          (f1, some (acc ++ channels)) ∧ Ready f1 more := by
  induction channels with
  | nil =>
    intro file token acc more hr
    exact ⟨file, by simp [parse_channel_order_loop], hr⟩
  | cons c cs ih =>
    intro file token acc more hr
    obtain ⟨s1, e1, r1⟩ := extract_string_ready file token _ _ hr
    obtain ⟨f1, e2, r2⟩ := ih s1 (String.mk c.keyword.toList) (acc ++ [c]) more r1
    refine ⟨f1, ?_, r2⟩
    simp only [List.length_cons, parse_channel_order_loop, e1, channel_of_keyword]
    rw [e2]
    simp

theorem parse_channel_order_ready (ind : Indet) (file : IStream) (joint : Joint)
    (count : List Char) (channels : List Channel) (more : List (List Char))
    (hr : Ready file (count :: (channels.map (fun c => c.keyword.toList) ++ more)))
    (hc : is_count count channels.length = true) :
    ∃ f1, parse_channel_order ind file joint = (0, f1, joint.set_channels_order channels) ∧
      Ready f1 more := by
  obtain ⟨s1, e1, r1⟩ := extract_int_ready file ind.num _ _ _ hr (is_count_scan _ _ hc)
  obtain ⟨f1, e2, r2⟩ := parse_channel_order_loop_ready channels s1 "" [] more r1
  refine ⟨f1, ?_, r2⟩
  simp only [parse_channel_order, e1, Int.toNat_ofNat, e2, List.nil_append]

theorem extract_offset_ready (t : RealType) (file : IStream) (old : Offset)
    (x y z : List Char) (more : List (List Char)) (hr : Ready file (x :: y :: z :: more))
    (hx : is_real t x = true) (hy : is_real t y = true) (hz : is_real t z = true) :
    ∃ f1, extract_offset t file old = (f1, offset_value x y z) ∧ Ready f1 more := by
  obtain ⟨s1, e1, r1⟩ := extract_real_ready t file old.x _ _ _ hr (is_real_scan t _ hx)
  obtain ⟨s2, e2, r2⟩ := extract_real_ready t s1 old.y _ _ _ r1 (is_real_scan t _ hy)
  obtain ⟨s3, e3, r3⟩ := extract_real_ready t s2 old.z _ _ _ r2 (is_real_scan t _ hz)
  refine ⟨s3, ?_, r3⟩
  unfold extract_offset
  rw [e1]
  dsimp only
  rw [e2]
  dsimp only
  rw [e3]
  rfl

/-- The head of `parse_joint` on the tokens of a block after its keyword:
it registers the joint the block denotes and reads one token ahead. -/
theorem parse_joint_head_ready (ind : Indet) (file : IStream) (bvh : BvHSkeleton)
    (parent : Option Nat) (name x y z count : List Char) (channels : List Channel)
    (t : List Char) (more : List (List Char))
    (hr : Ready file (name :: "\x7b".toList :: kOffset.toList :: x :: y :: z ::
      kChannels.toList :: count :: (channels.map (fun c => c.keyword.toList) ++ t :: more)))
    (hx : is_real ind.offset_type x = true) (hy : is_real ind.offset_type y = true)
    (hz : is_real ind.offset_type z = true)
    (hc : is_count count channels.length = true) :
    ∃ f1, parse_joint_head ind file bvh parent =
        Sum.inr ⟨f1, bvh.add_joint ⟨String.mk name, offset_value x y z, channels, parent, [], []⟩,
          bvh.joints.length, String.mk t⟩ ∧ Ready f1 more := by
  obtain ⟨s1, e1, r1⟩ := extract_string_ready file "" _ _ hr
  obtain ⟨s2, e2, r2⟩ := extract_string_ready s1 "" _ _ r1
  obtain ⟨s3, e3, r3⟩ := extract_string_ready s2 (String.mk "\x7b".toList) _ _ r2
  obtain ⟨s4, e4, r4⟩ := extract_offset_ready ind.offset_type s3 ind.offset x y z _ r3 hx hy hz
  obtain ⟨s5, e5, r5⟩ := extract_string_ready s4 (String.mk kOffset.toList) _ _ r4
  obtain ⟨s6, e6, r6⟩ := parse_channel_order_ready ind s5
    (((Joint.fresh.set_parent parent).set_name (String.mk name)).set_offset (offset_value x y z))
    count channels _ r5 hc
  obtain ⟨s7, e7, r7⟩ := extract_string_ready s6 (String.mk kChannels.toList) _ _ r6
  refine ⟨s7, ?_, r7⟩
  have e3' : extract_string s2 (String.mk "\x7b".toList) = (s3, kOffset) := e3
  have e5' : extract_string s4 kOffset = (s5, kChannels) := e5
  have e7' : extract_string s6 kChannels = (s7, String.mk t) := e7
  unfold parse_joint_head
  rw [e1]
  dsimp only
  rw [e2]
  dsimp only
  rw [e3']
  dsimp only
  rw [if_pos rfl, e4]
  dsimp only
  rw [e5']
  dsimp only
  rw [if_pos rfl, e6]
  dsimp only
  rw [if_neg (by decide), e7']
  rfl

theorem ready_good (s : IStream) (t : List Char) (toks : List (List Char))
    (h : Ready s (t :: toks)) : s.good = true :=
  h.2 (by simp)

theorem ready_good_of_ne (s : IStream) (toks : List (List Char)) (h : Ready s toks)
    (hne : toks ≠ []) : s.good = true :=
  h.2 hne

/-- The loop of `parse_joint` on the tokens of well-formed child blocks that
are followed by the closing brace and at least one more token: it returns 0,
has consumed the blocks and the brace, and has appended to the registry the
layout of the joints the blocks denote. -/
theorem parse_joint_loop_block (ind : Indet) (B : Block) :
    ∀ (fuel : Nat) (file : IStream) (bvh : BvHSkeleton) (joint : Nat) (children : List Nat)
      (token : String) (t0 : List Char) (toks0 more : List (List Char)) (r : JointResult),
      B.well_formed ind.offset_type = true →
      B.render ++ "\x7d".toList :: more = t0 :: toks0 →
      token = String.mk t0 →
      Ready file toks0 →
      more ≠ [] →
      joint < bvh.joints.length →
      parse_joint_loop ind fuel file bvh joint children token = some r →
      r.ret = 0 ∧ r.parsed = some joint ∧ Ready r.file more ∧
      r.bvh = { bvh with joints :=
        (bvh.joints.modify
            (fun j => j.set_children (children ++ B.denote.roots bvh.joints.length)) joint
          ++ B.denote.layout bvh.joints.length (some joint)) } := by
  induction B with
  | nil =>
    intro fuel file bvh joint children token t0 toks0 more r _ hrender htok hr hmore hj hloop
    simp only [Block.render, List.nil_append, List.cons.injEq] at hrender
    obtain ⟨ht0, htoks⟩ := hrender
    subst htoks
    have hg := ready_good_of_ne file more hr hmore
    have htok' : token = "\x7d" := by
      rw [htok, ← ht0]
      rfl
    cases fuel with
    | zero =>
      rw [parse_joint_loop_zero _ _ _ _ _ _ hg] at hloop
      cases hloop
    | succ fuel =>
      rw [parse_joint_loop_close _ _ _ _ _ _ _ hg htok'] at hloop
      cases hloop
      refine ⟨rfl, rfl, hr, ?_⟩
      simp [Block.denote, Forest.roots, Forest.layout, BvHSkeleton.set_children]
  | joint name x y z count channels kids rest ihk ihr =>
    intro fuel file bvh joint children token t0 toks0 more r hwf hrender htok hr hmore hj hloop
    simp only [Block.well_formed, Bool.and_eq_true] at hwf
    obtain ⟨⟨⟨⟨⟨hx, hy⟩, hz⟩, hc⟩, hwk⟩, hwr⟩ := hwf
    obtain ⟨t1, toks1, hK⟩ : ∃ t1 toks1,
        kids.render ++ "\x7d".toList :: (rest.render ++ "\x7d".toList :: more) = t1 :: toks1 := by
      cases kids.render with
      | nil => exact ⟨_, _, rfl⟩
      | cons a l => exact ⟨_, _, rfl⟩
    simp only [Block.render, List.cons_append, List.append_assoc, List.cons.injEq] at hrender
    obtain ⟨ht0, htoks⟩ := hrender
    rw [hK] at htoks
    subst htoks
    have hg := ready_good file _ _ hr
    have htok' : token = kJoint := by
      rw [htok, ← ht0]
      rfl
    obtain ⟨f1, ehead, r1⟩ := parse_joint_head_ready ind file bvh (some joint) name x y z count
      channels t1 toks1 hr hx hy hz hc
    cases fuel with
    | zero =>
      rw [parse_joint_loop_zero _ _ _ _ _ _ hg] at hloop
      cases hloop
    | succ fuel =>
      rw [parse_joint_loop_joint _ _ _ _ _ _ _ hg htok', ehead] at hloop
      dsimp only at hloop
      cases hc1 : parse_joint_loop ind fuel f1
          (bvh.add_joint ⟨String.mk name, offset_value x y z, channels, some joint, [], []⟩)
          bvh.joints.length [] (String.mk t1) with
      | none =>
        rw [hc1] at hloop
        cases hloop
      | some rc =>
        rw [hc1] at hloop
        dsimp only at hloop
        obtain ⟨hret, hpar, hrc, hbc⟩ := ihk fuel f1 _ bvh.joints.length [] (String.mk t1) t1
          toks1 (rest.render ++ "\x7d".toList :: more) rc hwk hK rfl r1 (by simp)
          (by simp [BvHSkeleton.add_joint]) hc1
        rw [if_neg (not_not.mpr hret)] at hloop
        obtain ⟨t2, toks2, hR⟩ : ∃ t2 toks2,
            rest.render ++ "\x7d".toList :: more = t2 :: toks2 := by
          cases rest.render with
          | nil => exact ⟨_, _, rfl⟩
          | cons a l => exact ⟨_, _, rfl⟩
        rw [hR] at hrc
        obtain ⟨s2, e2, r2⟩ := extract_string_ready rc.file token _ _ hrc
        rw [e2, hpar] at hloop
        have hrj : rc.bvh.joints = bvh.joints ++
            (⟨String.mk name, offset_value x y z, channels, some joint,
                kids.denote.roots (bvh.joints.length + 1), []⟩ ::
              kids.denote.layout (bvh.joints.length + 1) (some bvh.joints.length)) := by
          rw [hbc]
          simp only [BvHSkeleton.add_joint, List.nil_append, List.length_append,
            List.length_singleton]
          rw [modify_length_append]
          simp [Joint.set_children]
        have hrl : rc.bvh.joints.length = bvh.joints.length + 1 + kids.denote.size := by
          rw [hrj]
          simp [Forest.length_layout]
          omega
        obtain ⟨hret2, hpar2, hr2, hb2⟩ := ihr fuel s2 rc.bvh joint
          (children ++ (some bvh.joints.length).toList) (String.mk t2) t2 toks2 more r hwr hR rfl
          r2 hmore (by rw [hrl]; omega) hloop
        refine ⟨hret2, hpar2, hr2, ?_⟩
        rw [hb2, hrl, hrj, modify_append_left _ _ _ _ hj, hbc]
        simp [Block.denote, Forest.roots, Forest.layout, BvHSkeleton.add_joint]
  | endsite x y z rest ih =>
    intro fuel file bvh joint children token t0 toks0 more r hwf hrender htok hr hmore hj hloop
    simp only [Block.well_formed, Bool.and_eq_true] at hwf
    obtain ⟨⟨⟨hx, hy⟩, hz⟩, hwr⟩ := hwf
    obtain ⟨t2, toks2, hR⟩ : ∃ t2 toks2,
        rest.render ++ "\x7d".toList :: more = t2 :: toks2 := by
      cases rest.render with
      | nil => exact ⟨_, _, rfl⟩
      | cons a l => exact ⟨_, _, rfl⟩
    simp only [Block.render, List.cons_append, List.cons.injEq] at hrender
    obtain ⟨ht0, htoks⟩ := hrender
    rw [hR] at htoks
    subst htoks
    have hg := ready_good file _ _ hr
    have htok' : token = kEnd := by
      rw [htok, ← ht0]
      rfl
    obtain ⟨s1, e1, r1⟩ := extract_string_ready file token _ _ hr
    obtain ⟨s2, e2, r2⟩ := extract_string_ready s1 (String.mk "Site".toList) _ _ r1
    obtain ⟨s3, e3, r3⟩ := extract_string_ready s2 (String.mk "\x7b".toList) _ _ r2
    obtain ⟨s4, e4, r4⟩ := extract_offset_ready ind.offset_type s3 ind.offset x y z _ r3 hx hy hz
    obtain ⟨s5, e5, r5⟩ := extract_string_ready s4 (String.mk kOffset.toList) _ _ r4
    obtain ⟨s6, e6, r6⟩ := extract_string_ready s5 (String.mk "\x7d".toList) _ _ r5
    cases fuel with
    | zero =>
      rw [parse_joint_loop_zero _ _ _ _ _ _ hg] at hloop
      cases hloop
    | succ fuel =>
      rw [parse_joint_loop_end _ _ _ _ _ _ _ hg htok' _ _ _ _ _ _ e1 e2 e3] at hloop
      have hk : String.mk kOffset.toList = kOffset := rfl
      rw [if_pos hk, e4] at hloop
      dsimp only at hloop
      rw [e5] at hloop
      dsimp only at hloop
      rw [e6] at hloop
      dsimp only at hloop
      obtain ⟨hret2, hpar2, hr2, hb2⟩ := ih fuel s6 _ joint
        (children ++ [bvh.joints.length]) (String.mk t2) t2 toks2 more r hwr hR rfl
        r6 hmore (by simp [BvHSkeleton.add_joint]; omega) hloop
      refine ⟨hret2, hpar2, hr2, ?_⟩
      rw [hb2]
      simp only [BvHSkeleton.add_joint, List.length_append, List.length_singleton]
      rw [modify_append_left _ _ _ _ hj]
      simp [Block.denote, Forest.roots, Forest.layout, Joint.fresh, Joint.set_parent,
        Joint.set_name, Joint.set_offset]

/-- `parse_motion` on the tokens of a motion section with `n` frames and
`n * T` numeric values: it returns 0, stores the frame count and the frame
time, and deals the values to the joints frame after frame. -/
theorem parse_motion_ready (ind : Indet) (file : IStream) (bvh : BvHSkeleton)
    (ntok ttok : List Char) (vtoks more : List (List Char)) (n : Nat) (t : Decimal)
    (vs : List Decimal)
    (hr : Ready file (kFrames.toList :: ntok :: kFrame.toList :: "Time:".toList :: ttok ::
      (vtoks ++ more)))
    (hn : scan_int ntok = (true, (n : Int), []))
    (ht : scan_real RealType.double ttok = (true, t, []))
    (hv : vtoks.map (scan_real RealType.float) = vs.map (fun v => (true, v, [])))
    (hl : vs.length = n * total_channels bvh.joints) :
    ∃ s6, parse_motion ind file bvh =
      (0, s6, { (bvh.set_num_frames n).set_frame_time t with
        joints := deal_frames n bvh.joints vs }) ∧ Ready s6 more := by
  obtain ⟨s1, e1, r1⟩ := extract_string_ready file "" _ _ hr
  obtain ⟨s2, e2, r2⟩ := extract_int_ready s1 ind.frames_num _ _ _ r1 hn
  obtain ⟨s3, e3, r3⟩ := extract_string_ready s2 kFrames _ _ r2
  obtain ⟨s4, e4, r4⟩ := extract_string_ready s3 kFrame _ _ r3
  obtain ⟨s5, e5, r5⟩ := extract_real_ready RealType.double s4 ind.frame_time _ _ _ r4 ht
  obtain ⟨s6, n6, e6, r6⟩ := parse_motion_frames_ready n bvh.joints s5 ind.number vs vtoks more
    r5 hv hl
  have e1' : extract_string file "" = (s1, kFrames) := e1
  have e3' : extract_string s2 kFrames = (s3, kFrame) := e3
  refine ⟨s6, ?_, r6⟩
  unfold parse_motion
  rw [e1']
  dsimp only
  rw [if_pos rfl, e2]
  dsimp only
  rw [e3']
  dsimp only
  rw [if_pos rfl, e4]
  dsimp only
  rw [e5]
  dsimp only
  simp only [Int.toNat_ofNat]
  have : ((bvh.set_num_frames ↑n).set_frame_time t).joints = bvh.joints := rfl
  rw [this, e6]

theorem map_scan_real_of_all (toks : List (List Char)) (h : toks.all (is_real RealType.float) = true) :
    toks.map (scan_real RealType.float) = (toks.map real_value).map (fun v => (true, v, [])) := by
  induction toks with
  | nil => rfl
  | cons t toks ih =>
    simp only [List.all_cons, Bool.and_eq_true] at h
    simp only [List.map_cons, List.cons.injEq]
    exact ⟨is_real_scan RealType.float t h.1, ih h.2⟩

theorem map_shape_deal (joints : List Joint) :
    ∀ vs, (deal joints vs).map Joint.shape = joints.map Joint.shape := by
  induction joints with
  | nil => intro vs; rfl
  | cons j js ih =>
    intro vs
    simp only [deal, List.map_cons, ih]
    rfl

theorem map_shape_deal_frames (n : Nat) :
    ∀ joints vs, (deal_frames n joints vs).map Joint.shape = joints.map Joint.shape := by
  induction n with
  | zero => intro joints vs; rfl
  | succ n ih =>
    intro joints vs
    simp only [deal_frames, ih, map_shape_deal]

/-- The whole parse of a file of the grammar into a skeleton with an empty
registry: return code 0, the root is the first joint, the registry is the
layout of the tree the text denotes with the values dealt frame after frame,
frame count and frame time are those of the header. -/
theorem parse_document (ind : Indet) (content : List Char) (d : Document) (n : Nat)
    (root : Option Nat) (nf : Int) (ft : Decimal)
    (ht : tokens content = d.render) (hw : d.well_formed ind.offset_type n = true) :
    parse ind (some content) ⟨root, [], nf, ft⟩ =
      some (0, ⟨some 0, deal_frames n (d.tree.layout 0 none) (d.values.map real_value), n,
        real_value d.frame_time⟩) := by
  simp only [Document.well_formed, Bool.and_eq_true, decide_eq_true_eq] at hw
  obtain ⟨⟨⟨⟨⟨⟨⟨⟨hx, hy⟩, hz⟩, hc⟩, hwk⟩, hfn⟩, hft⟩, hvals⟩, hlen⟩ := hw
  have hr0 : Ready (IStream.open_ content) d.render := ⟨ht, fun _ => rfl⟩
  obtain ⟨t1, toks1, hK⟩ : ∃ t1 toks1,
      d.kids.render ++ "\x7d".toList :: (kMotion.toList :: kFrames.toList :: d.frames ::
        kFrame.toList :: "Time:".toList :: d.frame_time :: (d.values ++ [])) = t1 :: toks1 := by
    cases d.kids.render with
    | nil => exact ⟨_, _, rfl⟩
    | cons a l => exact ⟨_, _, rfl⟩
  have hrender : d.render = kHierarchy.toList :: kRoot.toList :: d.name :: "\x7b".toList ::
      kOffset.toList :: d.x :: d.y :: d.z :: kChannels.toList :: d.count ::
      (d.channels.map (fun c => c.keyword.toList) ++ t1 :: toks1) := by
    rw [← hK]
    simp [Document.render]
  rw [hrender] at hr0
  obtain ⟨f1, e1, r1⟩ := extract_string_ready _ "" _ _ hr0
  have hg1 := ready_good f1 _ _ r1
  obtain ⟨f2, e2, r2⟩ := extract_string_ready f1 "" _ _ r1
  obtain ⟨f3, ehead, r3⟩ := parse_joint_head_ready ind f2 ⟨root, [], nf, ft⟩ none d.name d.x d.y
    d.z d.count d.channels t1 toks1 r2 hx hy hz hc
  obtain ⟨r, hr⟩ := parse_joint_hierarchy_total ind f2 ⟨root, [], nf, ft⟩ none
  have hloop := hr
  unfold parse_joint at hloop
  rw [ehead] at hloop
  dsimp only at hloop
  obtain ⟨hret, hpar, hrm, hb⟩ := parse_joint_loop_block ind d.kids _ f3 _ 0 [] (String.mk t1) t1
    toks1 _ r hwk hK rfl r3 (by simp) (by simp [BvHSkeleton.add_joint]) hloop
  have hjoints : r.bvh.joints = d.tree.layout 0 none := by
    rw [hb]
    simp [BvHSkeleton.add_joint, Document.tree, Forest.layout, Joint.set_children]
  have hh := parse_hierarchy_of_joint ind ⟨root, [], nf, ft⟩ f1 f2 r hg1 e2 hr
  rw [if_neg (not_not.mpr hret)] at hh
  have hgm := ready_good r.file _ _ hrm
  obtain ⟨f4, e4, r4⟩ := extract_string_ready r.file kRoot _ _ hrm
  have hl : (d.values.map real_value).length =
      n * total_channels (r.bvh.set_root_joint r.parsed).joints := by
    rw [List.length_map, hlen]
    simp [BvHSkeleton.set_root_joint, hjoints]
  obtain ⟨s6, hm, _⟩ := parse_motion_ready ind f4 (r.bvh.set_root_joint r.parsed) d.frames
    d.frame_time d.values [] n (real_value d.frame_time) (d.values.map real_value) r4
    (is_count_scan _ _ hfn) (is_real_scan _ _ hft) (map_scan_real_of_all _ hvals) hl
  have e4' : extract_string r.file kRoot = (f4, kMotion) := e4
  have hhm : parse_hierarchy_motion ind r.file (r.bvh.set_root_joint r.parsed) kRoot =
      (0, s6, { ((r.bvh.set_root_joint r.parsed).set_num_frames n).set_frame_time
        (real_value d.frame_time) with
        joints := deal_frames n (r.bvh.set_root_joint r.parsed).joints
          (d.values.map real_value) }) := by
    unfold parse_hierarchy_motion
    rw [if_pos hgm, e4']
    dsimp only
    rw [if_pos rfl, hm]
    rfl
  rw [hhm] at hh
  rw [parse_of_hierarchy ind content _ f1 _ _ _ e1 hh]
  simp only [BvHSkeleton.set_root_joint, BvHSkeleton.set_num_frames,
    BvHSkeleton.set_frame_time, hjoints, hpar]

/-! ## The top-level parse -/

/-- C9: when the first whitespace-delimited token of an opened file is not
`HIERARCHY` (also when there is no token at all), `parse` returns -1 and the
skeleton is the one it was given: no joint, root, frame count or frame time is
written. -/
theorem parse_first_token_not_hierarchy (ind : Indet) (content : List Char) (bvh : BvHSkeleton)
    (h : (tokens content).head? ≠ some kHierarchy.toList) :
    parse ind (some content) bvh = some (-1, bvh) := by
  unfold parse
  dsimp only
  cases ht : tokens content with
  | nil =>
    have e := extract_string_empty (IStream.open_ content) "" ht
    cases hx : extract_string (IStream.open_ content) "" with
    | mk f t =>
      rw [hx] at e
      dsimp only at e ⊢
      have : ¬ t = kHierarchy := by
        rw [e.1]
        decide
      rw [if_neg this]
  | cons tok toks =>
    have hr : Ready (IStream.open_ content) (tok :: toks) := ⟨ht, fun _ => rfl⟩
    obtain ⟨s1, e, _⟩ := extract_string_ready _ "" _ _ hr
    rw [e]
    dsimp only
    have : ¬ String.mk tok = kHierarchy := by
      intro hc
      apply h
      rw [ht, ← hc]
      rfl
    rw [if_neg this]

theorem parse_first_token_not_hierarchy_witness :
    (tokens "ROOT Hips".toList).head? ≠ some kHierarchy.toList ∧
    parse ⟨⟨Decimal.zero, Decimal.zero, Decimal.zero⟩, 0, Decimal.zero, Decimal.zero, 0, RealType.float⟩
      (some "ROOT Hips".toList) ⟨none, [], 0, Decimal.zero⟩ =
      some (-1, ⟨none, [], 0, Decimal.zero⟩) :=
  ⟨by decide, parse_first_token_not_hierarchy _ _ _ (by decide)⟩

/-- C10: when the file starts with `HIERARCHY` and `ROOT`, the call of
`parse_joint` for the root returns 0 and the next token is not `MOTION` (a
different token, or none because the input ends), `parse` returns -1 and the
skeleton is the one `parse_joint` left, with the root set: `parse_motion` has
written nothing.  Frame count and frame time are those the skeleton had
before the call, the joints registered before are untouched and the new ones
have no motion sample. -/
theorem parse_motion_keyword_missing (ind : Indet) (content : List Char) (bvh : BvHSkeleton)
    (f1 f2 : IStream) (r : JointResult)
    (h1 : extract_string (IStream.open_ content) "" = (f1, kHierarchy))
    (hg : f1.good = true)
    (h2 : extract_string f1 "" = (f2, kRoot))
    (h3 : parse_joint ind (f2.rest.length + 1) f2 bvh none = some r)
    (h4 : r.ret = 0)
    (h5 : (tokens r.file.rest).head? ≠ some kMotion.toList) :
    parse ind (some content) bvh = some (-1, r.bvh.set_root_joint r.parsed) ∧
    r.bvh.num_frames = bvh.num_frames ∧ r.bvh.frame_time = bvh.frame_time ∧
    r.bvh.joints.take bvh.joints.length = bvh.joints ∧
    ∀ j ∈ r.bvh.joints.drop bvh.joints.length, j.motion_data = [] := by
  obtain ⟨name, offset, channels, kids, hb, _, hgood⟩ := parse_joint_layout ind _ _ _ _ r h3 h4
  have hm := parse_hierarchy_motion_no_motion ind r.file (r.bvh.set_root_joint r.parsed) kRoot
    hgood (by decide) h5
  have hh := parse_hierarchy_of_joint ind bvh f1 f2 r hg h2 h3
  rw [if_neg (not_not.mpr h4)] at hh
  refine ⟨?_, by rw [hb], by rw [hb], by rw [hb]; simp, ?_⟩
  · have := parse_of_hierarchy ind content bvh f1
      (parse_hierarchy_motion ind r.file (r.bvh.set_root_joint r.parsed) kRoot).2.1
      (parse_hierarchy_motion ind r.file (r.bvh.set_root_joint r.parsed) kRoot).1
      (parse_hierarchy_motion ind r.file (r.bvh.set_root_joint r.parsed) kRoot).2.2 h1 hh
    rw [this, hm.1, hm.2]
  · intro j hj
    rw [hb] at hj
    simp only [List.drop_left] at hj
    exact Forest.layout_motion_data _ _ _ j hj

set_option maxRecDepth 100000 in
theorem parse_motion_keyword_missing_witness :
    parse ind0 (some scenario_C) bvh0 =
      some (-1, ⟨some 0, [⟨"Hips", ⟨Decimal.zero, Decimal.zero, Decimal.zero⟩, [], none, [], []⟩],
        0, Decimal.zero⟩) :=
  (parse_motion_keyword_missing ind0 scenario_C bvh0
    ⟨"\nROOT Hips\n\x7b\nOFFSET 0 0 0\nCHANNELS 0\n\x7d\nFrames: 1\nFrame Time: 0.0333\n".toList,
      false, false⟩
    ⟨" Hips\n\x7b\nOFFSET 0 0 0\nCHANNELS 0\n\x7d\nFrames: 1\nFrame Time: 0.0333\n".toList, false, false⟩
    ⟨0, ⟨"\nFrames: 1\nFrame Time: 0.0333\n".toList, false, false⟩,
      ⟨none, [⟨"Hips", ⟨Decimal.zero, Decimal.zero, Decimal.zero⟩, [], none, [], []⟩],
        0, Decimal.zero⟩, some 0⟩
    (by decide) (by decide) (by decide) (by decide) (by decide) (by decide)).1

set_option maxHeartbeats 1000000 in
/-- C8: parsing the scenario A text into a skeleton with an empty registry
returns 0; the registry then holds exactly one joint, named `Hips`, without
parent or child, with the channels XPOSITION, YPOSITION, ZPOSITION and exactly
one motion sample, whose values are the numbers 1.0, 2.0, 3.0; the root is
that joint and the frame count is 1. -/
theorem parse_scenario_A (ind : Indet) (root : Option Nat) (n : Int) (t : Decimal) :
    parse ind (some scenario_A) ⟨root, [], n, t⟩ =
      some (0, ⟨some 0,
        [⟨"Hips", ⟨⟨false, 0, 0⟩, ⟨false, 0, 0⟩, ⟨false, 0, 0⟩⟩,
          [Channel.XPOSITION, Channel.YPOSITION, Channel.ZPOSITION], none, [],
          [[⟨false, 10, -1⟩, ⟨false, 20, -1⟩, ⟨false, 30, -1⟩]]⟩],
        1, ⟨false, 333, -4⟩⟩) ∧
    [(⟨false, 10, -1⟩ : Decimal), ⟨false, 20, -1⟩, ⟨false, 30, -1⟩].map Decimal.toRat
      = [1, 2, 3] := by
  constructor
  · obtain ⟨offset, frames_num, frame_time, number, num, offset_type⟩ := ind
    cases offset_type <;> rfl
  · simp only [List.map, Decimal.toRat]
    norm_num

theorem forall2_mem_right {α : Type} (R : α → α → Prop) (l l2 : List α)
    (h : List.Forall₂ R l l2) : ∀ b ∈ l2, ∃ a ∈ l, R a b := by
  induction h with
  | nil => intro b hb; simp at hb
  | cons hab _ ih =>
    intro b hb
    rcases List.mem_cons.mp hb with e | e
    · exact ⟨_, List.mem_cons_self _ _, e ▸ hab⟩
    · obtain ⟨a, ha, hr⟩ := ih b e
      exact ⟨a, List.mem_cons_of_mem _ ha, hr⟩

set_option maxRecDepth 100000 in
/-- C3, as the claim states it, fails: with `Frames: -1` the parse returns 0,
the frame count is -1 and the root joint has no motion sample. -/
theorem frame_count_negative_counterexample :
    ∃ b, parse ind0 (some scenario_negative_frames) bvh0 = some (0, b) ∧
      ¬ ∀ j ∈ b.joints, (j.motion_data.length : Int) = b.num_frames := by
  refine ⟨⟨some 0, [⟨"Hips", ⟨Decimal.zero, Decimal.zero, Decimal.zero⟩, [], none, [], []⟩],
    -1, ⟨false, 333, -4⟩⟩, by decide, ?_⟩
  intro h
  have := h _ (List.mem_cons_self _ _)
  simp at this

/-- C3, amended: when `parse` returns 0 on a skeleton whose registry was
empty, every joint of the registry has as many motion samples as the frame
count read from the `Frames:` header when that count is not negative, and
none when it is negative. -/
theorem frame_count_samples (ind : Indet) (content : List Char) (bvh b : BvHSkeleton)
    (he : bvh.joints = [])
    (h : parse ind (some content) bvh = some (0, b)) :
    ∀ j ∈ b.joints, j.motion_data.length = b.num_frames.toNat := by
  rcases parse_success_inv ind content bvh b h with e | ⟨r, fm, name, offset, channels, kids,
    hb, _, hret, hres⟩
  · intro j hj
    rw [e, he] at hj
    simp at hj
  · intro j hj
    rcases parse_motion_rel ind fm (r.bvh.set_root_joint r.parsed) with ⟨_, hrel, _⟩ | ⟨hm, _, _⟩
    · rw [hres] at hrel
      obtain ⟨j0, hj0, samples, e, hl, _⟩ := forall2_mem_right _ _ _ hrel j hj
      have hmd : j0.motion_data = [] := by
        have : j0 ∈ (Forest.joint name offset channels kids Forest.nil).layout
            bvh.joints.length none := by
          simpa [BvHSkeleton.set_root_joint, hb, he] using hj0
        exact Forest.layout_motion_data _ _ _ j0 this
      rw [e]
      simp [Joint.with_samples, hmd, hl]
    · rw [hret] at hm
      exact absurd hm (by decide)

set_option maxRecDepth 100000 in
theorem frame_count_samples_witness :
    scenario_A_joint.motion_data.length = (1 : Int).toNat :=
  frame_count_samples ind0 scenario_A bvh0 ⟨some 0, [scenario_A_joint], 1, ⟨false, 333, -4⟩⟩
    rfl (by decide) scenario_A_joint (List.mem_cons_self _ _)

/-- C4: whatever the stream holds, `parse_motion` leaves every joint of the
registry as it was except for motion samples appended to it, and each
appended sample has exactly as many values as the joint has channels; a joint
without channels, such as an End Site, only receives empty samples. -/
theorem parse_motion_sample_sizes (ind : Indet) (file : IStream) (bvh : BvHSkeleton) :
    List.Forall₂
      (fun j j2 => ∃ samples : List (List Decimal), j2 = j.with_samples samples ∧
        j2.channels = j.channels ∧
        (∀ s ∈ samples, s.length = j2.channels.length) ∧
        (j2.channels = [] → ∀ s ∈ samples, s = []))
      bvh.joints (parse_motion ind file bvh).2.2.joints := by
  have key : ∀ k (l l2 : List Joint), List.Forall₂ (Joint.gets_frames k) l l2 →
      List.Forall₂
        (fun j j2 => ∃ samples : List (List Decimal), j2 = j.with_samples samples ∧
          j2.channels = j.channels ∧
          (∀ s ∈ samples, s.length = j2.channels.length) ∧
          (j2.channels = [] → ∀ s ∈ samples, s = [])) l l2 := by
    intro k l l2 hrel
    refine List.Forall₂.imp ?_ hrel
    intro j j2 ⟨samples, e, _, hs⟩
    have hc : j2.channels = j.channels := by rw [e]; rfl
    refine ⟨samples, e, hc, ?_, ?_⟩
    · intro s h
      rw [hc]
      exact hs s h
    · intro hn s h
      have := hs s h
      rw [← hc, hn] at this
      exact List.length_eq_zero.mp this
  rcases parse_motion_rel ind file bvh with ⟨_, hrel, _⟩ | ⟨_, hj, _⟩
  · exact key _ _ _ hrel
  · rw [hj]
    exact key 0 _ _ (forall2_gets_frames_zero _)

/-- C2: when the stream at the start of `parse_motion` delivers the tokens
`Frames:`, a count `n`, `Frame`, `Time:`, a frame time that the extraction
into a `double` converts and then `n * T` tokens that the extraction into a
`float` converts (numerals within the range of the type), with the values
`vs` (`T` the sum of the channel counts over the registry), `parse_motion`
returns 0 and the joint at position `k` of the
registry is the joint that was there with `n` samples appended; the sample of
frame `f` is the slice of `vs` that starts at `f * T + P_k` and has the
joint's channel count as its length, `P_k` being the sum of the channel counts
of the joints before position `k`. -/
theorem parse_motion_distributes (ind : Indet) (file : IStream) (bvh : BvHSkeleton)
    (ntok ttok : List Char) (vtoks more : List (List Char)) (n : Nat) (t : Decimal)
    (vs : List Decimal)
    (hr : Ready file (kFrames.toList :: ntok :: kFrame.toList :: "Time:".toList :: ttok ::
      (vtoks ++ more)))
    (hn : scan_int ntok = (true, (n : Int), []))
    (ht : scan_real RealType.double ttok = (true, t, []))
    (hv : vtoks.map (scan_real RealType.float) = vs.map (fun v => (true, v, [])))
    (hl : vs.length = n * total_channels bvh.joints) :
    (parse_motion ind file bvh).1 = 0 ∧
    ∀ k, (parse_motion ind file bvh).2.2.joints[k]? = (bvh.joints[k]?).map (fun (j : Joint) =>
      j.with_samples ((List.range n).map (fun f =>
        (vs.drop (f * total_channels bvh.joints + channels_before bvh.joints k)).take
          j.num_channels))) := by
  obtain ⟨s6, hres, _⟩ := parse_motion_ready ind file bvh ntok ttok vtoks more n t vs hr hn ht hv hl
  rw [hres]
  exact ⟨rfl, fun k => deal_frames_getElem? n bvh.joints vs k⟩

set_option maxRecDepth 100000 in
theorem parse_motion_distributes_witness :
    (parse_motion ind0 (IStream.open_ "Frames: 2 Frame Time: 0.1 1 2 3 4 5 6".toList)
      two_joints).2.2.joints[1]? =
      some ⟨"Spine", ⟨Decimal.zero, Decimal.zero, Decimal.zero⟩, [Channel.ZROTATION], some 0, [],
        [[⟨false, 3, 0⟩], [⟨false, 6, 0⟩]]⟩ :=
  (parse_motion_distributes ind0 (IStream.open_ "Frames: 2 Frame Time: 0.1 1 2 3 4 5 6".toList)
    two_joints "2".toList "0.1".toList
    ["1".toList, "2".toList, "3".toList, "4".toList, "5".toList, "6".toList] [] 2 ⟨false, 1, -1⟩
    [⟨false, 1, 0⟩, ⟨false, 2, 0⟩, ⟨false, 3, 0⟩, ⟨false, 4, 0⟩, ⟨false, 5, 0⟩, ⟨false, 6, 0⟩]
    ⟨by decide, fun _ => rfl⟩ (by decide) (by decide) (by decide) (by decide)).2 1

set_option maxHeartbeats 1000000 in
/-- C1, the code at a truncated input: the scenario A text cut off after the
second value of its only frame is parsed with return code 0; the third value
of the sample is the value read last. -/
theorem parse_scenario_D (ind : Indet) (root : Option Nat) (n : Int) (t : Decimal) :
    parse ind (some scenario_D) ⟨root, [], n, t⟩ =
      some (0, ⟨some 0,
        [⟨"Hips", ⟨⟨false, 0, 0⟩, ⟨false, 0, 0⟩, ⟨false, 0, 0⟩⟩,
          [Channel.XPOSITION, Channel.YPOSITION, Channel.ZPOSITION], none, [],
          [[⟨false, 10, -1⟩, ⟨false, 20, -1⟩, ⟨false, 20, -1⟩]]⟩],
        1, ⟨false, 333, -4⟩⟩) := by
  obtain ⟨offset, frames_num, frame_time, number, num, offset_type⟩ := ind
  cases offset_type <;> rfl

/-! ## The registry is the pre-order walk of the tree -/

theorem Forest.depth_le_size (f : Forest) : f.depth ≤ f.size := by
  induction f with
  | nil => simp [Forest.depth]
  | joint name offset channels kids rest ihk ihr =>
    simp only [Forest.depth, Forest.size]
    omega
  | endsite offset rest ih =>
    simp only [Forest.depth, Forest.size]
    omega

theorem getElem?_length_append (pre post : List Joint) (j : Joint) :
    (pre ++ j :: post)[pre.length]? = some j := by
  induction pre with
  | nil => simp
  | cons a pre ih => simpa using ih

/-- In a registry that holds the layout of some blocks from position `base`
on, the pre-order walks from the top-level joints of the blocks, one after
the other, visit the positions `base`, `base + 1`, ... of the layout in
order. -/
theorem preorder_layout (f : Forest) :
    ∀ (base : Nat) (parent : Option Nat) (pre post : List Joint) (fuel : Nat),
      pre.length = base → f.depth ≤ fuel →
      (f.roots base).flatMap
        (fun c => preorder (pre ++ (f.layout base parent ++ post)) fuel c) =
        List.range' base f.size := by
  induction f with
  | nil => intro base parent pre post fuel _ _; rfl
  | joint name offset channels kids rest ihk ihr =>
    intro base parent pre post fuel hb hd
    simp only [Forest.depth] at hd
    obtain ⟨fuel1, rfl⟩ : ∃ m, fuel = m + 1 := ⟨fuel - 1, by omega⟩
    have h1 := ihk (base + 1) (some base)
      (pre ++ [⟨name, offset, channels, parent, kids.roots (base + 1), []⟩])
      (rest.layout (base + 1 + kids.size) parent ++ post) fuel1 (by simp [hb]) (by omega)
    have h2 := ihr (base + 1 + kids.size) parent
      (pre ++ ⟨name, offset, channels, parent, kids.roots (base + 1), []⟩ ::
        kids.layout (base + 1) (some base)) post (fuel1 + 1)
      (by simp [hb, Forest.length_layout]; omega) (by omega)
    simp only [List.append_assoc, List.singleton_append, List.cons_append,
      List.nil_append] at h1 h2
    simp only [Forest.roots, Forest.layout, List.flatMap_cons, List.cons_append,
      List.append_assoc, Forest.size]
    rw [h2]
    have hget : (pre ++ ⟨name, offset, channels, parent, kids.roots (base + 1), []⟩ ::
        (kids.layout (base + 1) (some base) ++
          (rest.layout (base + 1 + kids.size) parent ++ post)))[base]? =
        some ⟨name, offset, channels, parent, kids.roots (base + 1), []⟩ := by
      rw [← hb]
      exact getElem?_length_append _ _ _
    rw [preorder, hget]
    dsimp only
    rw [h1]
    have e1 : base :: List.range' (base + 1) kids.size = List.range' base (1 + kids.size) := by
      rw [Nat.add_comm 1, List.range'_succ]
    rw [List.cons_append, ← List.cons_append, e1]
    have e2 := List.range'_append_1 base (1 + kids.size) rest.size
    rw [show base + 1 + kids.size = base + (1 + kids.size) by omega, e2]
    congr 1
    omega
  | endsite offset rest ih =>
    intro base parent pre post fuel hb hd
    simp only [Forest.depth] at hd
    obtain ⟨fuel1, rfl⟩ : ∃ m, fuel = m + 1 := ⟨fuel - 1, by omega⟩
    have h2 := ih (base + 1) parent (pre ++ [⟨kEndSite, offset, [], parent, [], []⟩]) post
      (fuel1 + 1) (by simp [hb]) (by omega)
    simp only [List.append_assoc, List.singleton_append, List.cons_append,
      List.nil_append] at h2
    simp only [Forest.roots, Forest.layout, List.flatMap_cons, List.cons_append, Forest.size]
    rw [h2]
    have hget : (pre ++ ⟨kEndSite, offset, [], parent, [], []⟩ ::
        (rest.layout (base + 1) parent ++ post))[base]? =
        some ⟨kEndSite, offset, [], parent, [], []⟩ := by
      rw [← hb]
      exact getElem?_length_append _ _ _
    rw [preorder, hget]
    dsimp only
    simp only [List.flatMap_nil, List.singleton_append]
    rw [Nat.add_comm 1, List.range'_succ]

theorem filterMap_range'_getElem? (l pre : List Joint) :
    (List.range' pre.length l.length).filterMap (fun i => (pre ++ l)[i]?) = l := by
  induction l generalizing pre with
  | nil => rfl
  | cons a l ih =>
    have := ih (pre ++ [a])
    simp only [List.length_append, List.length_singleton, List.append_assoc,
      List.singleton_append] at this
    rw [List.length_cons, List.range'_succ, List.filterMap_cons, getElem?_length_append]
    dsimp only
    rw [this]

/-- C6: when `parse_joint` returns 0 for the root on a skeleton with an
empty registry, the pre-order walk of the tree from the joint it hands back
(a joint, then the subtree of each of its children in turn) visits the
registry positions 0, 1, 2, ... in this order, so the joints met by the walk
are the registry itself. -/
theorem registry_is_preorder (ind : Indet) (fuel : Nat) (file : IStream) (bvh : BvHSkeleton)
    (r : JointResult) (he : bvh.joints = [])
    (h : parse_joint ind fuel file bvh none = some r) (h0 : r.ret = 0) :
    r.parsed = some 0 ∧
    preorder r.bvh.joints r.bvh.joints.length 0 = List.range r.bvh.joints.length ∧
    (preorder r.bvh.joints r.bvh.joints.length 0).filterMap (fun i => r.bvh.joints[i]?) =
      r.bvh.joints := by
  obtain ⟨name, offset, channels, kids, hb, hp, _⟩ := parse_joint_layout ind fuel file bvh none r h h0
  rw [he] at hb hp
  have hj : r.bvh.joints =
      (Forest.joint name offset channels kids Forest.nil).layout 0 none := by
    rw [hb]
    rfl
  have hlen : r.bvh.joints.length = (Forest.joint name offset channels kids Forest.nil).size := by
    rw [hj, Forest.length_layout]
  have key := preorder_layout (Forest.joint name offset channels kids Forest.nil) 0 none [] []
    r.bvh.joints.length rfl (by rw [hlen]; exact Forest.depth_le_size _)
  simp only [List.nil_append, List.append_nil, ← hj, Forest.roots, List.flatMap_cons,
    List.flatMap_nil, ← hlen, ← List.range_eq_range'] at key
  refine ⟨hp, key, ?_⟩
  rw [key, List.range_eq_range']
  exact filterMap_range'_getElem? r.bvh.joints []

set_option maxRecDepth 100000 in
theorem registry_is_preorder_witness :
    scenario_B_registry.map Joint.name = ["Hips", "Spine", "End Site"] ∧
    preorder scenario_B_registry 3 0 = [0, 1, 2] :=
  ⟨rfl, (registry_is_preorder ind0 200
    (extract_string (IStream.open_ (scenario_B ++ [' '])) "").1 bvh0
    ⟨0, ⟨[' '], false, false⟩, ⟨none, scenario_B_registry, 0, Decimal.zero⟩, some 0⟩
    rfl (by decide) rfl).2.1⟩

set_option maxHeartbeats 1000000 in
/-- The scenario B text exactly as given, with nothing after its last brace:
`parse_joint` registers Hips, Spine and the End Site in this order, and
returns -1 because reading the last brace exhausts the stream. -/
theorem scenario_B_registry_order (ind : Indet) :
    (parse_joint ind 200 (extract_string (IStream.open_ scenario_B) "").1 bvh0 none).map
      (fun r => (r.ret, r.bvh.joints.map Joint.name)) =
      some (-1, ["Hips", "Spine", "End Site"]) := by
  obtain ⟨offset, frames_num, frame_time, number, num, offset_type⟩ := ind
  cases offset_type <;> rfl

/-- C5: for a file whose tokens are those of the grammar (`HIERARCHY`, one
`ROOT` block with nested `JOINT` and `End Site` blocks, `MOTION`, `Frames: n`,
`Frame Time: t` and `n * T` numeric values, every numeric token being a
numeral within the range of the type it is read into: the type of the offset
components, `int` for the counts, `double` for the frame time, `float` for
the values), parsed into a skeleton with an empty registry, `parse` returns
0; the root is the first joint of the
registry, and the registry holds, in pre-order, the joints the text denotes,
with the same name, offset, channel list, parent and children at every
node.  The motion data are the values dealt frame after frame. -/
theorem parse_conforming (ind : Indet) (content : List Char) (d : Document) (n : Nat)
    (root : Option Nat) (nf : Int) (ft : Decimal)
    (ht : tokens content = d.render) (hw : d.well_formed ind.offset_type n = true) :
    ∃ b, parse ind (some content) ⟨root, [], nf, ft⟩ = some (0, b) ∧
      b.root_joint = some 0 ∧
      b.joints.map Joint.shape = (d.tree.layout 0 none).map Joint.shape ∧
      b.joints = deal_frames n (d.tree.layout 0 none) (d.values.map real_value) ∧
      b.num_frames = n ∧ b.frame_time = real_value d.frame_time := by
  have h := parse_document ind content d n root nf ft ht hw
  refine ⟨_, h, rfl, ?_, rfl, rfl, rfl⟩
  exact map_shape_deal_frames n _ _

set_option maxRecDepth 100000 in
theorem parse_conforming_witness :
    ∃ b, parse ind0 (some scenario_E) ⟨none, [], 0, Decimal.zero⟩ = some (0, b) ∧
      b.root_joint = some 0 ∧
      b.joints.map Joint.shape = (document_E.tree.layout 0 none).map Joint.shape ∧
      b.joints = deal_frames 2 (document_E.tree.layout 0 none)
        (document_E.values.map real_value) ∧
      b.num_frames = (2 : Nat) ∧ b.frame_time = real_value document_E.frame_time :=
  parse_conforming ind0 scenario_E document_E 2 none 0 Decimal.zero (by decide) (by decide)

theorem Block.size_denote (B : Block) :
    B.denote.size = B.joint_blocks + B.endsite_blocks := by
  induction B with
  | nil => rfl
  | joint name x y z count channels kids rest ihk ihr =>
    simp only [Block.denote, Forest.size, Block.joint_blocks, Block.endsite_blocks, ihk, ihr]
    omega
  | endsite x y z rest ih =>
    simp only [Block.denote, Forest.size, Block.joint_blocks, Block.endsite_blocks, ih]
    omega

/-- The pre-order walk only looks at the children lists of the joints. -/
theorem preorder_congr (A B : List Joint)
    (h : ∀ i : Nat, (A[i]?).map Joint.children = (B[i]?).map Joint.children) :
    ∀ fuel ref, preorder A fuel ref = preorder B fuel ref := by
  intro fuel
  induction fuel with
  | zero => intro ref; rfl
  | succ fuel ih =>
    intro ref
    have hi := h ref
    simp only [preorder]
    cases ha : A[ref]? with
    | none =>
      rw [ha] at hi
      cases hb : B[ref]? with
      | none => rfl
      | some b =>
        rw [hb] at hi
        cases hi
    | some a =>
      rw [ha] at hi
      cases hb : B[ref]? with
      | none =>
        rw [hb] at hi
        cases hi
      | some b =>
        rw [hb] at hi
        simp only [Option.map_some', Option.some.injEq] at hi
        simp only [hi, ih]

theorem children_of_shape (A B : List Joint) (h : A.map Joint.shape = B.map Joint.shape) :
    ∀ i : Nat, (A[i]?).map Joint.children = (B[i]?).map Joint.children := by
  intro i
  have h1 : (A.map Joint.shape)[i]? = (B.map Joint.shape)[i]? := by rw [h]
  simp only [List.getElem?_map] at h1
  cases ha : A[i]? with
  | none =>
    rw [ha] at h1
    cases hb : B[i]? with
    | none => rfl
    | some b =>
      rw [hb] at h1
      cases h1
  | some a =>
    rw [ha] at h1
    cases hb : B[i]? with
    | none =>
      rw [hb] at h1
      cases h1
    | some b =>
      rw [hb] at h1
      simp only [Option.map_some', Option.some.injEq, Joint.shape, Prod.mk.injEq] at h1
      simp only [Option.map_some', h1.2.2.2.2]

/-- C7: for a file of the grammar (every numeric token a numeral within
the range of the type it is read into) parsed into a skeleton with an empty
registry, `parse` returns 0 and the length of the registry is the number of
`ROOT` and `JOINT` blocks plus the number of `End Site` blocks of the text;
the pre-order walk of the tree from the root meets that many joints, each
registry position once. -/
theorem registry_length_counts_blocks (ind : Indet) (content : List Char) (d : Document)
    (n : Nat) (root : Option Nat) (nf : Int) (ft : Decimal)
    (ht : tokens content = d.render) (hw : d.well_formed ind.offset_type n = true) :
    ∃ b, parse ind (some content) ⟨root, [], nf, ft⟩ = some (0, b) ∧
      b.root_joint = some 0 ∧
      b.joints.length = d.joint_blocks + d.endsite_blocks ∧
      preorder b.joints b.joints.length 0 = List.range b.joints.length ∧
      (preorder b.joints b.joints.length 0).length = b.joints.length := by
  have h := parse_document ind content d n root nf ft ht hw
  have hshape := map_shape_deal_frames n (d.tree.layout 0 none) (d.values.map real_value)
  have hlen : (deal_frames n (d.tree.layout 0 none) (d.values.map real_value)).length =
      d.tree.size := by
    have := congrArg List.length hshape
    simpa [Forest.length_layout] using this
  have hsize : d.tree.size = d.joint_blocks + d.endsite_blocks := by
    simp only [Document.tree, Forest.size, Block.size_denote, Document.joint_blocks,
      Document.endsite_blocks]
    omega
  have hwalk : preorder (deal_frames n (d.tree.layout 0 none) (d.values.map real_value))
      d.tree.size 0 = List.range d.tree.size := by
    rw [preorder_congr _ _ (children_of_shape _ _ hshape)]
    have key := preorder_layout d.tree 0 none [] [] d.tree.size rfl (Forest.depth_le_size _)
    simp only [List.nil_append, List.append_nil, Document.tree, Forest.roots,
      List.flatMap_cons, List.flatMap_nil, ← List.range_eq_range'] at key
    exact key
  refine ⟨_, h, rfl, ?_, ?_, ?_⟩
  · rw [hlen, hsize]
  · dsimp only
    rw [hlen]
    exact hwalk
  · dsimp only
    rw [hlen, hwalk, List.length_range]

set_option maxRecDepth 100000 in
theorem registry_length_counts_blocks_witness :
    ∃ b, parse ind0 (some scenario_E) ⟨none, [], 0, Decimal.zero⟩ = some (0, b) ∧
      b.root_joint = some 0 ∧
      b.joints.length = document_E.joint_blocks + document_E.endsite_blocks ∧
      preorder b.joints b.joints.length 0 = List.range b.joints.length ∧
      (preorder b.joints b.joints.length 0).length = b.joints.length :=
  registry_length_counts_blocks ind0 scenario_E document_E 2 none 0 Decimal.zero
    (by decide) (by decide)

set_option maxRecDepth 100000 in
/-- The result of parsing `scenario_E`, evaluated. -/
theorem parse_scenario_E :
    parse ind0 (some scenario_E) bvh0 =
      some (0, ⟨some 0, scenario_E_registry, 2, ⟨false, 1, -1⟩⟩) := by
  decide!

/-! ## Termination, and the exhausted stream -/

theorem parse_hierarchy_total (ind : Indet) (file : IStream) (bvh : BvHSkeleton) :
    ∃ r, parse_hierarchy ind file bvh = some r := by
  unfold parse_hierarchy
  by_cases hg : file.good = true
  · rw [if_pos hg]
    cases extract_string file "" with
    | mk f1 t1 =>
    dsimp only
    by_cases c : t1 = kRoot
    · rw [if_pos c]
      obtain ⟨r, hr⟩ := parse_joint_hierarchy_total ind f1 bvh none
      rw [hr]
      dsimp only
      by_cases c2 : r.ret ≠ 0
      · rw [if_pos c2]
        exact ⟨_, rfl⟩
      · rw [if_neg c2]
        exact ⟨_, rfl⟩
    · rw [if_neg c]
      exact ⟨_, rfl⟩
  · rw [if_neg hg]
    exact ⟨_, rfl⟩

/-- C19: `parse` terminates on every file, opened or not: it returns a
return code and a skeleton.  The loop of `parse_joint` and its nested calls
run within the bound `parse_hierarchy` gives them, one step per unread
character and one more, because every iteration and every nested call begins
with an extraction, and an extraction either takes at least one character
from the stream or leaves it not good, which ends the loop
(`extract_string_left`, `parse_joint_loop_left`, `parse_joint_loop_total`).
The loops of `parse_channel_order` and `parse_motion` count down from the
numbers they were given. -/
theorem parse_terminates (ind : Indet) (file : Option (List Char)) (bvh : BvHSkeleton) :
    ∃ ret b, parse ind file bvh = some (ret, b) := by
  cases file with
  | none => exact ⟨-1, bvh, rfl⟩
  | some content =>
    unfold parse
    dsimp only
    cases extract_string (IStream.open_ content) "" with
    | mk f1 t1 =>
    dsimp only
    by_cases c : t1 = kHierarchy
    · rw [if_pos c]
      obtain ⟨⟨ret, f2, b⟩, hr⟩ := parse_hierarchy_total ind f1 bvh
      rw [hr]
      dsimp only
      by_cases c2 : ret ≠ 0
      · rw [if_pos c2]
        exact ⟨_, _, rfl⟩
      · rw [if_neg c2]
        exact ⟨_, _, rfl⟩
    · rw [if_neg c]
      exact ⟨_, _, rfl⟩

/-- C18, the code on the file that holds only `HIERARCHY`, with nothing after
the keyword: reading the keyword exhausts the stream, `parse_hierarchy` skips
both of its blocks, and `parse` returns 0 with the skeleton untouched: no
root, no joint. -/
theorem parse_hierarchy_keyword_only (ind : Indet) (bvh : BvHSkeleton) :
    parse ind (some "HIERARCHY".toList) bvh = some (0, bvh) := by
  rfl

/-- C12: when the stream delivers a channel count `n` and then `n` channel
names (each one of the six names of the format), `parse_channel_order`
returns 0, has taken exactly the count and those `n` tokens from the stream,
and leaves the joint as it was except for its channel list, which now has
length `n` and holds, in read order, the channel of each name. -/
theorem parse_channel_order_names (ind : Indet) (file : IStream) (joint : Joint)
    (count : List Char) (channels : List Channel) (more : List (List Char))
    (hr : Ready file (count :: (channels.map (fun c => c.keyword.toList) ++ more)))
    (hc : is_count count channels.length = true) :
    ∃ f1, parse_channel_order ind file joint =
        (0, f1, { joint with channels := channels }) ∧ Ready f1 more ∧
      channels.map (fun c => channel_of_token c.keyword) = channels.map some := by
  obtain ⟨f1, h, r1⟩ := parse_channel_order_ready ind file joint count channels more hr hc
  refine ⟨f1, h, r1, ?_⟩
  apply List.map_congr_left
  intro c _
  cases c <;> rfl

theorem parse_channel_order_names_witness :
    ∃ f1, parse_channel_order ind0
        (IStream.open_ " 3 Zrotation Xrotation Yposition\nJOINT".toList) Joint.fresh =
        (0, f1, { Joint.fresh with
          channels := [Channel.ZROTATION, Channel.XROTATION, Channel.YPOSITION] }) ∧
      Ready f1 ["JOINT".toList] ∧
      [Channel.ZROTATION, Channel.XROTATION, Channel.YPOSITION].map
        (fun c => channel_of_token c.keyword) =
        [Channel.ZROTATION, Channel.XROTATION, Channel.YPOSITION].map some :=
  parse_channel_order_names ind0
    (IStream.open_ " 3 Zrotation Xrotation Yposition\nJOINT".toList) Joint.fresh "3".toList
    [Channel.ZROTATION, Channel.XROTATION, Channel.YPOSITION] ["JOINT".toList]
    ⟨by decide, fun _ => rfl⟩ (by decide)

/-- C16: a call of `parse_joint` that returns with the stream exhausted
(`eofbit` set: the input ended before the closing brace of the block, or of a
block nested in it, was read and found followed by anything) returns a
failure code; when it is the call for the root, `parse` returns that code
with the skeleton as `parse_joint` left it. -/
theorem parse_joint_stream_exhausted (ind : Indet) (fuel : Nat) (file : IStream)
    (bvh : BvHSkeleton) (parent : Option Nat) (r : JointResult)
    (h : parse_joint ind fuel file bvh parent = some r) (he : r.file.eofbit = true) :
    r.ret ≠ 0 ∧
    ∀ content f1, extract_string (IStream.open_ content) "" = (f1, kHierarchy) →
      f1.good = true → extract_string f1 "" = (file, kRoot) →
      fuel = file.rest.length + 1 → parent = none →
      parse ind (some content) bvh = some (r.ret, r.bvh) := by
  have hret : r.ret ≠ 0 := by
    intro h0
    obtain ⟨_, _, _, _, _, _, hg⟩ := parse_joint_layout ind fuel file bvh parent r h h0
    simp [IStream.good, he] at hg
  refine ⟨hret, ?_⟩
  intro content f1 h1 hg h2 hf hp
  subst hf hp
  have hh := parse_hierarchy_of_joint ind bvh f1 file r hg h2 h
  rw [if_pos hret] at hh
  exact parse_of_hierarchy ind content bvh f1 _ _ _ h1 hh

set_option maxRecDepth 100000 in
theorem parse_joint_stream_exhausted_witness :
    parse ind0 (some scenario_unterminated) bvh0 =
      some (-1, ⟨none, [⟨"Hips", ⟨Decimal.zero, Decimal.zero, Decimal.zero⟩, [], none, [], []⟩],
        0, Decimal.zero⟩) :=
  (parse_joint_stream_exhausted ind0 33
    ⟨" Hips\n\x7b\nOFFSET 0 0 0\nCHANNELS 0\n".toList, false, false⟩ bvh0 none
    ⟨-1, ⟨[], true, true⟩,
      ⟨none, [⟨"Hips", ⟨Decimal.zero, Decimal.zero, Decimal.zero⟩, [], none, [], []⟩],
        0, Decimal.zero⟩, none⟩
    (by decide) rfl).2 scenario_unterminated
    ⟨"\nROOT Hips\n\x7b\nOFFSET 0 0 0\nCHANNELS 0\n".toList, false, false⟩
    (by decide) rfl (by decide) (by decide) rfl

/-! ## The header of the motion section -/

theorem extract_string_not_good (s : IStream) (token : String) (h : s.good = false) :
    (extract_string s token).2 = token ∧ (extract_string s token).1.good = false := by
  unfold extract_string
  rw [sentry_not_good s h]
  simp [IStream.good]

theorem extract_int_empty (s : IStream) (old : Int) (h : tokens s.rest = []) :
    (extract_int s old).1.good = false := by
  unfold extract_int
  cases hg : s.good
  · rw [sentry_not_good s hg]
    simp [IStream.good]
  · rw [sentry_good s hg]
    cases hr : s.rest.dropWhile isspace with
    | nil => simp [IStream.good]
    | cons a r =>
      have ha := head_dropWhile_isspace _ _ _ hr
      rw [← tokens_dropWhile, hr, tokens_cons_not_space a r ha] at h
      cases h

/-- A count token that cannot be converted leaves the stream not good. -/
theorem extract_int_fail (s : IStream) (old : Int) (tok : List Char)
    (toks : List (List Char)) (h : Ready s (tok :: toks)) (hv : (scan_int tok).1 = false) :
    (extract_int s old).1.good = false := by
  obtain ⟨ht, hg⟩ := h
  have hg := hg (by simp)
  obtain ⟨a, r, hr, ha, htok, hrest⟩ := tokens_cons_split _ _ _ ht
  unfold extract_int
  rw [sentry_good s hg, hr]
  have hsplit : a :: r = tok ++ (a :: r).dropWhile (fun c => !isspace c) := by
    rw [htok, List.takeWhile_append_dropWhile]
  have := scan_int_append tok ((a :: r).dropWhile (fun c => !isspace c)) (stop_dropWhile _)
  rw [← hsplit, hv] at this
  simp only [List.isEmpty_cons, Bool.false_eq_true, ↓reduceIte, Bool.not_true, this,
    Bool.not_false]
  simp [IStream.good]

theorem kFrames_ne_kFrame : ¬ kFrames = kFrame := by decide

theorem empty_ne_kFrames : ¬ ("" : String) = kFrames := by decide

theorem scan_sign_subset (cs : List Char) : ∀ c ∈ (scan_sign cs).2, c ∈ cs := by
  cases cs with
  | nil => simp [scan_sign]
  | cons a r =>
    simp only [scan_sign]
    split_ifs <;> simp_all

theorem scan_int_subset (cs : List Char) : ∀ c ∈ (scan_int cs).2.2, c ∈ cs := by
  intro c hc
  apply scan_sign_subset cs c
  have hd : (scan_int cs).2.2 = (scan_sign cs).2.dropWhile isdigit := by
    unfold scan_int
    rcases scan_sign cs with ⟨neg, r0⟩
    dsimp only
    split_ifs <;> rfl
  rw [hd] at hc
  exact (List.dropWhile_suffix isdigit).subset hc

/-- Characters without whitespace before a stop are one token. -/
theorem tokens_append_stop (u d : List Char) (hu : u ≠ [])
    (hs : ∀ c ∈ u, isspace c = false) (hd : Stop d) :
    tokens (u ++ d) = u :: tokens d := by
  cases u with
  | nil => exact absurd rfl hu
  | cons a u =>
    have ha := hs a (by simp)
    have hall : ∀ c ∈ a :: u, (fun c => !isspace c) c = true := by
      intro c hc
      simp [hs c hc]
    have h := takeWhile_append_stop (a :: u) d (p := fun c => !isspace c)
      (fun c hc => by simp [hd c hc])
    rw [List.takeWhile_eq_self_iff.mpr hall, List.dropWhile_eq_nil_iff.mpr hall] at h
    rw [List.cons_append, tokens_cons_not_space a (u ++ d) ha, ← List.cons_append, h.1, h.2]
    rfl

/-- A count token that begins with an integer and goes on: the integer is
converted, and what is left of the token is the next token of the stream. -/
theorem extract_int_partial (s : IStream) (old : Int) (tok : List Char)
    (toks : List (List Char)) (v : Int) (u : List Char) (h : Ready s (tok :: toks))
    (hv : scan_int tok = (true, v, u)) (hu : u ≠ []) :
    ∃ s1, extract_int s old = (s1, v) ∧ Ready s1 (u :: toks) := by
  obtain ⟨ht, hg⟩ := h
  have hg := hg (by simp)
  obtain ⟨a, r, hr, ha, htok, hrest⟩ := tokens_cons_split _ _ _ ht
  have hsplit : a :: r = tok ++ (a :: r).dropWhile (fun c => !isspace c) := by
    rw [htok, List.takeWhile_append_dropWhile]
  have hsc := scan_int_append tok ((a :: r).dropWhile (fun c => !isspace c)) (stop_dropWhile _)
  rw [← hsplit, hv] at hsc
  have hus : ∀ c ∈ u, isspace c = false := by
    intro c hc
    have hin : c ∈ tok := by
      have := scan_int_subset tok c
      rw [hv] at this
      exact this hc
    rw [htok] at hin
    have := List.mem_takeWhile_imp hin
    simpa using this
  have htk := tokens_append_stop u _ hu hus (stop_dropWhile (a :: r))
  rw [hrest] at htk
  have hne : u ++ List.dropWhile (fun c => !isspace c) (a :: r) ≠ [] := by
    simp [hu]
  refine ⟨⟨u ++ (a :: r).dropWhile (fun c => !isspace c), false, false⟩, ?_, htk,
    fun _ => rfl⟩
  unfold extract_int
  rw [sentry_good s hg, hr]
  simp only [List.isEmpty_cons, Bool.false_eq_true, ↓reduceIte, Bool.not_true, hsc,
    Bool.not_false]
  simp [hu]

/-- C13, as the claim states it, fails: with the keyword `Frame Time:`
replaced by `Frame Rate:` the motion section is parsed with return code 0. -/
theorem parse_motion_time_keyword_counterexample :
    (parse_motion ind0 (IStream.open_ "Frames: 1\nFrame Rate: 0.0333\n".toList) bvh0).1 = 0 := by
  decide

/-- C13, amended: `parse_motion` returns -1 whenever the stream it is given
is no longer good or its first token is not `Frames:` (or is missing); or no
token follows `Frames:` or the conversion of the frame count fails on the
token that follows (no integer begins the token, or the integer is out of the
range of `int`); or the frame count is converted and the next token read is
not `Frame` (or is missing), the next token read being what is left of the
count token after the integer when something is left, and the token after the
count token otherwise.  (The token after `Frame` is taken from the stream
without being compared.) -/
theorem parse_motion_header (ind : Indet) (file : IStream) (bvh : BvHSkeleton)
    (h : file.good = false ∨
      (tokens file.rest).head? ≠ some kFrames.toList ∨
      (∃ rest, tokens file.rest = kFrames.toList :: rest ∧
        ∀ t ∈ rest.head?, (scan_int t).1 = false) ∨
      (∃ t n u rest, tokens file.rest = kFrames.toList :: t :: rest ∧
        scan_int t = (true, n, u) ∧
        (if u = [] then rest else u :: rest).head? ≠ some kFrame.toList)) :
    (parse_motion ind file bvh).1 = -1 := by
  by_cases hg : file.good = true
  · rcases h with h | h | ⟨rest, ht, hbad⟩ | ⟨t, n, u, rest, ht, hn, hne⟩
    · rw [hg] at h
      cases h
    · unfold parse_motion
      cases htk : tokens file.rest with
      | nil =>
        have e := extract_string_empty file "" htk
        cases hx : extract_string file "" with
        | mk f1 t1 =>
          rw [hx] at e
          dsimp only at e ⊢
          have : ¬ t1 = kFrames := by
            rw [e.1]
            exact empty_ne_kFrames
          rw [if_neg this]
      | cons tok toks =>
        have hr : Ready file (tok :: toks) := ⟨htk, fun _ => hg⟩
        obtain ⟨s1, e, _⟩ := extract_string_ready _ "" _ _ hr
        rw [e]
        dsimp only
        have : ¬ String.mk tok = kFrames := by
          intro hc
          apply h
          rw [htk, ← hc]
          rfl
        rw [if_neg this]
    · have hr : Ready file (kFrames.toList :: rest) := ⟨ht, fun _ => hg⟩
      obtain ⟨s1, e1, r1⟩ := extract_string_ready _ "" _ _ hr
      have e1' : extract_string file "" = (s1, kFrames) := e1
      have hbad2 : (extract_int s1 ind.frames_num).1.good = false := by
        cases rest with
        | nil => exact extract_int_empty s1 _ r1.1
        | cons t rest => exact extract_int_fail s1 _ t rest r1 (hbad t (by simp))
      unfold parse_motion
      rw [e1']
      dsimp only
      rw [if_pos rfl]
      cases h2 : extract_int s1 ind.frames_num with
      | mk s2 frames_num =>
      rw [h2] at hbad2
      dsimp only at hbad2 ⊢
      have e3 := extract_string_not_good s2 kFrames hbad2
      cases h3 : extract_string s2 kFrames with
      | mk s3 t3 =>
      rw [h3] at e3
      dsimp only at e3 ⊢
      have : ¬ t3 = kFrame := by
        rw [e3.1]
        exact kFrames_ne_kFrame
      rw [if_neg this]
    · have hr : Ready file (kFrames.toList :: t :: rest) := ⟨ht, fun _ => hg⟩
      obtain ⟨s1, e1, r1⟩ := extract_string_ready _ "" _ _ hr
      have e1' : extract_string file "" = (s1, kFrames) := e1
      obtain ⟨s2, e2, r2⟩ : ∃ s2, extract_int s1 ind.frames_num = (s2, n) ∧
          Ready s2 (if u = [] then rest else u :: rest) := by
        by_cases hu : u = []
        · rw [if_pos hu]
          rw [hu] at hn
          exact extract_int_ready s1 ind.frames_num _ _ _ r1 hn
        · rw [if_neg hu]
          exact extract_int_partial s1 ind.frames_num _ _ _ _ r1 hn hu
      unfold parse_motion
      rw [e1']
      dsimp only
      rw [if_pos rfl, e2]
      dsimp only
      cases hnext : (if u = [] then rest else u :: rest) with
      | nil =>
        rw [hnext] at r2
        have e3 := extract_string_empty s2 kFrames r2.1
        cases h3 : extract_string s2 kFrames with
        | mk s3 t3 =>
        rw [h3] at e3
        dsimp only at e3 ⊢
        have : ¬ t3 = kFrame := by
          rw [e3.1]
          exact kFrames_ne_kFrame
        rw [if_neg this]
      | cons t2 rest2 =>
        rw [hnext] at r2 hne
        obtain ⟨s3, e3, _⟩ := extract_string_ready s2 kFrames _ _ r2
        rw [e3]
        dsimp only
        have : ¬ String.mk t2 = kFrame := by
          intro hc
          apply hne
          rw [← hc]
          rfl
        rw [if_neg this]
  · have hg' : file.good = false := by simpa using hg
    have e := extract_string_not_good file "" hg'
    unfold parse_motion
    cases hx : extract_string file "" with
    | mk f1 t1 =>
      rw [hx] at e
      dsimp only at e ⊢
      have : ¬ t1 = kFrames := by
        rw [e.1]
        exact empty_ne_kFrames
      rw [if_neg this]

theorem parse_motion_header_witness :
    (parse_motion ind0 (IStream.open_ "Frames: 1x Frame Time: 0.0333\n".toList) bvh0).1 = -1 :=
  parse_motion_header ind0 (IStream.open_ "Frames: 1x Frame Time: 0.0333\n".toList) bvh0
    (Or.inr (Or.inr (Or.inr ⟨"1x".toList, 1, "x".toList,
      ["Frame".toList, "Time:".toList, "0.0333".toList], by decide, by decide, by decide⟩)))

/-! ## Parents and children in the layout -/

theorem Forest.roots_parent (f : Forest) :
    ∀ (base : Nat) (parent : Option Nat) (pre post : List Joint),
      pre.length = base →
      ∀ c ∈ f.roots base, ∃ C, (pre ++ (f.layout base parent ++ post))[c]? = some C ∧
        C.parent = parent := by
  induction f with
  | nil => intro base parent pre post _ c hc; simp [Forest.roots] at hc
  | joint name offset channels kids rest _ ihr =>
    intro base parent pre post hb c hc
    simp only [Forest.roots, List.mem_cons] at hc
    rcases hc with e | hc
    · subst e
      refine ⟨⟨name, offset, channels, parent, kids.roots (pre.length + 1), []⟩, ?_, rfl⟩
      subst hb
      simp only [Forest.layout, List.cons_append]
      exact getElem?_length_append _ _ _
    · have := ihr (base + 1 + kids.size) parent
        (pre ++ ⟨name, offset, channels, parent, kids.roots (base + 1), []⟩ ::
          kids.layout (base + 1) (some base)) post
        (by simp [hb, Forest.length_layout]; omega) c hc
      simpa only [Forest.layout, List.append_assoc, List.cons_append] using this
  | endsite offset rest ih =>
    intro base parent pre post hb c hc
    simp only [Forest.roots, List.mem_cons] at hc
    rcases hc with e | hc
    · subst e
      refine ⟨⟨kEndSite, offset, [], parent, [], []⟩, ?_, rfl⟩
      subst hb
      simp only [Forest.layout, List.cons_append]
      exact getElem?_length_append _ _ _
    · have := ih (base + 1) parent (pre ++ [⟨kEndSite, offset, [], parent, [], []⟩]) post
        (by simp [hb]) c hc
      simpa only [Forest.layout, List.append_assoc, List.cons_append, List.singleton_append,
        List.nil_append] using this

theorem getElem?_length_append_some (pre post : List Joint) (j J : Joint)
    (h : (pre ++ j :: post)[pre.length]? = some J) : J = j := by
  rw [getElem?_length_append] at h
  exact (Option.some.inj h).symm

/-- In a registry that holds the layout of some blocks from position `base`
on, every child listed by a joint of the layout has that joint as its
parent. -/
theorem Forest.children_parent (f : Forest) :
    ∀ (base : Nat) (parent : Option Nat) (pre post : List Joint),
      pre.length = base →
      ∀ i J, base ≤ i → i < base + f.size →
        (pre ++ (f.layout base parent ++ post))[i]? = some J →
        ∀ c ∈ J.children, ∃ C, (pre ++ (f.layout base parent ++ post))[c]? = some C ∧
          C.parent = some i := by
  induction f with
  | nil =>
    intro base parent pre post _ i J h1 h2
    simp only [Forest.size] at h2
    omega
  | joint name offset channels kids rest ihk ihr =>
    intro base parent pre post hb i J h1 h2 hJ c hc
    simp only [Forest.size] at h2
    have hk := ihk (base + 1) (some base)
      (pre ++ [⟨name, offset, channels, parent, kids.roots (base + 1), []⟩])
      (rest.layout (base + 1 + kids.size) parent ++ post) (by simp [hb])
    have hr := ihr (base + 1 + kids.size) parent
      (pre ++ ⟨name, offset, channels, parent, kids.roots (base + 1), []⟩ ::
        kids.layout (base + 1) (some base)) post
      (by simp [hb, Forest.length_layout]; omega)
    have ha := Forest.roots_parent kids (base + 1) (some base)
      (pre ++ [⟨name, offset, channels, parent, kids.roots (base + 1), []⟩])
      (rest.layout (base + 1 + kids.size) parent ++ post) (by simp [hb])
    simp only [List.append_assoc, List.singleton_append, List.cons_append,
      List.nil_append] at hk hr ha
    simp only [Forest.layout, List.cons_append, List.append_assoc] at hJ ⊢
    by_cases c1 : i = base
    · subst c1
      subst hb
      have := getElem?_length_append_some _ _ _ _ hJ
      subst this
      exact ha c hc
    · by_cases c2 : i < base + 1 + kids.size
      · exact hk i J (by omega) (by omega) hJ c hc
      · exact hr i J (by omega) (by omega) hJ c hc
  | endsite offset rest ih =>
    intro base parent pre post hb i J h1 h2 hJ c hc
    simp only [Forest.size] at h2
    have hr := ih (base + 1) parent (pre ++ [⟨kEndSite, offset, [], parent, [], []⟩]) post
      (by simp [hb])
    simp only [List.append_assoc, List.singleton_append, List.cons_append,
      List.nil_append] at hr
    simp only [Forest.layout, List.cons_append] at hJ ⊢
    by_cases c1 : i = base
    · subst c1
      subst hb
      have := getElem?_length_append_some _ _ _ _ hJ
      subst this
      simp at hc
    · exact hr i J (by omega) (by omega) hJ c hc

/-- In such a registry every joint of the layout is either a top-level joint
of the blocks, with the parent the blocks were given, or has a parent in the
layout whose children list contains it. -/
theorem Forest.parent_children (f : Forest) :
    ∀ (base : Nat) (parent : Option Nat) (pre post : List Joint),
      pre.length = base →
      ∀ i C, base ≤ i → i < base + f.size →
        (pre ++ (f.layout base parent ++ post))[i]? = some C →
        (i ∈ f.roots base ∧ C.parent = parent) ∨
        ∃ p P, (pre ++ (f.layout base parent ++ post))[p]? = some P ∧
          C.parent = some p ∧ i ∈ P.children := by
  induction f with
  | nil =>
    intro base parent pre post _ i C h1 h2
    simp only [Forest.size] at h2
    omega
  | joint name offset channels kids rest ihk ihr =>
    intro base parent pre post hb i C h1 h2 hC
    simp only [Forest.size] at h2
    have hk := ihk (base + 1) (some base)
      (pre ++ [⟨name, offset, channels, parent, kids.roots (base + 1), []⟩])
      (rest.layout (base + 1 + kids.size) parent ++ post) (by simp [hb])
    have hr := ihr (base + 1 + kids.size) parent
      (pre ++ ⟨name, offset, channels, parent, kids.roots (base + 1), []⟩ ::
        kids.layout (base + 1) (some base)) post
      (by simp [hb, Forest.length_layout]; omega)
    simp only [List.append_assoc, List.singleton_append, List.cons_append,
      List.nil_append] at hk hr
    simp only [Forest.layout, List.cons_append, List.append_assoc, Forest.roots,
      List.mem_cons] at hC ⊢
    have hroot : (pre ++ ⟨name, offset, channels, parent, kids.roots (base + 1), []⟩ ::
        (kids.layout (base + 1) (some base) ++
          (rest.layout (base + 1 + kids.size) parent ++ post)))[base]? =
        some ⟨name, offset, channels, parent, kids.roots (base + 1), []⟩ := by
      rw [← hb]
      exact getElem?_length_append _ _ _
    by_cases c1 : i = base
    · subst c1
      rw [hroot] at hC
      have := (Option.some.inj hC).symm
      subst this
      exact Or.inl ⟨Or.inl rfl, rfl⟩
    · by_cases c2 : i < base + 1 + kids.size
      · rcases hk i C (by omega) (by omega) hC with ⟨hin, hp⟩ | h
        · exact Or.inr ⟨base, _, hroot, hp, hin⟩
        · exact Or.inr h
      · rcases hr i C (by omega) (by omega) hC with ⟨hin, hp⟩ | h
        · exact Or.inl ⟨Or.inr hin, hp⟩
        · exact Or.inr h
  | endsite offset rest ih =>
    intro base parent pre post hb i C h1 h2 hC
    simp only [Forest.size] at h2
    have hr := ih (base + 1) parent (pre ++ [⟨kEndSite, offset, [], parent, [], []⟩]) post
      (by simp [hb])
    simp only [List.append_assoc, List.singleton_append, List.cons_append,
      List.nil_append] at hr
    simp only [Forest.layout, List.cons_append, Forest.roots, List.mem_cons] at hC ⊢
    by_cases c1 : i = base
    · subst c1
      subst hb
      have := getElem?_length_append_some _ _ _ _ hC
      subst this
      exact Or.inl ⟨Or.inl rfl, rfl⟩
    · rcases hr i C (by omega) (by omega) hC with ⟨hin, hp⟩ | h
      · exact Or.inl ⟨Or.inr hin, hp⟩
      · exact Or.inr h

/-- C15: when `parse_joint` returns 0 for the root on a skeleton with an
empty registry, the root joint (position 0) has no parent; every reference
in the children list of a joint `j` of the registry is the position of a
joint whose parent reference is `j`; and every joint other than the root has
a parent reference, which is the position of a joint whose children list
contains it. -/
theorem parents_match_children (ind : Indet) (fuel : Nat) (file : IStream) (bvh : BvHSkeleton)
    (r : JointResult) (he : bvh.joints = [])
    (h : parse_joint ind fuel file bvh none = some r) (h0 : r.ret = 0) :
    r.parsed = some 0 ∧
    (∃ R, r.bvh.joints[0]? = some R ∧ R.parent = none) ∧
    (∀ (j : Nat) (J : Joint) (c : Nat), r.bvh.joints[j]? = some J → c ∈ J.children →
      ∃ C, r.bvh.joints[c]? = some C ∧ C.parent = some j) ∧
    (∀ (k : Nat) (C : Joint), 0 < k → r.bvh.joints[k]? = some C →
      ∃ p P, C.parent = some p ∧ r.bvh.joints[p]? = some P ∧ k ∈ P.children) := by
  obtain ⟨name, offset, channels, kids, hb, hp, _⟩ := parse_joint_layout ind fuel file bvh none r h h0
  rw [he] at hb hp
  have hj : r.bvh.joints =
      [] ++ ((Forest.joint name offset channels kids Forest.nil).layout 0 none ++ []) := by
    rw [hb]
    simp
  have hlen : r.bvh.joints.length = (Forest.joint name offset channels kids Forest.nil).size := by
    rw [hj]
    simp [Forest.length_layout]
  have hlt : ∀ (i : Nat) (J : Joint), r.bvh.joints[i]? = some J →
      i < 0 + (Forest.joint name offset channels kids Forest.nil).size := by
    intro i J hi
    have := (List.getElem?_eq_some_iff.mp hi).1
    omega
  refine ⟨hp, ?_, ?_, ?_⟩
  · obtain ⟨C, hC, hpar⟩ := Forest.roots_parent (Forest.joint name offset channels kids Forest.nil)
      0 none [] [] rfl 0 (by simp [Forest.roots])
    rw [← hj] at hC
    exact ⟨C, hC, hpar⟩
  · intro j J c hJ hc
    have := Forest.children_parent (Forest.joint name offset channels kids Forest.nil) 0 none
      [] [] rfl j J (Nat.zero_le _) (hlt j J hJ) (by rw [← hj]; exact hJ) c hc
    rw [← hj] at this
    exact this
  · intro k C hk hC
    have := Forest.parent_children (Forest.joint name offset channels kids Forest.nil) 0 none
      [] [] rfl k C (Nat.zero_le _) (hlt k C hC) (by rw [← hj]; exact hC)
    rw [← hj] at this
    rcases this with ⟨hin, _⟩ | ⟨p, P, hP, hpar, hin⟩
    · simp only [Forest.roots, List.mem_cons, List.mem_singleton] at hin
      rcases hin with e | e
      · omega
      · simp [Forest.roots] at e
    · exact ⟨p, P, hpar, hP, hin⟩

set_option maxRecDepth 100000 in
theorem parents_match_children_witness :
    ∃ R, scenario_B_registry[0]? = some R ∧ R.parent = none :=
  (parents_match_children ind0 200
    (extract_string (IStream.open_ (scenario_B ++ [' '])) "").1 bvh0
    ⟨0, ⟨[' '], false, false⟩, ⟨none, scenario_B_registry, 0, Decimal.zero⟩, some 0⟩
    rfl (by decide) rfl).2.1

/-! ## The parser on the text it accepts -/

/-- The head of `parse_joint` compares neither the name nor the token after
it. -/
theorem parse_joint_head_lax (ind : Indet) (file : IStream) (bvh : BvHSkeleton)
    (parent : Option Nat) (name open_ x y z count : List Char) (channels : List Channel)
    (t : List Char) (more : List (List Char))
    (hr : Ready file (name :: open_ :: kOffset.toList :: x :: y :: z ::
      kChannels.toList :: count :: (channels.map (fun c => c.keyword.toList) ++ t :: more)))
    (hx : is_real ind.offset_type x = true) (hy : is_real ind.offset_type y = true)
    (hz : is_real ind.offset_type z = true)
    (hc : is_count count channels.length = true) :
    ∃ f1, parse_joint_head ind file bvh parent =
        Sum.inr ⟨f1, bvh.add_joint ⟨String.mk name, offset_value x y z, channels, parent, [], []⟩,
          bvh.joints.length, String.mk t⟩ ∧ Ready f1 more := by
  obtain ⟨s1, e1, r1⟩ := extract_string_ready file "" _ _ hr
  obtain ⟨s2, e2, r2⟩ := extract_string_ready s1 "" _ _ r1
  obtain ⟨s3, e3, r3⟩ := extract_string_ready s2 (String.mk open_) _ _ r2
  obtain ⟨s4, e4, r4⟩ := extract_offset_ready ind.offset_type s3 ind.offset x y z _ r3 hx hy hz
  obtain ⟨s5, e5, r5⟩ := extract_string_ready s4 (String.mk kOffset.toList) _ _ r4
  obtain ⟨s6, e6, r6⟩ := parse_channel_order_ready ind s5
    (((Joint.fresh.set_parent parent).set_name (String.mk name)).set_offset (offset_value x y z))
    count channels _ r5 hc
  obtain ⟨s7, e7, r7⟩ := extract_string_ready s6 (String.mk kChannels.toList) _ _ r6
  refine ⟨s7, ?_, r7⟩
  have e3' : extract_string s2 (String.mk open_) = (s3, kOffset) := e3
  have e5' : extract_string s4 kOffset = (s5, kChannels) := e5
  have e7' : extract_string s6 kChannels = (s7, String.mk t) := e7
  unfold parse_joint_head
  rw [e1]
  dsimp only
  rw [e2]
  dsimp only
  rw [e3']
  dsimp only
  rw [if_pos rfl, e4]
  dsimp only
  rw [e5']
  dsimp only
  rw [if_pos rfl, e6]
  dsimp only
  rw [if_neg (by decide), e7']
  rfl

theorem render_cons (l : List (List Char)) (t : List Char) (toks : List (List Char)) :
    ∃ t2 toks2, l ++ t :: toks = t2 :: toks2 := by
  cases l with
  | nil => exact ⟨_, _, rfl⟩
  | cons a l => exact ⟨_, _, rfl⟩

/-- The loop of `parse_joint` on well-formed child text that is followed by
the token `t1` and more tokens: it comes to the state in which `t1` is the
token read ahead, the child text is consumed and the layout of the joints it
denotes is appended to the registry. -/
theorem parse_joint_loop_items (ind : Indet) (L : Lax) :
    ∀ (fuel : Nat) (file : IStream) (bvh : BvHSkeleton) (joint : Nat) (children : List Nat)
      (token : String) (t0 : List Char) (toks0 : List (List Char)) (t1 : List Char)
      (toks1 : List (List Char)) (r : JointResult),
      L.well_formed (is_real ind.offset_type) = true →
      L.render ++ t1 :: toks1 = t0 :: toks0 →
      token = String.mk t0 →
      Ready file toks0 →
      parse_joint_loop ind fuel file bvh joint children token = some r →
      ∃ fuel1 file1, Ready file1 toks1 ∧
        parse_joint_loop ind fuel1 file1
          { bvh with joints := bvh.joints ++ L.denote.layout bvh.joints.length (some joint) }
          joint (children ++ L.denote.roots bvh.joints.length) (String.mk t1) = some r := by
  induction L with
  | nil =>
    intro fuel file bvh joint children token t0 toks0 t1 toks1 r _ hrender htok hr hloop
    simp only [Lax.render, List.nil_append, List.cons.injEq] at hrender
    obtain ⟨ht0, htoks⟩ := hrender
    subst htoks
    subst ht0
    subst htok
    refine ⟨fuel, file, hr, ?_⟩
    simpa [Lax.denote, Forest.layout, Forest.roots] using hloop
  | skip tok rest ih =>
    intro fuel file bvh joint children token t0 toks0 t1 toks1 r hwf hrender htok hr hloop
    simp only [Lax.well_formed, Bool.and_eq_true, decide_eq_true_eq] at hwf
    obtain ⟨⟨⟨h1, h2⟩, h3⟩, hwr⟩ := hwf
    obtain ⟨t2, toks2, hR⟩ := render_cons rest.render t1 toks1
    simp only [Lax.render, List.cons_append, List.cons.injEq] at hrender
    obtain ⟨ht0, htoks⟩ := hrender
    rw [hR] at htoks
    subst htoks
    subst ht0
    subst htok
    have hg := ready_good file _ _ hr
    obtain ⟨s1, e1, r1⟩ := extract_string_ready file (String.mk tok) _ _ hr
    cases fuel with
    | zero =>
      rw [parse_joint_loop_zero _ _ _ _ _ _ hg] at hloop
      cases hloop
    | succ fuel =>
      rw [parse_joint_loop_other _ _ _ _ _ _ _ hg h1 h2 h3, e1] at hloop
      exact ih fuel s1 bvh joint children (String.mk t2) t2 toks2 t1 toks1 r hwr hR rfl r1 hloop
  | joint name open_ x y z count channels kids rest ihk ihr =>
    intro fuel file bvh joint children token t0 toks0 t1 toks1 r hwf hrender htok hr hloop
    simp only [Lax.well_formed, Bool.and_eq_true] at hwf
    obtain ⟨⟨⟨⟨⟨hx, hy⟩, hz⟩, hc⟩, hwk⟩, hwr⟩ := hwf
    obtain ⟨tk, toksk, hK⟩ := render_cons kids.render "\x7d".toList
      (rest.render ++ t1 :: toks1)
    obtain ⟨t2, toks2, hR⟩ := render_cons rest.render t1 toks1
    simp only [Lax.render, List.cons_append, List.append_assoc, List.cons.injEq] at hrender
    obtain ⟨ht0, htoks⟩ := hrender
    rw [hK] at htoks
    subst htoks
    have hg := ready_good file _ _ hr
    have htok' : token = kJoint := by
      rw [htok, ← ht0]
      rfl
    obtain ⟨f1, ehead, r1⟩ := parse_joint_head_lax ind file bvh (some joint) name open_ x y z
      count channels tk toksk hr hx hy hz hc
    cases fuel with
    | zero =>
      rw [parse_joint_loop_zero _ _ _ _ _ _ hg] at hloop
      cases hloop
    | succ fuel =>
      rw [parse_joint_loop_joint _ _ _ _ _ _ _ hg htok', ehead] at hloop
      dsimp only at hloop
      cases hc1 : parse_joint_loop ind fuel f1
          (bvh.add_joint ⟨String.mk name, offset_value x y z, channels, some joint, [], []⟩)
          bvh.joints.length [] (String.mk tk) with
      | none =>
        rw [hc1] at hloop
        cases hloop
      | some rc =>
        rw [hc1] at hloop
        dsimp only at hloop
        obtain ⟨fuelk, filek, hrk, hlk⟩ := ihk fuel f1 _ bvh.joints.length [] (String.mk tk) tk
          toksk "\x7d".toList (rest.render ++ t1 :: toks1) rc hwk hK rfl r1 hc1
        rw [hR] at hrk
        have hgk := ready_good filek _ _ hrk
        cases fuelk with
        | zero =>
          rw [parse_joint_loop_zero _ _ _ _ _ _ hgk] at hlk
          cases hlk
        | succ fuelk =>
          rw [parse_joint_loop_close ind fuelk filek _ _ _ (String.mk "\x7d".toList) hgk rfl] at hlk
          cases hlk
          dsimp only at hloop
          rw [if_neg (by simp)] at hloop
          obtain ⟨s2, e2, r2⟩ := extract_string_ready filek token _ _ hrk
          rw [e2] at hloop
          dsimp only at hloop
          obtain ⟨fuel1, file1, hr1, hl1⟩ := ihr fuel s2 _ joint
            (children ++ (some bvh.joints.length).toList) (String.mk t2) t2 toks2 t1 toks1 r
            hwr hR rfl r2 hloop
          refine ⟨fuel1, file1, hr1, ?_⟩
          convert hl1 using 2
          · simp only [BvHSkeleton.add_joint, BvHSkeleton.set_children, List.nil_append,
              List.length_append, List.length_singleton, List.append_assoc,
              List.singleton_append]
            rw [modify_length_append]
            have ea : bvh.joints.length + (kids.denote.size + 1) =
                bvh.joints.length + 1 + kids.denote.size := by omega
            simp [Lax.denote, Forest.layout, Forest.length_layout, Joint.set_children, ea]
          · simp only [BvHSkeleton.add_joint, BvHSkeleton.set_children, List.nil_append,
              List.length_append, List.length_singleton, List.append_assoc,
              List.singleton_append]
            rw [modify_length_append]
            have ea : bvh.joints.length + (kids.denote.size + 1) =
                bvh.joints.length + 1 + kids.denote.size := by omega
            simp [Lax.denote, Forest.roots, Forest.length_layout, ea]
  | endsite site open_ x y z close rest ih =>
    intro fuel file bvh joint children token t0 toks0 t1 toks1 r hwf hrender htok hr hloop
    simp only [Lax.well_formed, Bool.and_eq_true] at hwf
    obtain ⟨⟨⟨hx, hy⟩, hz⟩, hwr⟩ := hwf
    obtain ⟨t2, toks2, hR⟩ := render_cons rest.render t1 toks1
    simp only [Lax.render, List.cons_append, List.cons.injEq] at hrender
    obtain ⟨ht0, htoks⟩ := hrender
    rw [hR] at htoks
    subst htoks
    have hg := ready_good file _ _ hr
    have htok' : token = kEnd := by
      rw [htok, ← ht0]
      rfl
    obtain ⟨s1, e1, r1⟩ := extract_string_ready file token _ _ hr
    obtain ⟨s2, e2, r2⟩ := extract_string_ready s1 (String.mk site) _ _ r1
    obtain ⟨s3, e3, r3⟩ := extract_string_ready s2 (String.mk open_) _ _ r2
    obtain ⟨s4, e4, r4⟩ := extract_offset_ready ind.offset_type s3 ind.offset x y z _ r3 hx hy hz
    obtain ⟨s5, e5, r5⟩ := extract_string_ready s4 (String.mk kOffset.toList) _ _ r4
    obtain ⟨s6, e6, r6⟩ := extract_string_ready s5 (String.mk close) _ _ r5
    cases fuel with
    | zero =>
      rw [parse_joint_loop_zero _ _ _ _ _ _ hg] at hloop
      cases hloop
    | succ fuel =>
      rw [parse_joint_loop_end _ _ _ _ _ _ _ hg htok' _ _ _ _ _ _ e1 e2 e3] at hloop
      have hk : String.mk kOffset.toList = kOffset := rfl
      rw [if_pos hk, e4] at hloop
      dsimp only at hloop
      rw [e5] at hloop
      dsimp only at hloop
      rw [e6] at hloop
      dsimp only at hloop
      obtain ⟨fuel1, file1, hr1, hl1⟩ := ih fuel s6 _ joint
        (children ++ [bvh.joints.length]) (String.mk t2) t2 toks2 t1 toks1 r hwr hR rfl
        r6 hloop
      refine ⟨fuel1, file1, hr1, ?_⟩
      convert hl1 using 2
      · simp [BvHSkeleton.add_joint, Lax.denote, Forest.layout, Joint.fresh,
          Joint.set_parent, Joint.set_name, Joint.set_offset]
      · simp [BvHSkeleton.add_joint, Lax.denote, Forest.roots]

/-! ## What `parse_joint` compares -/

set_option maxRecDepth 100000 in
/-- C14, as the claim states it, fails: `parse_joint` returns 0 for the root
on a block whose name is followed by `[` instead of the opening brace, that
holds the token `junk` in the place of a child block, and whose `End` is
followed by `Point (` and closed by `)`. -/
theorem parse_joint_structure_counterexample :
    tokens scenario_lax =
      ["Hips".toList, "[".toList, "OFFSET".toList, "0".toList, "0".toList, "0".toList,
        "CHANNELS".toList, "0".toList, "junk".toList, "End".toList, "Point".toList,
        "(".toList, "OFFSET".toList, "0".toList, "1".toList, "0".toList, ")".toList,
        "\x7d".toList, "MOTION".toList] ∧
    (parse_joint ind0 (scenario_lax.length + 1) (IStream.open_ scenario_lax) bvh0 none).map
      (fun r => (r.ret, r.parsed, r.bvh.joints.map Joint.name)) =
      some (0, some 0, ["Hips", "End Site"]) := by
  constructor
  · decide
  · decide

/-- C14, amended: on every root block of the form
`<name> <t> OFFSET x y z CHANNELS n <names> <child text> }` that is followed
by at least one more token, where `x`, `y`, `z` are numerals within the range
of the type of the offset components, `n` is the number of channel names
after it, and the child text is a sequence of `JOINT` blocks of the same
form, of `End <t> <t> OFFSET x y z <t>` blocks and of single tokens other
than `JOINT`, `End` and the closing brace, each `<t>` being any token,
`parse_joint` returns 0 for the root with the fuel `parse_hierarchy` gives
it, has consumed the block, and has appended to the registry the joints of
the root, of the `JOINT` blocks and of the `End` blocks in pre-order: the
tokens in the places of the opening brace, of `Site` and of the brace that
closes an `End` block are not compared, and the single tokens are passed
over. -/
theorem parse_joint_accepts (ind : Indet) (file : IStream) (bvh : BvHSkeleton)
    (name open_ x y z count : List Char) (channels : List Channel) (kids : Lax)
    (more : List (List Char))
    (hr : Ready file (name :: open_ :: kOffset.toList :: x :: y :: z :: kChannels.toList ::
      count :: (channels.map (fun c => c.keyword.toList) ++
        (kids.render ++ "\x7d".toList :: more))))
    (hw : (Lax.joint name open_ x y z count channels kids Lax.nil).well_formed
      (is_real ind.offset_type) = true)
    (hm : more ≠ []) :
    ∃ r, parse_joint ind (file.rest.length + 1) file bvh none = some r ∧ r.ret = 0 ∧
      r.parsed = some bvh.joints.length ∧ Ready r.file more ∧
      r.bvh = { bvh with joints := (bvh.joints ++
        (Lax.joint name open_ x y z count channels kids Lax.nil).denote.layout
          bvh.joints.length none) } := by
  obtain ⟨r, h⟩ := parse_joint_hierarchy_total ind file bvh none
  refine ⟨r, h, ?_⟩
  simp only [Lax.well_formed, Bool.and_eq_true, and_true] at hw
  obtain ⟨⟨⟨⟨hx, hy⟩, hz⟩, hc⟩, hwk⟩ := hw
  obtain ⟨tk, toksk, hK⟩ := render_cons kids.render "\x7d".toList more
  rw [hK] at hr
  obtain ⟨f1, ehead, r1⟩ := parse_joint_head_lax ind file bvh none name open_ x y z
    count channels tk toksk hr hx hy hz hc
  unfold parse_joint at h
  rw [ehead] at h
  dsimp only at h
  obtain ⟨fuelk, filek, hrk, hlk⟩ := parse_joint_loop_items ind kids _ f1 _ bvh.joints.length []
    (String.mk tk) tk toksk "\x7d".toList more r hwk hK rfl r1 h
  have hgk := ready_good_of_ne filek more hrk hm
  cases fuelk with
  | zero =>
    rw [parse_joint_loop_zero _ _ _ _ _ _ hgk] at hlk
    cases hlk
  | succ fuelk =>
    rw [parse_joint_loop_close ind fuelk filek _ _ _ (String.mk "\x7d".toList) hgk rfl] at hlk
    cases hlk
    refine ⟨rfl, rfl, hrk, ?_⟩
    simp only [BvHSkeleton.add_joint, BvHSkeleton.set_children, List.nil_append,
      List.length_append, List.length_singleton, List.append_assoc, List.singleton_append]
    rw [modify_length_append]
    simp [Lax.denote, Forest.layout, Joint.set_children]

set_option maxRecDepth 100000 in
theorem parse_joint_accepts_witness :
    ∃ r, parse_joint ind0 (scenario_lax.length + 1) (IStream.open_ scenario_lax) bvh0 none =
        some r ∧ r.ret = 0 ∧ r.bvh.joints.map Joint.name = ["Hips", "End Site"] := by
  obtain ⟨r, h, h0, _, _, hb⟩ := parse_joint_accepts ind0 (IStream.open_ scenario_lax) bvh0
    "Hips".toList "[".toList "0".toList "0".toList "0".toList "0".toList []
    (Lax.skip "junk".toList
      (Lax.endsite "Point".toList "(".toList "0".toList "1".toList "0".toList ")".toList Lax.nil))
    ["MOTION".toList] ⟨by decide, fun _ => rfl⟩ (by decide) (by decide)
  exact ⟨r, h, h0, by rw [hb]; decide⟩

/-! ## The parser on a text with a defect -/

/-- An offset token that cannot be converted leaves the stream not good. -/
theorem extract_real_fail (t : RealType) (s : IStream) (old : Decimal) (tok : List Char)
    (toks : List (List Char)) (h : Ready s (tok :: toks)) (hv : (scan_real t tok).1 = false) :
    (extract_real t s old).1.good = false := by
  obtain ⟨ht, hg⟩ := h
  have hg := hg (by simp)
  obtain ⟨a, r, hr, ha, htok, hrest⟩ := tokens_cons_split _ _ _ ht
  unfold extract_real
  rw [sentry_good s hg, hr]
  have hsplit : a :: r = tok ++ (a :: r).dropWhile (fun c => !isspace c) := by
    rw [htok, List.takeWhile_append_dropWhile]
  have := scan_real_append t tok ((a :: r).dropWhile (fun c => !isspace c)) (stop_dropWhile _)
  rw [← hsplit, hv] at this
  simp only [List.isEmpty_cons, Bool.false_eq_true, ↓reduceIte, Bool.not_true, this,
    Bool.not_false]
  simp [IStream.good]

theorem extract_real_not_good (t : RealType) (s : IStream) (old : Decimal)
    (h : s.good = false) : (extract_real t s old).1.good = false := by
  unfold extract_real
  rw [sentry_not_good s h]
  simp [IStream.good]

theorem extract_offset_not_good (t : RealType) (file : IStream) (old : Offset)
    (h : file.good = false) : (extract_offset t file old).1.good = false := by
  unfold extract_offset
  have h1 := extract_real_not_good t file old.x h
  cases e1 : extract_real t file old.x with
  | mk f1 x =>
  rw [e1] at h1
  dsimp only at h1 ⊢
  have h2 := extract_real_not_good t f1 old.y h1
  cases e2 : extract_real t f1 old.y with
  | mk f2 y =>
  rw [e2] at h2
  dsimp only at h2 ⊢
  have h3 := extract_real_not_good t f2 old.z h2
  cases e3 : extract_real t f2 old.z with
  | mk f3 z =>
  rw [e3] at h3
  exact h3

/-- The three extractions of an offset leave the stream not good when one of
the three tokens cannot be converted. -/
theorem extract_offset_fail (t : RealType) (file : IStream) (old : Offset)
    (good : List (List Char)) (bad : List Char) (more : List (List Char))
    (hr : Ready file (good ++ bad :: more)) (hl : good.length < 3)
    (hg : good.all (is_real t) = true) (hb : (scan_real t bad).1 = false) :
    (extract_offset t file old).1.good = false := by
  unfold extract_offset
  match good, hl, hg, hr with
  | [], _, _, hr =>
    have h1 := extract_real_fail t file old.x bad more hr hb
    cases e1 : extract_real t file old.x with
    | mk f1 x =>
    rw [e1] at h1
    dsimp only at h1 ⊢
    have h2 := extract_real_not_good t f1 old.y h1
    cases e2 : extract_real t f1 old.y with
    | mk f2 y =>
    rw [e2] at h2
    dsimp only at h2 ⊢
    have h3 := extract_real_not_good t f2 old.z h2
    cases e3 : extract_real t f2 old.z with
    | mk f3 z =>
    rw [e3] at h3
    exact h3
  | [a], _, hg, hr =>
    simp only [List.all_cons, List.all_nil, Bool.and_true] at hg
    obtain ⟨f1, e1, r1⟩ := extract_real_ready t file old.x a _ _ hr (is_real_scan t _ hg)
    rw [e1]
    dsimp only
    have h2 := extract_real_fail t f1 old.y bad more r1 hb
    cases e2 : extract_real t f1 old.y with
    | mk f2 y =>
    rw [e2] at h2
    dsimp only at h2 ⊢
    have h3 := extract_real_not_good t f2 old.z h2
    cases e3 : extract_real t f2 old.z with
    | mk f3 z =>
    rw [e3] at h3
    exact h3
  | [a, b], _, hg, hr =>
    simp only [List.all_cons, List.all_nil, Bool.and_true, Bool.and_eq_true] at hg
    obtain ⟨f1, e1, r1⟩ := extract_real_ready t file old.x a _ _ hr (is_real_scan t _ hg.1)
    obtain ⟨f2, e2, r2⟩ := extract_real_ready t f1 old.y b _ _ r1 (is_real_scan t _ hg.2)
    rw [e1]
    dsimp only
    rw [e2]
    dsimp only
    have h3 := extract_real_fail t f2 old.z bad more r2 hb
    cases e3 : extract_real t f2 old.z with
    | mk f3 z =>
    rw [e3] at h3
    exact h3
  | _ :: _ :: _ :: _, hl, _, _ =>
    simp only [List.length_cons] at hl
    omega

/-- The loop of `parse_channel_order` on fewer channel names than iterations
left, followed by a token that is no channel name. -/
theorem parse_channel_order_loop_bad (good : List Channel) :
    ∀ (n : Nat) (file : IStream) (token : String) (acc : List Channel) (bad : List Char)
      (more : List (List Char)),
      Ready file (good.map (fun c => c.keyword.toList) ++ bad :: more) →
      good.length < n → channel_of_token (String.mk bad) = none →
      (parse_channel_order_loop n file token acc).2 = none := by
  induction good with
  | nil =>
    intro n file token acc bad more hr hl hb
    cases n with
    | zero => simp at hl
    | succ n =>
      obtain ⟨s1, e1, _⟩ := extract_string_ready file token _ _ hr
      simp only [parse_channel_order_loop, e1, hb]
  | cons c cs ih =>
    intro n file token acc bad more hr hl hb
    cases n with
    | zero => simp at hl
    | succ n =>
      obtain ⟨s1, e1, r1⟩ := extract_string_ready file token _ _ hr
      simp only [parse_channel_order_loop, e1, channel_of_keyword]
      exact ih n s1 _ _ bad more r1 (by simpa using hl) hb

theorem parse_channel_order_bad (ind : Indet) (file : IStream) (joint : Joint)
    (count : List Char) (n : Nat) (good : List Channel) (bad : List Char)
    (more : List (List Char))
    (hr : Ready file (count :: (good.map (fun c => c.keyword.toList) ++ bad :: more)))
    (hc : is_count count n = true) (hl : good.length < n)
    (hb : channel_of_token (String.mk bad) = none) :
    (parse_channel_order ind file joint).1 = -1 := by
  obtain ⟨s1, e1, r1⟩ := extract_int_ready file ind.num _ _ _ hr (is_count_scan _ _ hc)
  have h := parse_channel_order_loop_bad good n s1 "" [] bad more r1 hl hb
  unfold parse_channel_order
  rw [e1]
  dsimp only
  rw [Int.toNat_ofNat]
  cases e2 : parse_channel_order_loop n s1 "" [] with
  | mk f2 o =>
  rw [e2] at h
  dsimp only at h
  subst h
  rfl

theorem kOffset_ne_kChannels : ¬ kOffset = kChannels := by decide

/-- The head of `parse_joint` on a header with an offset token that cannot be
converted: the next extraction leaves the token `OFFSET` in place, and the
comparison with `CHANNELS` fails. -/
theorem parse_joint_head_bad_offset (ind : Indet) (file : IStream) (bvh : BvHSkeleton)
    (parent : Option Nat) (name open_ : List Char) (good : List (List Char)) (bad : List Char)
    (more : List (List Char))
    (hr : Ready file (name :: open_ :: kOffset.toList :: (good ++ bad :: more)))
    (hl : good.length < 3) (hg : good.all (is_real ind.offset_type) = true)
    (hb : (scan_real ind.offset_type bad).1 = false) :
    ∃ f, parse_joint_head ind file bvh parent = Sum.inl ⟨-1, f, bvh, none⟩ := by
  obtain ⟨s1, e1, r1⟩ := extract_string_ready file "" _ _ hr
  obtain ⟨s2, e2, r2⟩ := extract_string_ready s1 "" _ _ r1
  obtain ⟨s3, e3, r3⟩ := extract_string_ready s2 (String.mk open_) _ _ r2
  have e3' : extract_string s2 (String.mk open_) = (s3, kOffset) := e3
  have h4 := extract_offset_fail ind.offset_type s3 ind.offset good bad more r3 hl hg hb
  cases e4 : extract_offset ind.offset_type s3 ind.offset with
  | mk s4 off =>
  rw [e4] at h4
  dsimp only at h4
  have h5 := extract_string_not_good s4 kOffset h4
  cases e5 : extract_string s4 kOffset with
  | mk s5 t5 =>
  rw [e5] at h5
  dsimp only at h5
  refine ⟨s5, ?_⟩
  unfold parse_joint_head
  rw [e1]
  dsimp only
  rw [e2]
  dsimp only
  rw [e3']
  dsimp only
  rw [if_pos rfl, e4]
  dsimp only
  rw [e5]
  dsimp only
  rw [h5.1, if_neg kOffset_ne_kChannels]

/-- The head of `parse_joint` on a header with a token that is no channel
name among the declared channels. -/
theorem parse_joint_head_bad_channel (ind : Indet) (file : IStream) (bvh : BvHSkeleton)
    (parent : Option Nat) (name open_ x y z count : List Char) (n : Nat)
    (good : List Channel) (bad : List Char) (more : List (List Char))
    (hr : Ready file (name :: open_ :: kOffset.toList :: x :: y :: z :: kChannels.toList ::
      count :: (good.map (fun c => c.keyword.toList) ++ bad :: more)))
    (hx : is_real ind.offset_type x = true) (hy : is_real ind.offset_type y = true)
    (hz : is_real ind.offset_type z = true)
    (hc : is_count count n = true) (hl : good.length < n)
    (hb : channel_of_token (String.mk bad) = none) :
    ∃ f, parse_joint_head ind file bvh parent = Sum.inl ⟨-1, f, bvh, none⟩ := by
  obtain ⟨s1, e1, r1⟩ := extract_string_ready file "" _ _ hr
  obtain ⟨s2, e2, r2⟩ := extract_string_ready s1 "" _ _ r1
  obtain ⟨s3, e3, r3⟩ := extract_string_ready s2 (String.mk open_) _ _ r2
  obtain ⟨s4, e4, r4⟩ := extract_offset_ready ind.offset_type s3 ind.offset x y z _ r3 hx hy hz
  obtain ⟨s5, e5, r5⟩ := extract_string_ready s4 (String.mk kOffset.toList) _ _ r4
  have h6 := parse_channel_order_bad ind s5
    (((Joint.fresh.set_parent parent).set_name (String.mk name)).set_offset (offset_value x y z))
    count n good bad more r5 hc hl hb
  have e3' : extract_string s2 (String.mk open_) = (s3, kOffset) := e3
  have e5' : extract_string s4 kOffset = (s5, kChannels) := e5
  cases e6 : parse_channel_order ind s5
    (((Joint.fresh.set_parent parent).set_name (String.mk name)).set_offset
      (offset_value x y z)) with
  | mk ret p =>
  cases p with
  | mk s6 j6 =>
  rw [e6] at h6
  dsimp only at h6
  subst h6
  refine ⟨s6, ?_⟩
  unfold parse_joint_head
  rw [e1]
  dsimp only
  rw [e2]
  dsimp only
  rw [e3']
  dsimp only
  rw [if_pos rfl, e4]
  dsimp only
  rw [e5']
  dsimp only
  rw [if_pos rfl, e6]
  dsimp only
  rw [if_pos (by decide)]

/-- The loop of `parse_joint` at an `End` block with an offset token that
cannot be converted: the stream is not good when the loop tests it again. -/
theorem parse_joint_loop_bad_end (ind : Indet) (fuel : Nat) (file : IStream)
    (bvh : BvHSkeleton) (joint : Nat) (children : List Nat) (token : String)
    (site open2 : List Char) (good : List (List Char)) (bad : List Char)
    (more : List (List Char)) (r : JointResult) (ht : token = kEnd)
    (hr : Ready file (site :: open2 :: kOffset.toList :: (good ++ bad :: more)))
    (hl : good.length < 3) (hg : good.all (is_real ind.offset_type) = true)
    (hb : (scan_real ind.offset_type bad).1 = false)
    (h : parse_joint_loop ind fuel file bvh joint children token = some r) :
    r.ret = -1 := by
  have hgood := ready_good file _ _ hr
  obtain ⟨s1, e1, r1⟩ := extract_string_ready file token _ _ hr
  obtain ⟨s2, e2, r2⟩ := extract_string_ready s1 (String.mk site) _ _ r1
  obtain ⟨s3, e3, r3⟩ := extract_string_ready s2 (String.mk open2) _ _ r2
  have h4 := extract_offset_fail ind.offset_type s3 ind.offset good bad more r3 hl hg hb
  cases fuel with
  | zero =>
    rw [parse_joint_loop_zero _ _ _ _ _ _ hgood] at h
    cases h
  | succ fuel =>
    rw [parse_joint_loop_end _ _ _ _ _ _ _ hgood ht _ _ _ _ _ _ e1 e2 e3] at h
    have hk : String.mk kOffset.toList = kOffset := rfl
    rw [if_pos hk] at h
    have h5 := extract_string_not_good (extract_offset ind.offset_type s3 ind.offset).1
      (String.mk kOffset.toList) h4
    have h6 := extract_string_not_good
      (extract_string (extract_offset ind.offset_type s3 ind.offset).1 (String.mk kOffset.toList)).1
      (extract_string (extract_offset ind.offset_type s3 ind.offset).1 (String.mk kOffset.toList)).2 h5.2
    rw [parse_joint_loop_not_good _ _ _ _ _ _ _ h6.2] at h
    cases h
    rfl

theorem Broken.render_ne_nil (p : Broken) (more : List (List Char)) :
    p.render ++ more ≠ [] := by
  cases p <;> simp [Broken.render]

/-! ## Numerals that may be out of range -/

theorem is_real_of_numeral (t : RealType) (tok : List Char) (h : is_numeral tok = true)
    (hc : (scan_real t tok).1 = true) : is_real t tok = true := by
  have hn := (scan_real_numeral t tok).2 hc
  simp only [is_numeral, Bool.and_eq_true] at h
  simp only [is_real, Bool.and_eq_true, hn]
  exact h

/-- Numerals followed by a token on which the conversion fails: the first
token on which the conversion fails comes after numerals within the range. -/
theorem first_failure (t : RealType) (good : List (List Char)) (bad : List Char)
    (more : List (List Char)) (hg : good.all is_numeral = true)
    (hb : (scan_real t bad).1 = false) :
    ∃ good2 bad2 more2, good ++ bad :: more = good2 ++ bad2 :: more2 ∧
      good2.length ≤ good.length ∧ good2.all (is_real t) = true ∧
      (scan_real t bad2).1 = false := by
  induction good with
  | nil => exact ⟨[], bad, more, rfl, le_refl _, rfl, hb⟩
  | cons g gs ih =>
    simp only [List.all_cons, Bool.and_eq_true] at hg
    cases hc : (scan_real t g).1 with
    | false => exact ⟨[], g, gs ++ bad :: more, rfl, by simp, rfl, hc⟩
    | true =>
      obtain ⟨good2, bad2, more2, e, hl, hr, hb2⟩ := ih hg.2
      refine ⟨g :: good2, bad2, more2, by simp [e], by simpa using hl, ?_, hb2⟩
      simp [is_real_of_numeral t g hg.1 hc, hr]

/-- Three numerals are within the range of the type, or the conversion fails
on one of them after numerals within the range. -/
theorem numerals_in_range_or_fail (t : RealType) (x y z : List Char)
    (more : List (List Char)) (hx : is_numeral x = true) (hy : is_numeral y = true)
    (hz : is_numeral z = true) :
    (is_real t x = true ∧ is_real t y = true ∧ is_real t z = true) ∨
    ∃ good bad more2, x :: y :: z :: more = good ++ bad :: more2 ∧ good.length < 3 ∧
      good.all (is_real t) = true ∧ (scan_real t bad).1 = false := by
  cases cx : (scan_real t x).1 with
  | false => exact Or.inr ⟨[], x, y :: z :: more, rfl, by simp, rfl, cx⟩
  | true =>
    have rx := is_real_of_numeral t x hx cx
    cases cy : (scan_real t y).1 with
    | false => exact Or.inr ⟨[x], y, z :: more, rfl, by simp, by simp [rx], cy⟩
    | true =>
      have ry := is_real_of_numeral t y hy cy
      cases cz : (scan_real t z).1 with
      | false => exact Or.inr ⟨[x, y], z, more, rfl, by simp, by simp [rx, ry], cz⟩
      | true => exact Or.inl ⟨rx, ry, is_real_of_numeral t z hz cz⟩

/-- The head of `parse_joint` on a header whose offset tokens are numerals:
it registers the joint and reads one token ahead, or, when an offset is out
of range, returns -1. -/
theorem parse_joint_head_numerals (ind : Indet) (file : IStream) (bvh : BvHSkeleton)
    (parent : Option Nat) (name open_ x y z count : List Char) (channels : List Channel)
    (t : List Char) (more : List (List Char))
    (hr : Ready file (name :: open_ :: kOffset.toList :: x :: y :: z ::
      kChannels.toList :: count :: (channels.map (fun c => c.keyword.toList) ++ t :: more)))
    (hx : is_numeral x = true) (hy : is_numeral y = true) (hz : is_numeral z = true)
    (hc : is_count count channels.length = true) :
    (∃ f1, parse_joint_head ind file bvh parent =
        Sum.inr ⟨f1, bvh.add_joint ⟨String.mk name, offset_value x y z, channels, parent, [], []⟩,
          bvh.joints.length, String.mk t⟩ ∧ Ready f1 more) ∨
    ∃ f, parse_joint_head ind file bvh parent = Sum.inl ⟨-1, f, bvh, none⟩ := by
  rcases numerals_in_range_or_fail ind.offset_type x y z
    (kChannels.toList :: count :: (channels.map (fun c => c.keyword.toList) ++ t :: more))
    hx hy hz with ⟨rx, ry, rz⟩ | ⟨good, bad, more2, e, hl, hg, hb⟩
  · exact Or.inl (parse_joint_head_lax ind file bvh parent name open_ x y z count channels t
      more hr rx ry rz hc)
  · rw [e] at hr
    exact Or.inr (parse_joint_head_bad_offset ind file bvh parent name open_ good bad more2
      hr hl hg hb)

/-- The loop of `parse_joint` on child text whose offset tokens are numerals,
followed by the token `t1` and more tokens: it comes to the state in which
`t1` is the token read ahead, or, when an offset is out of range, returns
-1. -/
theorem parse_joint_loop_items_or_fail (ind : Indet) (L : Lax) :
    ∀ (fuel : Nat) (file : IStream) (bvh : BvHSkeleton) (joint : Nat) (children : List Nat)
      (token : String) (t0 : List Char) (toks0 : List (List Char)) (t1 : List Char)
      (toks1 : List (List Char)) (r : JointResult),
      L.well_formed is_numeral = true →
      L.render ++ t1 :: toks1 = t0 :: toks0 →
      token = String.mk t0 →
      Ready file toks0 →
      parse_joint_loop ind fuel file bvh joint children token = some r →
      (∃ fuel1 file1 bvh1 children1, Ready file1 toks1 ∧
        parse_joint_loop ind fuel1 file1 bvh1 joint children1 (String.mk t1) = some r) ∨
      r.ret = -1 := by
  induction L with
  | nil =>
    intro fuel file bvh joint children token t0 toks0 t1 toks1 r _ hrender htok hr hloop
    simp only [Lax.render, List.nil_append, List.cons.injEq] at hrender
    obtain ⟨ht0, htoks⟩ := hrender
    subst htoks
    subst ht0
    subst htok
    exact Or.inl ⟨fuel, file, bvh, children, hr, hloop⟩
  | skip tok rest ih =>
    intro fuel file bvh joint children token t0 toks0 t1 toks1 r hwf hrender htok hr hloop
    simp only [Lax.well_formed, Bool.and_eq_true, decide_eq_true_eq] at hwf
    obtain ⟨⟨⟨h1, h2⟩, h3⟩, hwr⟩ := hwf
    obtain ⟨t2, toks2, hR⟩ := render_cons rest.render t1 toks1
    simp only [Lax.render, List.cons_append, List.cons.injEq] at hrender
    obtain ⟨ht0, htoks⟩ := hrender
    rw [hR] at htoks
    subst htoks
    subst ht0
    subst htok
    have hg := ready_good file _ _ hr
    obtain ⟨s1, e1, r1⟩ := extract_string_ready file (String.mk tok) _ _ hr
    cases fuel with
    | zero =>
      rw [parse_joint_loop_zero _ _ _ _ _ _ hg] at hloop
      cases hloop
    | succ fuel =>
      rw [parse_joint_loop_other _ _ _ _ _ _ _ hg h1 h2 h3, e1] at hloop
      exact ih fuel s1 bvh joint children (String.mk t2) t2 toks2 t1 toks1 r hwr hR rfl r1 hloop
  | joint name open_ x y z count channels kids rest ihk ihr =>
    intro fuel file bvh joint children token t0 toks0 t1 toks1 r hwf hrender htok hr hloop
    simp only [Lax.well_formed, Bool.and_eq_true] at hwf
    obtain ⟨⟨⟨⟨⟨hx, hy⟩, hz⟩, hc⟩, hwk⟩, hwr⟩ := hwf
    obtain ⟨tk, toksk, hK⟩ := render_cons kids.render "\x7d".toList
      (rest.render ++ t1 :: toks1)
    obtain ⟨t2, toks2, hR⟩ := render_cons rest.render t1 toks1
    simp only [Lax.render, List.cons_append, List.append_assoc, List.cons.injEq] at hrender
    obtain ⟨ht0, htoks⟩ := hrender
    rw [hK] at htoks
    subst htoks
    have hg := ready_good file _ _ hr
    have htok' : token = kJoint := by
      rw [htok, ← ht0]
      rfl
    cases fuel with
    | zero =>
      rw [parse_joint_loop_zero _ _ _ _ _ _ hg] at hloop
      cases hloop
    | succ fuel =>
      rw [parse_joint_loop_joint _ _ _ _ _ _ _ hg htok'] at hloop
      rcases parse_joint_head_numerals ind file bvh (some joint) name open_ x y z
        count channels tk toksk hr hx hy hz hc with ⟨f1, ehead, r1⟩ | ⟨f, efail⟩
      · rw [ehead] at hloop
        dsimp only at hloop
        cases hc1 : parse_joint_loop ind fuel f1
            (bvh.add_joint ⟨String.mk name, offset_value x y z, channels, some joint, [], []⟩)
            bvh.joints.length [] (String.mk tk) with
        | none =>
          rw [hc1] at hloop
          cases hloop
        | some rc =>
          rw [hc1] at hloop
          dsimp only at hloop
          rcases ihk fuel f1 _ bvh.joints.length [] (String.mk tk) tk
            toksk "\x7d".toList (rest.render ++ t1 :: toks1) rc hwk hK rfl r1 hc1 with
            ⟨fuelk, filek, bvhk, chk, hrk, hlk⟩ | hret
          · rw [hR] at hrk
            have hgk := ready_good filek _ _ hrk
            cases fuelk with
            | zero =>
              rw [parse_joint_loop_zero _ _ _ _ _ _ hgk] at hlk
              cases hlk
            | succ fuelk =>
              rw [parse_joint_loop_close ind fuelk filek _ _ _ (String.mk "\x7d".toList) hgk
                rfl] at hlk
              cases hlk
              dsimp only at hloop
              rw [if_neg (by simp)] at hloop
              obtain ⟨s2, e2, r2⟩ := extract_string_ready filek token _ _ hrk
              rw [e2] at hloop
              dsimp only at hloop
              exact ihr fuel s2 _ joint _ (String.mk t2) t2 toks2 t1 toks1 r hwr hR rfl r2 hloop
          · rw [if_pos (by rw [hret]; decide)] at hloop
            cases hloop
            exact Or.inr hret
      · rw [efail] at hloop
        cases hloop
        exact Or.inr rfl
  | endsite site open_ x y z close rest ih =>
    intro fuel file bvh joint children token t0 toks0 t1 toks1 r hwf hrender htok hr hloop
    simp only [Lax.well_formed, Bool.and_eq_true] at hwf
    obtain ⟨⟨⟨hx, hy⟩, hz⟩, hwr⟩ := hwf
    obtain ⟨t2, toks2, hR⟩ := render_cons rest.render t1 toks1
    simp only [Lax.render, List.cons_append, List.cons.injEq] at hrender
    obtain ⟨ht0, htoks⟩ := hrender
    rw [hR] at htoks
    subst htoks
    have hg := ready_good file _ _ hr
    have htok' : token = kEnd := by
      rw [htok, ← ht0]
      rfl
    rcases numerals_in_range_or_fail ind.offset_type x y z (close :: t2 :: toks2) hx hy hz with
      ⟨rx, ry, rz⟩ | ⟨good, bad, more2, e, hl, hgd, hb⟩
    · obtain ⟨s1, e1, r1⟩ := extract_string_ready file token _ _ hr
      obtain ⟨s2, e2, r2⟩ := extract_string_ready s1 (String.mk site) _ _ r1
      obtain ⟨s3, e3, r3⟩ := extract_string_ready s2 (String.mk open_) _ _ r2
      obtain ⟨s4, e4, r4⟩ := extract_offset_ready ind.offset_type s3 ind.offset x y z _ r3
        rx ry rz
      obtain ⟨s5, e5, r5⟩ := extract_string_ready s4 (String.mk kOffset.toList) _ _ r4
      obtain ⟨s6, e6, r6⟩ := extract_string_ready s5 (String.mk close) _ _ r5
      cases fuel with
      | zero =>
        rw [parse_joint_loop_zero _ _ _ _ _ _ hg] at hloop
        cases hloop
      | succ fuel =>
        rw [parse_joint_loop_end _ _ _ _ _ _ _ hg htok' _ _ _ _ _ _ e1 e2 e3] at hloop
        have hk : String.mk kOffset.toList = kOffset := rfl
        rw [if_pos hk, e4] at hloop
        dsimp only at hloop
        rw [e5] at hloop
        dsimp only at hloop
        rw [e6] at hloop
        dsimp only at hloop
        exact ih fuel s6 _ joint _ (String.mk t2) t2 toks2 t1 toks1 r hwr hR rfl r6 hloop
    · rw [e] at hr
      exact Or.inr (parse_joint_loop_bad_end ind fuel file bvh joint children token site open_
        good bad more2 r htok' hr hl hgd hb hloop)


/-- A block with a complete header and complete child text before a nested
`JOINT` block: when `parse_joint` fails on the nested block, it fails on the
block. -/
theorem parse_joint_inside (ind : Indet) (fuel : Nat) (file : IStream) (bvh : BvHSkeleton)
    (parent : Option Nat) (name open_ x y z count : List Char) (channels : List Channel)
    (done : Lax) (inner : List (List Char)) (r : JointResult)
    (hr : Ready file (name :: open_ :: kOffset.toList :: x :: y :: z :: kChannels.toList ::
      count :: (channels.map (fun c => c.keyword.toList) ++
        (done.render ++ kJoint.toList :: inner))))
    (hx : is_numeral x = true) (hy : is_numeral y = true) (hz : is_numeral z = true)
    (hc : is_count count channels.length = true) (hd : done.well_formed is_numeral = true)
    (hne : inner ≠ [])
    (H : ∀ fuel file bvh parent r, Ready file inner →
      parse_joint ind fuel file bvh parent = some r → r.ret = -1)
    (h : parse_joint ind fuel file bvh parent = some r) : r.ret = -1 := by
  obtain ⟨tk, toksk, hK⟩ := render_cons done.render kJoint.toList inner
  rw [hK] at hr
  unfold parse_joint at h
  rcases parse_joint_head_numerals ind file bvh parent name open_ x y z
    count channels tk toksk hr hx hy hz hc with ⟨f1, ehead, r1⟩ | ⟨f, efail⟩
  · rw [ehead] at h
    dsimp only at h
    rcases parse_joint_loop_items_or_fail ind done _ f1 _ bvh.joints.length []
      (String.mk tk) tk toksk kJoint.toList inner r hd hK rfl r1 h with
      ⟨fuel1, file1, bvh1, ch1, hr1, hl1⟩ | hret
    · have hg1 := ready_good_of_ne file1 inner hr1 hne
      cases fuel1 with
      | zero =>
        rw [parse_joint_loop_zero _ _ _ _ _ _ hg1] at hl1
        cases hl1
      | succ fuel1 =>
        rw [parse_joint_loop_joint ind fuel1 file1 _ _ _ (String.mk kJoint.toList) hg1
          rfl] at hl1
        cases hh : parse_joint_head ind file1 bvh1 (some bvh.joints.length) with
        | inl r0 =>
          rw [hh] at hl1
          cases hl1
          apply H fuel1 file1 bvh1 (some bvh.joints.length) r hr1
          unfold parse_joint
          rw [hh]
        | inr hd1 =>
          rw [hh] at hl1
          dsimp only at hl1
          cases hc1 : parse_joint_loop ind fuel1 hd1.file hd1.bvh hd1.joint [] hd1.token with
          | none =>
            rw [hc1] at hl1
            cases hl1
          | some rc =>
            rw [hc1] at hl1
            dsimp only at hl1
            have hrc : rc.ret = -1 := by
              apply H fuel1 file1 bvh1 (some bvh.joints.length) rc hr1
              unfold parse_joint
              rw [hh]
              exact hc1
            rw [if_pos (by rw [hrc]; decide)] at hl1
            cases hl1
            exact hrc
    · exact hret
  · rw [efail] at h
    cases h
    rfl

/-- A block with a complete header and complete child text before an `End`
block with an offset token on which the conversion fails: `parse_joint`
fails. -/
theorem parse_joint_bad_end (ind : Indet) (fuel : Nat) (file : IStream) (bvh : BvHSkeleton)
    (parent : Option Nat) (name open_ x y z count : List Char) (channels : List Channel)
    (done : Lax) (site open2 : List Char) (good : List (List Char)) (bad : List Char)
    (more : List (List Char)) (r : JointResult)
    (hr : Ready file (name :: open_ :: kOffset.toList :: x :: y :: z :: kChannels.toList ::
      count :: (channels.map (fun c => c.keyword.toList) ++
        (done.render ++ kEnd.toList :: site :: open2 :: kOffset.toList ::
          (good ++ bad :: more)))))
    (hx : is_numeral x = true) (hy : is_numeral y = true) (hz : is_numeral z = true)
    (hc : is_count count channels.length = true) (hd : done.well_formed is_numeral = true)
    (hl : good.length < 3) (hg : good.all is_numeral = true)
    (hb : (scan_real ind.offset_type bad).1 = false)
    (h : parse_joint ind fuel file bvh parent = some r) : r.ret = -1 := by
  obtain ⟨good2, bad2, more2, e, hl2, hg2, hb2⟩ := first_failure ind.offset_type good bad more
    hg hb
  rw [e] at hr
  obtain ⟨tk, toksk, hK⟩ := render_cons done.render kEnd.toList
    (site :: open2 :: kOffset.toList :: (good2 ++ bad2 :: more2))
  rw [hK] at hr
  unfold parse_joint at h
  rcases parse_joint_head_numerals ind file bvh parent name open_ x y z
    count channels tk toksk hr hx hy hz hc with ⟨f1, ehead, r1⟩ | ⟨f, efail⟩
  · rw [ehead] at h
    dsimp only at h
    rcases parse_joint_loop_items_or_fail ind done _ f1 _ bvh.joints.length []
      (String.mk tk) tk toksk kEnd.toList _ r hd hK rfl r1 h with
      ⟨fuel1, file1, bvh1, ch1, hr1, hl1⟩ | hret
    · exact parse_joint_loop_bad_end ind fuel1 file1 _ _ _ (String.mk kEnd.toList) site open2
        good2 bad2 more2 r rfl hr1 (by omega) hg2 hb2 hl1
    · exact hret
  · rw [efail] at h
    cases h
    rfl

/-- A header with an offset token on which the conversion fails, after fewer
than three numerals: `parse_joint` fails. -/
theorem parse_joint_bad_header_offset (ind : Indet) (fuel : Nat) (file : IStream)
    (bvh : BvHSkeleton) (parent : Option Nat) (name open_ : List Char)
    (good : List (List Char)) (bad : List Char) (more : List (List Char)) (r : JointResult)
    (hr : Ready file (name :: open_ :: kOffset.toList :: (good ++ bad :: more)))
    (hl : good.length < 3) (hg : good.all is_numeral = true)
    (hb : (scan_real ind.offset_type bad).1 = false)
    (h : parse_joint ind fuel file bvh parent = some r) : r.ret = -1 := by
  obtain ⟨good2, bad2, more2, e, hl2, hg2, hb2⟩ := first_failure ind.offset_type good bad more
    hg hb
  rw [e] at hr
  obtain ⟨f, ef⟩ := parse_joint_head_bad_offset ind file bvh parent name open_ good2 bad2 more2
    hr (by omega) hg2 hb2
  unfold parse_joint at h
  rw [ef] at h
  cases h
  rfl

/-- A header whose offsets are numerals, with a token that is no channel name
among the declared channels: `parse_joint` fails. -/
theorem parse_joint_bad_header_channel (ind : Indet) (fuel : Nat) (file : IStream)
    (bvh : BvHSkeleton) (parent : Option Nat) (name open_ x y z count : List Char) (n : Nat)
    (good : List Channel) (bad : List Char) (more : List (List Char)) (r : JointResult)
    (hr : Ready file (name :: open_ :: kOffset.toList :: x :: y :: z :: kChannels.toList ::
      count :: (good.map (fun c => c.keyword.toList) ++ bad :: more)))
    (hx : is_numeral x = true) (hy : is_numeral y = true) (hz : is_numeral z = true)
    (hc : is_count count n = true) (hl : good.length < n)
    (hb : channel_of_token (String.mk bad) = none)
    (h : parse_joint ind fuel file bvh parent = some r) : r.ret = -1 := by
  unfold parse_joint at h
  rcases numerals_in_range_or_fail ind.offset_type x y z
    (kChannels.toList :: count :: (good.map (fun c => c.keyword.toList) ++ bad :: more))
    hx hy hz with ⟨rx, ry, rz⟩ | ⟨good2, bad2, more2, e, hl2, hg2, hb2⟩
  · obtain ⟨f, ef⟩ := parse_joint_head_bad_channel ind file bvh parent name open_ x y z count n
      good bad more hr rx ry rz hc hl hb
    rw [ef] at h
    cases h
    rfl
  · rw [e] at hr
    obtain ⟨f, ef⟩ := parse_joint_head_bad_offset ind file bvh parent name open_ good2 bad2
      more2 hr hl2 hg2 hb2
    rw [ef] at h
    cases h
    rfl

/-- The steps of `parse` down to `parse_joint` for the root, when that call
fails on every stream that delivers the tokens after `ROOT`. -/
theorem parse_of_root_failure (ind : Indet) (content : List Char) (bvh : BvHSkeleton)
    (toks : List (List Char))
    (ht : tokens content = kHierarchy.toList :: kRoot.toList :: toks)
    (H : ∀ file r, Ready file toks →
      parse_joint ind (file.rest.length + 1) file bvh none = some r → r.ret = -1) :
    ∃ file r, parse_joint ind (file.rest.length + 1) file bvh none = some r ∧
      parse ind (some content) bvh = some (-1, r.bvh) := by
  have hr : Ready (IStream.open_ content) (kHierarchy.toList :: kRoot.toList :: toks) :=
    ⟨ht, fun _ => rfl⟩
  obtain ⟨f1, e1, r1⟩ := extract_string_ready _ "" _ _ hr
  obtain ⟨f2, e2, r2⟩ := extract_string_ready f1 "" _ _ r1
  obtain ⟨r, h⟩ := parse_joint_hierarchy_total ind f2 bvh none
  have hret := H f2 r r2 h
  have hh := parse_hierarchy_of_joint ind bvh f1 f2 r (ready_good f1 _ _ r1) e2 h
  rw [if_pos (by rw [hret]; decide)] at hh
  refine ⟨f2, r, h, ?_⟩
  have := parse_of_hierarchy ind content bvh f1 _ _ _ e1 hh
  rw [hret] at this
  exact this

theorem mem_modify {α : Type} (f : α → α) (l : List α) :
    ∀ (n : Nat) (a : α), a ∈ l.modify f n → a ∈ l ∨ ∃ b ∈ l, a = f b := by
  induction l with
  | nil =>
    intro n a h
    simp at h
  | cons x l ih =>
    intro n a h
    cases n with
    | zero =>
      simp only [List.modify_zero_cons, List.mem_cons] at h
      rcases h with h | h
      · exact Or.inr ⟨x, by simp, h⟩
      · exact Or.inl (by simp [h])
    | succ n =>
      simp only [List.modify_succ_cons, List.mem_cons] at h
      rcases h with h | h
      · exact Or.inl (by simp [h])
      · rcases ih n a h with h2 | ⟨b, hb, e⟩
        · exact Or.inl (by simp [h2])
        · exact Or.inr ⟨b, by simp [hb], e⟩

/-- The loop of `parse_joint` writes neither the frame count nor the frame
time nor the root reference, and no motion sample. -/
theorem parse_joint_loop_no_motion (ind : Indet) (fuel : Nat) (file : IStream)
    (bvh : BvHSkeleton) (joint : Nat) (children : List Nat) (token : String) (r : JointResult)
    (h : parse_joint_loop ind fuel file bvh joint children token = some r) :
    r.bvh.num_frames = bvh.num_frames ∧ r.bvh.frame_time = bvh.frame_time ∧
      r.bvh.root_joint = bvh.root_joint ∧
      ((∀ j ∈ bvh.joints, j.motion_data = []) → ∀ j ∈ r.bvh.joints, j.motion_data = []) := by
  refine parse_joint_loop_induct ind (fun _ bvh _ _ _ r =>
    r.bvh.num_frames = bvh.num_frames ∧ r.bvh.frame_time = bvh.frame_time ∧
      r.bvh.root_joint = bvh.root_joint ∧
      ((∀ j ∈ bvh.joints, j.motion_data = []) → ∀ j ∈ r.bvh.joints, j.motion_data = []))
    ?_ ?_ ?_ ?_ ?_ ?_ ?_ ?_ fuel file bvh joint children token r h
  · intro file bvh joint children token _
    exact ⟨rfl, rfl, rfl, fun h => h⟩
  · intro file bvh joint children token r _ _ hh
    rw [(parse_joint_head_inl ind file bvh (some joint) r hh).2.1]
    exact ⟨rfl, rfl, rfl, fun h => h⟩
  · intro file bvh joint children token hd r _ _ hh ⟨p1, p2, p3, p4⟩ _
    obtain ⟨name, offset, channels, hb, _⟩ := parse_joint_head_inr ind file bvh (some joint) hd hh
    rw [hb] at p1 p2 p3 p4
    refine ⟨p1, p2, p3, fun h0 => p4 ?_⟩
    intro j hj
    simp only [BvHSkeleton.add_joint, List.mem_append, List.mem_singleton] at hj
    rcases hj with hj | hj
    · exact h0 j hj
    · rw [hj]
  · intro file bvh joint children token hd r f1 t1 r2 _ _ hh ⟨p1, p2, p3, p4⟩ _ _
      ⟨q1, q2, q3, q4⟩
    obtain ⟨name, offset, channels, hb, _⟩ := parse_joint_head_inr ind file bvh (some joint) hd hh
    rw [hb] at p1 p2 p3 p4
    refine ⟨q1.trans p1, q2.trans p2, q3.trans p3, fun h0 => q4 (p4 ?_)⟩
    intro j hj
    simp only [BvHSkeleton.add_joint, List.mem_append, List.mem_singleton] at hj
    rcases hj with hj | hj
    · exact h0 j hj
    · rw [hj]
  · intro file bvh joint children token f1 t1 f2 t2 f3 t3 _ _ _ _ _ _
    exact ⟨rfl, rfl, rfl, fun h => h⟩
  · intro file bvh joint children token f1 t1 f2 t2 f3 t3 f4 off f5 t5 f6 t6 r2 _ _ _ _ _ _ _ _ _
      ⟨q1, q2, q3, q4⟩
    refine ⟨q1, q2, q3, fun h0 => q4 ?_⟩
    intro j hj
    simp only [BvHSkeleton.add_joint, List.mem_append, List.mem_singleton] at hj
    rcases hj with hj | hj
    · exact h0 j hj
    · rw [hj]
      rfl
  · intro file bvh joint children token _ _
    refine ⟨rfl, rfl, rfl, fun h0 j hj => ?_⟩
    rcases mem_modify _ _ _ _ hj with h1 | ⟨b, hb, e⟩
    · exact h0 j h1
    · rw [e]
      exact h0 b hb
  · intro file bvh joint children token f1 t1 r2 _ _ _ _ _ q
    exact q

/-- A call of `parse_joint` writes neither the frame count nor the frame time
nor the root reference, and no motion sample: the joints it registers have
none. -/
theorem parse_joint_no_motion (ind : Indet) (fuel : Nat) (file : IStream)
    (bvh : BvHSkeleton) (parent : Option Nat) (r : JointResult)
    (h : parse_joint ind fuel file bvh parent = some r) :
    r.bvh.num_frames = bvh.num_frames ∧ r.bvh.frame_time = bvh.frame_time ∧
      r.bvh.root_joint = bvh.root_joint ∧
      ((∀ j ∈ bvh.joints, j.motion_data = []) → ∀ j ∈ r.bvh.joints, j.motion_data = []) := by
  unfold parse_joint at h
  cases hh : parse_joint_head ind file bvh parent with
  | inl r0 =>
    rw [hh] at h
    cases h
    rw [(parse_joint_head_inl ind file bvh parent _ hh).2.1]
    exact ⟨rfl, rfl, rfl, fun h => h⟩
  | inr hd =>
    rw [hh] at h
    dsimp only at h
    obtain ⟨name, offset, channels, hb, _⟩ := parse_joint_head_inr ind file bvh parent hd hh
    obtain ⟨p1, p2, p3, p4⟩ := parse_joint_loop_no_motion ind fuel _ _ _ _ _ r h
    rw [hb] at p1 p2 p3 p4
    refine ⟨p1, p2, p3, fun h0 => p4 ?_⟩
    intro j hj
    simp only [BvHSkeleton.add_joint, List.mem_append, List.mem_singleton] at hj
    rcases hj with hj | hj
    · exact h0 j hj
    · rw [hj]

/-! ## Illegal channel names -/

theorem parse_joint_bad_channel (ind : Indet) (p : Broken) :
    ∀ (fuel : Nat) (file : IStream) (bvh : BvHSkeleton) (parent : Option Nat)
      (more : List (List Char)) (r : JointResult),
      p.well_formed ind.offset_type = true → p.in_channels = true → Ready file (p.render ++ more) →
      parse_joint ind fuel file bvh parent = some r → r.ret = -1 := by
  induction p with
  | offset name open_ good bad =>
    intro fuel file bvh parent more r _ hk
    simp [Broken.in_channels] at hk
  | channel name open_ x y z count n good bad =>
    intro fuel file bvh parent more r hw _ hr h
    simp only [Broken.well_formed, Bool.and_eq_true, decide_eq_true_eq,
      Option.isNone_iff_eq_none] at hw
    obtain ⟨⟨⟨⟨⟨hx, hy⟩, hz⟩, hc⟩, hl⟩, hb⟩ := hw
    simp only [Broken.render, List.cons_append, List.append_assoc, List.singleton_append] at hr
    exact parse_joint_bad_header_channel ind fuel file bvh parent name open_ x y z count n
      good bad more r hr hx hy hz hc hl hb h
  | inside name open_ x y z count channels done inner ih =>
    intro fuel file bvh parent more r hw hk hr h
    simp only [Broken.well_formed, Bool.and_eq_true] at hw
    obtain ⟨⟨⟨⟨⟨hx, hy⟩, hz⟩, hc⟩, hd⟩, hwi⟩ := hw
    simp only [Broken.render, List.cons_append, List.append_assoc] at hr
    exact parse_joint_inside ind fuel file bvh parent name open_ x y z count channels done
      (inner.render ++ more) r hr hx hy hz hc hd (Broken.render_ne_nil _ _)
      (fun fuel file bvh parent r hr h => ih fuel file bvh parent more r hwi hk hr h) h
  | endsite name open_ x y z count channels done site open2 good bad =>
    intro fuel file bvh parent more r _ hk
    simp [Broken.in_channels] at hk

/-- C11: on every file whose tokens are `HIERARCHY`, `ROOT` and a root block
that is well formed up to a token that is none of the six channel names and
stands among the declared channels of the root or of a nested joint (after
fewer names than the count declares), whatever follows that token, `parse`
returns -1, and the skeleton it leaves has the frame count and the frame time
it had before the call and, when no joint had a motion sample before the
call, no joint with a motion sample. -/
theorem parse_illegal_channel (ind : Indet) (content : List Char) (bvh : BvHSkeleton)
    (p : Broken) (more : List (List Char))
    (ht : tokens content = kHierarchy.toList :: kRoot.toList :: (p.render ++ more))
    (hw : p.well_formed ind.offset_type = true) (hk : p.in_channels = true) :
    ∃ b, parse ind (some content) bvh = some (-1, b) ∧
      b.num_frames = bvh.num_frames ∧ b.frame_time = bvh.frame_time ∧
      ((∀ j ∈ bvh.joints, j.motion_data = []) → ∀ j ∈ b.joints, j.motion_data = []) := by
  obtain ⟨file, r, h, hp⟩ := parse_of_root_failure ind content bvh _ ht
    (fun file r hr h => parse_joint_bad_channel ind p _ file bvh none more r hw hk hr h)
  obtain ⟨p1, p2, _, p4⟩ := parse_joint_no_motion ind _ file bvh none r h
  exact ⟨r.bvh, hp, p1, p2, p4⟩

set_option maxRecDepth 100000 in
theorem parse_illegal_channel_witness :
    ∃ b, parse ind0 (some scenario_bad_channel) bvh0 = some (-1, b) ∧
      b.num_frames = bvh0.num_frames ∧ b.frame_time = bvh0.frame_time ∧
      ((∀ j ∈ bvh0.joints, j.motion_data = []) → ∀ j ∈ b.joints, j.motion_data = []) :=
  parse_illegal_channel ind0 scenario_bad_channel bvh0
    (Broken.inside "Hips".toList "\x7b".toList "0".toList "0".toList "0".toList "1".toList
      [Channel.XPOSITION] Lax.nil
      (Broken.channel "Leg".toList "\x7b".toList "0".toList "1".toList "0".toList "2".toList 2
        [Channel.XROTATION] "Wposition".toList))
    ["\x7d".toList, "\x7d".toList, "MOTION".toList, "Frames:".toList, "1".toList,
      "Frame".toList, "Time:".toList, "0.1".toList, "1".toList, "2".toList, "3".toList]
    (by decide) (by decide) (by decide)

/-! ## Offset values that are no numbers -/

theorem parse_joint_bad_offset (ind : Indet) (p : Broken) :
    ∀ (fuel : Nat) (file : IStream) (bvh : BvHSkeleton) (parent : Option Nat)
      (more : List (List Char)) (r : JointResult),
      p.well_formed ind.offset_type = true → p.in_offset = true → Ready file (p.render ++ more) →
      parse_joint ind fuel file bvh parent = some r → r.ret = -1 := by
  induction p with
  | offset name open_ good bad =>
    intro fuel file bvh parent more r hw _ hr h
    simp only [Broken.well_formed, Bool.and_eq_true, decide_eq_true_eq,
      Bool.not_eq_true'] at hw
    obtain ⟨⟨hl, hg⟩, hb⟩ := hw
    simp only [Broken.render, List.cons_append, List.append_assoc, List.singleton_append] at hr
    exact parse_joint_bad_header_offset ind fuel file bvh parent name open_ good bad more r
      hr hl hg hb h
  | channel name open_ x y z count n good bad =>
    intro fuel file bvh parent more r _ hk
    simp [Broken.in_offset] at hk
  | inside name open_ x y z count channels done inner ih =>
    intro fuel file bvh parent more r hw hk hr h
    simp only [Broken.well_formed, Bool.and_eq_true] at hw
    obtain ⟨⟨⟨⟨⟨hx, hy⟩, hz⟩, hc⟩, hd⟩, hwi⟩ := hw
    simp only [Broken.render, List.cons_append, List.append_assoc] at hr
    exact parse_joint_inside ind fuel file bvh parent name open_ x y z count channels done
      (inner.render ++ more) r hr hx hy hz hc hd (Broken.render_ne_nil _ _)
      (fun fuel file bvh parent r hr h => ih fuel file bvh parent more r hwi hk hr h) h
  | endsite name open_ x y z count channels done site open2 good bad =>
    intro fuel file bvh parent more r hw _ hr h
    simp only [Broken.well_formed, Bool.and_eq_true, decide_eq_true_eq,
      Bool.not_eq_true'] at hw
    obtain ⟨⟨⟨⟨⟨⟨⟨hx, hy⟩, hz⟩, hc⟩, hd⟩, hl⟩, hg⟩, hb⟩ := hw
    simp only [Broken.render, List.cons_append, List.append_assoc, List.singleton_append] at hr
    exact parse_joint_bad_end ind fuel file bvh parent name open_ x y z count channels done
      site open2 good bad more r hr hx hy hz hc hd hl hg hb h

set_option maxRecDepth 100000 in
/-- C17, as the claim states it, fails: the third offset value of the root is
the token `0CHANNELS`, which is no number, and `parse` returns 0; the
extraction converts the numeral `0` and leaves `CHANNELS` to be read as the
next token. -/
theorem parse_offset_prefix_counterexample :
    (tokens scenario_offset_prefix).take 8 =
      ["HIERARCHY".toList, "ROOT".toList, "Hips".toList, "\x7b".toList, "OFFSET".toList,
        "0".toList, "0".toList, "0CHANNELS".toList] ∧
    is_real ind0.offset_type "0CHANNELS".toList = false ∧
    parse ind0 (some scenario_offset_prefix) bvh0 =
      some (0, ⟨some 0, [⟨"Hips", ⟨Decimal.zero, Decimal.zero, Decimal.zero⟩, [], none, [], []⟩],
        0, ⟨false, 1, -1⟩⟩) := by
  refine ⟨by decide, by decide, by decide⟩

/-- C17, amended: on every file whose tokens are `HIERARCHY`, `ROOT` and a
root block that is well formed up to a token on which the conversion to a
number fails and that stands at one of the three values after `OFFSET`, in
the header of the root or of a nested joint or in an `End` block, whatever
follows that token, `parse` returns -1.  The conversion fails when the
characters the extraction takes from the start of the token (sign, digits,
point, digits, exponent) hold no mantissa digit, or an exponent marker
without exponent digit, or are a numeral out of the range of the type of the
offset components. -/
theorem parse_offset_not_a_number (ind : Indet) (content : List Char) (bvh : BvHSkeleton)
    (p : Broken) (more : List (List Char))
    (ht : tokens content = kHierarchy.toList :: kRoot.toList :: (p.render ++ more))
    (hw : p.well_formed ind.offset_type = true) (hk : p.in_offset = true) :
    ∃ b, parse ind (some content) bvh = some (-1, b) := by
  obtain ⟨file, r, _, hp⟩ := parse_of_root_failure ind content bvh _ ht
    (fun file r hr h => parse_joint_bad_offset ind p _ file bvh none more r hw hk hr h)
  exact ⟨r.bvh, hp⟩

set_option maxRecDepth 100000 in
theorem parse_offset_not_a_number_witness :
    ∃ b, parse ind0 (some scenario_bad_offset) bvh0 = some (-1, b) :=
  parse_offset_not_a_number ind0 scenario_bad_offset bvh0
    (Broken.endsite "Hips".toList "\x7b".toList "0".toList "0".toList "0".toList "0".toList
      [] Lax.nil "Site".toList "\x7b".toList ["0".toList] "abc".toList)
    ["0".toList, "\x7d".toList, "\x7d".toList, "MOTION".toList, "Frames:".toList, "0".toList,
      "Frame".toList, "Time:".toList, "0.1".toList]
    (by decide) (by decide) (by decide)

end bvh
